import Mathlib

/-! # Verification of the touch-nav gesture tracker

Shallow embedding of `touch/touch.go` (package `touch` of griffithsh/touch-nav).

Modelling decisions, all of them visible in the definitions below:

* `ebiten.TouchID` and Go `int` are modelled by `Int`.  Go's 64-bit wrap-around
  (`wrap64`) does not occur on coordinates in screen range; the theorems whose
  content depends on the value of a difference or of a distance are stated for
  that range (section "Range of the coordinates").
* `map[ebiten.TouchID]*touch` is an association list with one entry per key.
  Go leaves the order of a `range` over a map unspecified; the model visits the
  entries in list order.  Every pointer stored in the map is created by its own
  `&touch{...}` expression, so no two entries alias and a write through
  `in.touches[id]` is an update of the entry of `id`.
* The host (ebiten / inpututil) is a per-frame snapshot `Frame`.
* `hypotenuse` returns `math.Sqrt` of a natural number.  The value is kept
  exactly, as the number under the root (`Hyp`), and the three comparisons the
  program makes on such values are decided in integer arithmetic; the lemmas
  `Hyp.ltNat_iff`, `Hyp.gtFrac_iff` and `Hyp.absSubGt_iff` relate them to the
  real square root.  The rounding of `float64` is not modelled: distances are
  real numbers, and in screen range the comparisons of the program have the
  same outcome on both.
* A nil-pointer dereference or an out-of-range index is a `Fault`.
-/

namespace TouchNav

/-! ## Numbers -/

/-- Identifier of a touch, `ebiten.TouchID` (a Go `int`). -/
abbrev TouchID := Int

/-- Value of `math.Sqrt(n)` for a natural number `n`, represented by `n`. -/
structure Hyp where
  radicand : Nat
deriving DecidableEq

/-- Go `hypotenuse`: `x := |xa - xb|`, `y := |ya - yb|`, `sqrt (x*x + y*y)`. -/
def hypotenuse (xa ya xb yb : Int) : Hyp :=
  let x := (xa - xb).natAbs
  let y := (ya - yb).natAbs
  ⟨x * x + y * y⟩

/-- Go `math.Abs` applied to a square root, which is never negative. -/
def Hyp.abs (h : Hyp) : Hyp := h

/-- Comparison `h < k` for a natural number `k` (used as `diff < 5`). -/
def Hyp.ltNat (h : Hyp) (k : Nat) : Bool := decide (h.radicand < k * k)

/-- Comparison `h > n / d` for a positive `d` (used as `diff > 0.25`, that is
`n = 1`, `d = 4`). -/
def Hyp.gtFrac (h : Hyp) (n d : Nat) : Bool := decide (n * n < h.radicand * (d * d))

/-- Comparison `math.Abs(a - b) > k` for a natural number `k` (used with `k = 3`). -/
def Hyp.absSubGt (a b : Hyp) (k : Nat) : Bool :=
  let hi := max a.radicand b.radicand
  let lo := min a.radicand b.radicand
  decide (lo + k * k < hi ∧ 4 * (k * k) * lo < (hi - lo - k * k) * (hi - lo - k * k))

/-- Difference `minuend - subtrahend` of two square roots, the kind of number
the pinch queries return. -/
structure HypDiff where
  minuend : Hyp
  subtrahend : Hyp
deriving DecidableEq

/-- Go `a - b` on two distances. -/
def Hyp.sub (a b : Hyp) : HypDiff := ⟨a, b⟩

/-- Go unary minus on a difference of distances. -/
def HypDiff.neg (d : HypDiff) : HypDiff := ⟨d.subtrahend, d.minuend⟩

/-- Test `d == 0`. -/
def HypDiff.isZero (d : HypDiff) : Bool := decide (d.minuend.radicand = d.subtrahend.radicand)

/-- Test `d > 0`. -/
def HypDiff.isPos (d : HypDiff) : Bool := decide (d.subtrahend.radicand < d.minuend.radicand)

/-- Test `d < 0`. -/
def HypDiff.isNeg (d : HypDiff) : Bool := decide (d.minuend.radicand < d.subtrahend.radicand)

/-! ## Data model -/

/-- Go `type touch struct`. -/
structure touch where
  originX : Int
  originY : Int
  currX : Int
  currY : Int
  duration : Int
  wasPinch : Bool
  isPan : Bool
deriving DecidableEq

/-- Go `type pinch struct`. -/
structure pinch where
  id1 : TouchID
  id2 : TouchID
  originH : Hyp
  prevH : Hyp
deriving DecidableEq

/-- Go `type pan struct`. -/
structure pan where
  id : TouchID
  prevX : Int
  prevY : Int
  originX : Int
  originY : Int
deriving DecidableEq

/-- Go `type tap struct`. -/
structure tap where
  X : Int
  Y : Int
deriving DecidableEq

/-- Go `type Input struct`; a nil gesture pointer is `none`. -/
structure Input where
  touches : List (TouchID × touch)
  Pinch : Option pinch
  Pan : Option pan
  Taps : List tap
deriving DecidableEq

/-- What the host reports during one frame: `inpututil.IsTouchJustReleased`,
`inpututil.JustPressedTouchIDs`, `ebiten.TouchIDs`, `ebiten.TouchPosition` and
`inpututil.TouchPressDuration`. -/
structure Frame where
  isTouchJustReleased : TouchID → Bool
  justPressedTouchIDs : List TouchID
  touchIDs : List TouchID
  touchPosition : TouchID → Int × Int
  touchPressDuration : TouchID → Int

/-- Run-time faults of the Go code. -/
inductive Fault where
  | nilDereference
  | indexOutOfRange
deriving DecidableEq

/-! ## The map of tracked touches -/

/-- Keys of the map. -/
def keys (m : List (TouchID × touch)) : List TouchID := m.map Prod.fst

/-- Go `m[id]`; `none` is the nil pointer returned for a missing key. -/
def lookup (m : List (TouchID × touch)) (id : TouchID) : Option touch :=
  match m with
  | [] => none
  | e :: rest => if e.1 = id then some e.2 else lookup rest id

/-- Go `delete(m, id)`. -/
def erase (m : List (TouchID × touch)) (id : TouchID) : List (TouchID × touch) :=
  m.filter (fun e => decide (e.1 ≠ id))

/-- Write through the pointer `m[id]`: the record of `id` becomes `g` of it. -/
def modify (m : List (TouchID × touch)) (id : TouchID) (g : touch → touch) :
    List (TouchID × touch) :=
  m.map (fun e => if e.1 = id then (e.1, g e.2) else e)

/-- Go `m[id] = &t`: replaces the record of a present key, adds a missing key. -/
def store (m : List (TouchID × touch)) (id : TouchID) (t : touch) :
    List (TouchID × touch) :=
  match lookup m id with
  | some _ => modify m id (fun _ => t)
  | none => m ++ [(id, t)]

/-! ## Update -/

/-- Go `NewInput`. -/
def NewInput : Input := { touches := [], Pinch := none, Pan := none, Taps := [] }

/-- Line 43: `in.Pinch != nil && (id == in.Pinch.id1 || id == in.Pinch.id2)`. -/
def pinchHas (P : Option pinch) (id : TouchID) : Bool :=
  match P with
  | none => false
  | some p => decide (id = p.id1) || decide (id = p.id2)

/-- Line 47: `in.Pan != nil && id == in.Pan.id`. -/
def panHas (P : Option pan) (id : TouchID) : Bool :=
  match P with
  | none => false
  | some p => decide (id = p.id)

/-- Lines 54-55: the condition under which a released touch is a tap. -/
def isTap (t : touch) : Bool :=
  let diff := hypotenuse t.originX t.originY t.currX t.currY
  !t.wasPinch && !t.isPan && (decide (t.duration ≤ 75) || diff.ltNat 5)

/-- Lines 42-63: body of the loop over the tracked touches. -/
def releaseStep (f : Frame) (s : Input) (e : TouchID × touch) : Input :=
  if f.isTouchJustReleased e.1 then
    let s1 := if pinchHas s.Pinch e.1 then { s with Pinch := none } else s
    let s2 := if panHas s1.Pan e.1 then { s1 with Pan := none } else s1
    let s3 := if isTap e.2 then { s2 with Taps := s2.Taps ++ [{ X := e.2.currX, Y := e.2.currY }] }
      else s2
    { s3 with touches := erase s3.touches e.1 }
  else s

/-- Lines 41-64: "What's gone?".  The range visits every entry the map had when
the loop started (the body deletes only the entry being visited). -/
def releaseLoop (f : Frame) (s : Input) : Input :=
  s.touches.foldl (releaseStep f) s

/-- Lines 68-72: body of the loop over the newly pressed identifiers. -/
def pressStep (f : Frame) (s : Input) (id : TouchID) : Input :=
  let p := f.touchPosition id
  let t : touch := { originX := p.1, originY := p.2, currX := p.1, currY := p.2,
                     duration := 0, wasPinch := false, isPan := false }
  { s with touches := store s.touches id t }

/-- Lines 67-73: "What's new?". -/
def pressLoop (f : Frame) (s : Input) : Input :=
  f.justPressedTouchIDs.foldl (pressStep f) s

/-- Lines 77-79: body of the loop over the active identifiers; `t` is nil when
the identifier is not tracked, and the write to `t.duration` then faults. -/
def refreshStep (f : Frame) (s : Input) (id : TouchID) : Except Fault Input :=
  match lookup s.touches id with
  | none => .error .nilDereference
  | some _ =>
    .ok { s with touches := modify s.touches id (fun t =>
      { t with duration := f.touchPressDuration id,
               currX := (f.touchPosition id).1, currY := (f.touchPosition id).2 }) }

/-- Lines 76-80: "What's going on?". -/
def refreshLoop (f : Frame) : List TouchID → Input → Except Fault Input
  | [], s => .ok s
  | id :: ids, s =>
    match refreshStep f s id with
    | .error e => .error e
    | .ok s1 => refreshLoop f ids s1

/-- Go `xs[i]` on a slice. -/
def index (xs : List TouchID) (i : Nat) : Except Fault TouchID :=
  match xs[i]? with
  | none => .error .indexOutOfRange
  | some x => .ok x

/-- Dereference of a pointer read from the map. -/
def deref (t : Option touch) : Except Fault touch :=
  match t with
  | none => .error .nilDereference
  | some t => .ok t

/-- Lines 87-100: the branch taken when two touches are tracked. -/
def detectPinch (f : Frame) (s : Input) : Except Fault Input :=
  match index f.touchIDs 0, index f.touchIDs 1 with
  | .error e, _ => .error e
  | _, .error e => .error e
  | .ok id1, .ok id2 =>
    match deref (lookup s.touches id1), deref (lookup s.touches id2) with
    | .error e, _ => .error e
    | _, .error e => .error e
    | .ok t1, .ok t2 =>
      let originDiff := hypotenuse t1.originX t1.originY t2.originX t2.originY
      let currDiff := hypotenuse t1.currX t1.currY t2.currX t2.currY
      if s.Pinch.isNone && s.Pan.isNone && originDiff.absSubGt currDiff 3 then
        .ok { s with
          touches := modify (modify s.touches id1 (fun t => { t with wasPinch := true }))
            id2 (fun t => { t with wasPinch := true }),
          Pinch := some { id1 := id1, id2 := id2, originH := originDiff, prevH := originDiff } }
      else .ok s

/-- Lines 103-117: the branch taken when one touch is tracked. -/
def detectPan (f : Frame) (s : Input) : Except Fault Input :=
  match index f.touchIDs 0 with
  | .error e => .error e
  | .ok id =>
    match deref (lookup s.touches id) with
    | .error e => .error e
    | .ok t =>
      if !t.wasPinch && s.Pan.isNone && s.Pinch.isNone then
        let diff := (hypotenuse t.originX t.originY t.currX t.currY).abs
        if diff.gtFrac 1 4 then
          .ok { s with
            touches := modify s.touches id (fun t => { t with isPan := true }),
            Pan := some { id := id, originX := t.originX, originY := t.originY,
                          prevX := t.originX, prevY := t.originY } }
        else .ok s
      else .ok s

/-- Lines 82-118: gesture detection, chosen by `len(in.touches)`. -/
def detect (f : Frame) (s : Input) : Except Fault Input :=
  if s.touches.length = 2 then detectPinch f s
  else if s.touches.length = 1 then detectPan f s
  else .ok s

/-- Lines 38-80: the state when gesture detection starts. -/
def refreshed (f : Frame) (s : Input) : Except Fault Input :=
  refreshLoop f f.touchIDs (pressLoop f (releaseLoop f { s with Taps := [] }))

/-- Go `(*Input).Update`; `.ok` is the `return nil` of line 120. -/
def Update (f : Frame) (s : Input) : Except Fault Input :=
  match refreshed f s with
  | .error e => .error e
  | .ok m => detect f m

/-- Successive calls of `Update`, one per frame. -/
def run : Input → List Frame → Except Fault Input
  | s, [] => .ok s
  | s, f :: fs =>
    match Update f s with
    | .error e => .error e
    | .ok s1 => run s1 fs

/-! ## Gesture queries -/

/-- Go `(*pinch).currentH`. -/
def pinch.currentH (f : Frame) (p : pinch) : Hyp :=
  let p1 := f.touchPosition p.id1
  let p2 := f.touchPosition p.id2
  hypotenuse p1.1 p1.2 p2.1 p2.2

/-- Go `(*pinch).Total`. -/
def pinch.Total (f : Frame) (p : pinch) : HypDiff :=
  ((p.currentH f).sub p.originH).neg

/-- Go `(*pinch).Incremental`: the returned value and the pinch afterwards. -/
def pinch.Incremental (f : Frame) (p : pinch) : HypDiff × pinch :=
  let curr := p.currentH f
  let delta := curr.sub p.prevH
  (delta.neg, { p with prevH := curr })

/-- Go `(*pan).Total`; the `float64` of an `int` difference is kept as the
integer. -/
def pan.Total (f : Frame) (p : pan) : Int × Int :=
  let c := f.touchPosition p.id
  (c.1 - p.originX, c.2 - p.originY)

/-- Go `(*pan).Incremental`: the returned value and the pan afterwards. -/
def pan.Incremental (f : Frame) (p : pan) : (Int × Int) × pan :=
  let c := f.touchPosition p.id
  let deltaX := c.1 - p.prevX
  let deltaY := c.2 - p.prevY
  ((deltaX, deltaY), { p with prevX := c.1, prevY := c.2 })

/-! ## Auxiliary definitions used to state the theorems -/

/-- Tap emitted at the release of a tracked touch. -/
def tapAt (e : TouchID × touch) : tap := { X := e.2.currX, Y := e.2.currY }

/-- Record created at line 69 for a newly pressed identifier. -/
def pressed (f : Frame) (id : TouchID) : touch :=
  { originX := (f.touchPosition id).1, originY := (f.touchPosition id).2,
    currX := (f.touchPosition id).1, currY := (f.touchPosition id).2,
    duration := 0, wasPinch := false, isPan := false }

/-- Effect of lines 78-79 on the record of an active identifier. -/
def observe (f : Frame) (id : TouchID) (t : touch) : touch :=
  { t with duration := f.touchPressDuration id,
           currX := (f.touchPosition id).1, currY := (f.touchPosition id).2 }

/-- Touches after the refresh loop over `l`: every entry whose key is in `l` has
been observed. -/
def observeAll (f : Frame) (l : List TouchID) (m : List (TouchID × touch)) :
    List (TouchID × touch) :=
  m.map (fun e => if e.1 ∈ l then (e.1, observe f e.1 e.2) else e)

/-- State written by lines 92-99 when a pinch between `id1` and `id2` starts
with origin distance `d`. -/
def startPinch (s : Input) (id1 id2 : TouchID) (d : Hyp) : Input :=
  { s with
    touches := modify (modify s.touches id1 (fun t => { t with wasPinch := true }))
      id2 (fun t => { t with wasPinch := true }),
    Pinch := some { id1 := id1, id2 := id2, originH := d, prevH := d } }

/-- State written by lines 108-115 when a pan of the touch `id`, whose record
is `t`, starts. -/
def startPan (s : Input) (id : TouchID) (t : touch) : Input :=
  { s with
    touches := modify s.touches id (fun t => { t with isPan := true }),
    Pan := some { id := id, originX := t.originX, originY := t.originY,
                  prevX := t.originX, prevY := t.originY } }

/-- Guard of line 91 for the two records `t1` and `t2`. -/
def pinchGuard (s : Input) (t1 t2 : touch) : Bool :=
  s.Pinch.isNone && s.Pan.isNone &&
    (hypotenuse t1.originX t1.originY t2.originX t2.originY).absSubGt
      (hypotenuse t1.currX t1.currY t2.currX t2.currY) 3

/-- Guards of lines 105 and 107 for the record `t`. -/
def panGuard (s : Input) (t : touch) : Bool :=
  (!t.wasPinch && s.Pan.isNone && s.Pinch.isNone) &&
    (hypotenuse t.originX t.originY t.currX t.currY).abs.gtFrac 1 4

/-- State after lines 38-73: taps cleared, releases and new presses processed. -/
def afterPress (f : Frame) (s : Input) : Input :=
  pressLoop f (releaseLoop f { s with Taps := [] })

/-! ## Concrete frames -/

/-- Frame in which the identifiers of `released` are reported just released,
those of `justPressed` just pressed, and the active touches are the entries
`(id, x, y, duration)` of `active`; the host reports position `(0, 0)` and
duration `0` for an identifier that is not active. -/
def Frame.ofLists (released justPressed : List TouchID)
    (active : List (TouchID × Int × Int × Int)) : Frame :=
  { isTouchJustReleased := fun id => decide (id ∈ released),
    justPressedTouchIDs := justPressed,
    touchIDs := active.map (fun a => a.1),
    touchPosition := fun id =>
      match active.find? (fun a => decide (a.1 = id)) with
      | some a => (a.2.1, a.2.2.1)
      | none => (0, 0),
    touchPressDuration := fun id =>
      match active.find? (fun a => decide (a.1 = id)) with
      | some a => a.2.2.2
      | none => 0 }

/-- Scenario A: touch 0 pressed at (10,10), seen at (11,11) with duration 50,
then released. -/
def scenarioA : List Frame :=
  [Frame.ofLists [] [0] [(0, 10, 10, 0)],
   Frame.ofLists [] [] [(0, 11, 11, 50)],
   Frame.ofLists [0] [] []]

/-- Scenario C: touches 0 and 1 pressed at (0,0) and (10,0), then seen at
(0,0) and (20,0). -/
def scenarioC : List Frame :=
  [Frame.ofLists [] [0, 1] [(0, 0, 0, 0), (1, 10, 0, 0)],
   Frame.ofLists [] [] [(0, 0, 0, 1), (1, 20, 0, 1)]]

/-- State reached by scenario C. -/
def stateC : Input :=
  { touches := [(0, ⟨0, 0, 0, 0, 1, true, false⟩), (1, ⟨10, 0, 20, 0, 1, true, false⟩)],
    Pinch := some ⟨0, 1, ⟨100⟩, ⟨100⟩⟩, Pan := none, Taps := [] }

/-- State in which touch 0, pressed at (10,10) and never seen elsewhere, is
the only tracked touch, and `Taps` still holds a tap of an earlier frame. -/
def stateOneStill : Input :=
  { touches := [(0, ⟨10, 10, 10, 10, 200, false, false⟩)], Pinch := none, Pan := none,
    Taps := [⟨3, 4⟩] }

/-- Frame `f` reports no identifier as newly pressed that is tracked in `s` and
stays tracked through the release loop. -/
def noRepress (f : Frame) (s : Input) : Bool :=
  f.justPressedTouchIDs.all (fun id =>
    !decide (id ∈ keys s.touches) || f.isTouchJustReleased id)

/-- Successive calls of `Update` on frames that each satisfy `ok` in the state
they are applied to; `none` when a frame does not satisfy `ok` or a call
faults. -/
def runWhile (ok : Frame → Input → Bool) : Input → List Frame → Option Input
  | s, [] => some s
  | s, f :: fs =>
    if ok f s then
      match Update f s with
      | .error _ => none
      | .ok s1 => runWhile ok s1 fs
    else none

/-- Frame after scenario C in which both touches are still down, touch 1 now
at (30,0). -/
def frameCmove : Frame := Frame.ofLists [] [] [(0, 0, 0, 2), (1, 30, 0, 2)]

/-- State reached from `stateC` by `frameCmove`. -/
def stateCmove : Input :=
  { touches := [(0, ⟨0, 0, 0, 0, 2, true, false⟩), (1, ⟨10, 0, 30, 0, 2, true, false⟩)],
    Pinch := some ⟨0, 1, ⟨100⟩, ⟨100⟩⟩, Pan := none, Taps := [] }

/-- State after the first frame of scenario A. -/
def stateA1 : Input :=
  { touches := [(0, ⟨10, 10, 10, 10, 0, false, false⟩)], Pinch := none, Pan := none, Taps := [] }

/-- State after the second frame of scenario A: the touch has been seen at
(11,11) and a pan has started on it. -/
def stateA2 : Input :=
  { touches := [(0, ⟨10, 10, 11, 11, 50, false, true⟩)], Pinch := none,
    Pan := some ⟨0, 10, 10, 10, 10⟩, Taps := [] }

/-- State after the release frame of scenario A. -/
def stateA3 : Input :=
  { touches := [], Pinch := none, Pan := none, Taps := [] }

/-- Frame after scenario C in which touch 0 is released and touch 1 stays
at (20,0). -/
def frameCrelease : Frame := Frame.ofLists [0] [] [(1, 20, 0, 2)]

/-- State reached from `stateC` by `frameCrelease`. -/
def stateCreleased : Input :=
  { touches := [(1, ⟨10, 0, 20, 0, 2, true, false⟩)], Pinch := none, Pan := none, Taps := [] }

/-- Frames in which touch 0 is pressed at (0,0) and dragged to (0,1), which
starts a pan on it, and then touch 1 is pressed at (5,5). -/
def scenarioHandover : List Frame :=
  [Frame.ofLists [] [0] [(0, 0, 0, 0)],
   Frame.ofLists [] [] [(0, 0, 1, 1)],
   Frame.ofLists [] [1] [(0, 0, 1, 2), (1, 5, 5, 0)]]

/-- State reached by `scenarioHandover`: two tracked touches, a pan on touch 0. -/
def stateHandover : Input :=
  { touches := [(0, ⟨0, 0, 0, 1, 2, false, true⟩), (1, ⟨5, 5, 5, 5, 0, false, false⟩)],
    Pinch := none, Pan := some ⟨0, 0, 0, 0, 0⟩, Taps := [] }

/-- Frame in which touch 0 is released while touch 1 is seen at (6,6). -/
def frameHandover : Frame := Frame.ofLists [0] [] [(1, 6, 6, 1)]

/-- State reached from `stateHandover` by `frameHandover`: a pan on touch 1. -/
def stateHandedOver : Input :=
  { touches := [(1, ⟨5, 5, 6, 6, 1, false, true⟩)],
    Pinch := none, Pan := some ⟨1, 5, 5, 5, 5⟩, Taps := [] }

/-- Frame `f` is consistent with the state `s` of the tracker: the active
identifiers are distinct, none of them is reported released, and they are the
tracked identifiers that are not released together with the newly pressed
ones. -/
def hostConsistent (f : Frame) (s : Input) : Bool :=
  decide f.touchIDs.Nodup &&
    f.touchIDs.all (fun id => !f.isTouchJustReleased id) &&
    f.touchIDs.all (fun id =>
      (decide (id ∈ keys s.touches) && !f.isTouchJustReleased id) ||
        decide (id ∈ f.justPressedTouchIDs)) &&
    (keys s.touches).all (fun id => f.isTouchJustReleased id || decide (id ∈ f.touchIDs)) &&
    f.justPressedTouchIDs.all (fun id => decide (id ∈ f.touchIDs))

/-- State after the first frame of scenario C: both touches tracked, unmoved. -/
def stateC1 : Input :=
  { touches := [(0, ⟨0, 0, 0, 0, 0, false, false⟩), (1, ⟨10, 0, 10, 0, 0, false, false⟩)],
    Pinch := none, Pan := none, Taps := [] }

/-- Second frame of scenario C: the touches are seen at (0,0) and (20,0). -/
def frameC2 : Frame := Frame.ofLists [] [] [(0, 0, 0, 1), (1, 20, 0, 1)]

/-- State after the first frame of `scenarioHandover`: touch 0 tracked at (0,0). -/
def statePressed : Input :=
  { touches := [(0, ⟨0, 0, 0, 0, 0, false, false⟩)], Pinch := none, Pan := none, Taps := [] }

/-- Frame in which touch 0 is seen at (0,1). -/
def frameDrag : Frame := Frame.ofLists [] [] [(0, 0, 1, 1)]

/-- State reached from `statePressed` by `frameDrag`: a pan on touch 0. -/
def stateDragged : Input :=
  { touches := [(0, ⟨0, 0, 0, 1, 1, false, true⟩)], Pinch := none,
    Pan := some ⟨0, 0, 0, 0, 0⟩, Taps := [] }

/-- Frame after `frameCrelease` in which the surviving touch 1 is seen far
away, at (90,70). -/
def frameCfar : Frame := Frame.ofLists [] [] [(1, 90, 70, 3)]

/-- State reached from `stateCreleased` by `frameCfar`: still no pan. -/
def stateCfar : Input :=
  { touches := [(1, ⟨10, 0, 90, 70, 3, true, false⟩)], Pinch := none, Pan := none, Taps := [] }

/-- Frame after `frameCmove` in which touch 0 is released and touch 1 stays at
(30,0). -/
def frameCmoveRelease : Frame := Frame.ofLists [0] [] [(1, 30, 0, 3)]

/-- State reached from `stateCmove` by `frameCmoveRelease`. -/
def stateCmoveReleased : Input :=
  { touches := [(1, ⟨10, 0, 30, 0, 3, true, false⟩)], Pinch := none, Pan := none, Taps := [] }

/-- The pinch of `stateC`: touches 0 and 1, origin distance 10. -/
def pinchC : pinch := { id1 := 0, id2 := 1, originH := ⟨100⟩, prevH := ⟨100⟩ }

/-- A call of `Total` through the pointer to a pinch: the returned value and the
pinch afterwards (the body of `Total` assigns to no field). -/
def pinch.TotalCall (f : Frame) (p : pinch) : HypDiff × pinch := (p.Total f, p)

/-- A call of `Total` through the pointer to a pan: the returned value and the
pan afterwards (the body of `Total` assigns to no field). -/
def pan.TotalCall (f : Frame) (p : pan) : (Int × Int) × pan := (p.Total f, p)

/-- Successive calls of `Incremental` on a pan, one per frame of the list: the
returned values in call order and the pan afterwards. -/
def pan.Incrementals : pan → List Frame → List (Int × Int) × pan
  | p, [] => ([], p)
  | p, f :: fs =>
    ((p.Incremental f).1 :: (pan.Incrementals (p.Incremental f).2 fs).1,
      (pan.Incrementals (p.Incremental f).2 fs).2)

/-- The host's call `in.Pan.Incremental()` (as in `demo.Update`, lines 41-45 of
`main.go`): the returned value and the tracker afterwards, whose pan has been
written through the pointer; `none` when `Pan` is nil. -/
def Input.panIncremental (f : Frame) (s : Input) : Option ((Int × Int) × Input) :=
  match s.Pan with
  | none => none
  | some p => some ((p.Incremental f).1, { s with Pan := some (p.Incremental f).2 })

/-- Scenario B: touch 0 pressed at (0,0), seen at (0,1), then seen at (0,5). -/
def scenarioB : List Frame :=
  [Frame.ofLists [] [0] [(0, 0, 0, 0)], frameDrag, Frame.ofLists [] [] [(0, 0, 5, 2)]]

/-- Third frame of scenario B: touch 0 seen at (0,5). -/
def frameB3 : Frame := Frame.ofLists [] [] [(0, 0, 5, 2)]

/-- The pan created in scenario B. -/
def panB : pan := { id := 0, prevX := 0, prevY := 0, originX := 0, originY := 0 }

/-- State after the three frames of scenario B when the host has made no query. -/
def stateB3 : Input :=
  { touches := [(0, ⟨0, 0, 0, 5, 2, false, true⟩)], Pinch := none, Pan := some panB, Taps := [] }

/-- State after the second frame of scenario B and the host's call of
`Incremental`: the previous position of the pan is (0,1). -/
def stateB2queried : Input :=
  { touches := [(0, ⟨0, 0, 0, 1, 1, false, true⟩)], Pinch := none,
    Pan := some { id := 0, prevX := 0, prevY := 1, originX := 0, originY := 0 }, Taps := [] }

/-- State reached from `stateB2queried` by the third frame of scenario B. -/
def stateB3queried : Input :=
  { touches := [(0, ⟨0, 0, 0, 5, 2, false, true⟩)], Pinch := none,
    Pan := some { id := 0, prevX := 0, prevY := 1, originX := 0, originY := 0 }, Taps := [] }

/-- Frame that reports touch 0 active at (0,0) without reporting it newly
pressed. -/
def frameStray : Frame := Frame.ofLists [] [] [(0, 0, 0, 1)]

/-- Frame without any active, pressed or released touch. -/
def frameIdle : Frame := Frame.ofLists [] [] []

/-- Frame that reports the tracked touch 0 newly pressed again, at (7,7). -/
def frameRepress : Frame := Frame.ofLists [] [0] [(0, 7, 7, 1)]

/-- State reached from `stateDragged` by `frameRepress`: the record of touch 0
has been replaced. -/
def stateRepressed : Input :=
  { touches := [(0, ⟨7, 7, 7, 7, 1, false, false⟩)], Pinch := none,
    Pan := some ⟨0, 0, 0, 0, 0⟩, Taps := [] }

/-- Every frame of the list is host-consistent with the state it is applied
to, as far as the calls of `Update` complete. -/
def consistentRun : Input → List Frame → Bool
  | _, [] => true
  | s, f :: fs =>
    hostConsistent f s &&
      match Update f s with
      | .error _ => true
      | .ok s1 => consistentRun s1 fs

/-- Release step in the words of the specification (step 2 of the `Update`
algorithm): a released touch that is part of the current pinch destroys the
pinch; else, one that is part of the current pan destroys the pan; else the tap
test is made; in each case the touch is removed. -/
def specReleaseStep (f : Frame) (s : Input) (e : TouchID × touch) : Input :=
  if f.isTouchJustReleased e.1 then
    let s1 :=
      if pinchHas s.Pinch e.1 then { s with Pinch := none }
      else if panHas s.Pan e.1 then { s with Pan := none }
      else if isTap e.2 then { s with Taps := s.Taps ++ [{ X := e.2.currX, Y := e.2.currY }] }
      else s
    { s1 with touches := erase s1.touches e.1 }
  else s

/-- Release processing in the words of the specification. -/
def specReleaseLoop (f : Frame) (s : Input) : Input :=
  s.touches.foldl (specReleaseStep f) s

/-- Classification invariant of the tracker: distinct keys, at most one
gesture, the touches of the pinch are tracked with `wasPinch`, the touch of the
pan is tracked with `isPan` and without `wasPinch`, and a record with `isPan`
belongs to the touch of the pan. -/
def classified (s : Input) : Prop :=
  (keys s.touches).Nodup ∧
  (s.Pan = none ∨ s.Pinch = none) ∧
  (∀ p, s.Pinch = some p →
    (∃ t, lookup s.touches p.id1 = some t ∧ t.wasPinch = true) ∧
      (∃ t, lookup s.touches p.id2 = some t ∧ t.wasPinch = true)) ∧
  (∀ q, s.Pan = some q →
    ∃ t, lookup s.touches q.id = some t ∧ t.isPan = true ∧ t.wasPinch = false) ∧
  (∀ id t, lookup s.touches id = some t → t.isPan = true → ∃ q, s.Pan = some q ∧ q.id = id)

/-- Frame after scenario C that reports the tracked touch 0 newly pressed again
at (0,0) while touch 1 stays at (20,0); it is host-consistent with `stateC`. -/
def frameCrepress : Frame := Frame.ofLists [] [0] [(0, 0, 0, 0), (1, 20, 0, 2)]

/-- State reached from `stateC` by `frameCrepress`: the pinch is still active and
the record of touch 0 is new. -/
def stateCrepressed : Input :=
  { touches := [(0, ⟨0, 0, 0, 0, 0, false, false⟩), (1, ⟨10, 0, 20, 0, 2, true, false⟩)],
    Pinch := some pinchC, Pan := none, Taps := [] }

/-- The touch `id`, with origin `(ox, oy)`, is the only tracked touch, and either
a pan has started on it or it has not been seen away from its origin and no
gesture is active. -/
def loneTouch (id : TouchID) (ox oy : Int) (s : Input) : Prop :=
  ∃ t, s.touches = [(id, t)] ∧ t.originX = ox ∧ t.originY = oy ∧
    (t.isPan = true ∨
      (t.currX = ox ∧ t.currY = oy ∧ t.wasPinch = false ∧ s.Pan = none ∧ s.Pinch = none))

/-- Frame in which touch 0 is seen at its origin (0,0), held for 200. -/
def frameHold : Frame := Frame.ofLists [] [] [(0, 0, 0, 200)]

/-- State reached from `statePressed` by `frameHold`. -/
def stateHeld : Input :=
  { touches := [(0, ⟨0, 0, 0, 0, 200, false, false⟩)], Pinch := none, Pan := none, Taps := [] }

/-- Frame in which touch 0 is released. -/
def frameRelease0 : Frame := Frame.ofLists [0] [] []

/-- Frame in which touch 0 is newly pressed at (0,0). -/
def framePress0 : Frame := Frame.ofLists [] [0] [(0, 0, 0, 0)]

/-- State reached from `stateHeld` by `frameRelease0`: one tap, at (0,0). -/
def stateTapped : Input :=
  { touches := [], Pinch := none, Pan := none, Taps := [⟨0, 0⟩] }

/-! ## Range of the coordinates

The theorems about numeric results are stated for coordinates in screen range,
of magnitude at most `coordBound`.  In that range the differences that the
program takes on Go `int` do not wrap (`wrap64` is the identity on them), the
sum of squares under a square root is below 2^53 and so exact in `float64`, and
the comparisons that the program makes on `float64` distances (`< 5`, `> 0.25`,
`math.Abs(a - b) > 3`, the sign of a difference) have the outcome of the same
comparison on the real distances. -/

/-- Go `int` arithmetic: the 64-bit two's complement value of the integer `v`. -/
def wrap64 (v : Int) : Int :=
  (v + 9223372036854775808) % 18446744073709551616 - 9223372036854775808

/-- Largest magnitude of a coordinate in screen range. -/
def coordBound : Int := 8192

/-- The point `(x, y)` is in screen range. -/
def inScreen (x y : Int) : Bool :=
  decide (-coordBound ≤ x) && decide (x ≤ coordBound) &&
    decide (-coordBound ≤ y) && decide (y ≤ coordBound)

/-- Origin and current position of the record are in screen range. -/
def touch.inScreen (t : touch) : Bool :=
  TouchNav.inScreen t.originX t.originY && TouchNav.inScreen t.currX t.currY

/-- Every tracked record is in screen range. -/
def Input.inScreen (s : Input) : Bool := s.touches.all (fun e => e.2.inScreen)

/-- The positions that the frame reports for the identifiers `ids` are in screen
range. -/
def Frame.inScreen (f : Frame) (ids : List TouchID) : Bool :=
  ids.all (fun id => TouchNav.inScreen (f.touchPosition id).1 (f.touchPosition id).2)

/-- Largest number under the square root for the distance between two points in
screen range: `2 * 16384 ^ 2`. -/
def distBound : Nat := 536870912

/-- The distance is one between two points in screen range. -/
def Hyp.inScreen (h : Hyp) : Bool := decide (h.radicand ≤ distBound)

/-! ## The map helpers -/

theorem lookup_modify (m : List (TouchID × touch)) (id id' : TouchID) (g : touch → touch) :
    lookup (modify m id g) id' = if id' = id then (lookup m id').map g else lookup m id' := by
  induction m with
  | nil => simp [modify, lookup]
  | cons e rest ih =>
    simp only [modify, List.map_cons] at ih ⊢
    by_cases h1 : e.1 = id <;> by_cases h2 : e.1 = id' <;> by_cases h3 : id' = id <;>
      simp_all [lookup]

theorem keys_modify (m : List (TouchID × touch)) (id : TouchID) (g : touch → touch) :
    keys (modify m id g) = keys m := by
  induction m with
  | nil => rfl
  | cons e rest ih =>
    simp only [modify, keys, List.map_cons] at ih ⊢
    by_cases h1 : e.1 = id <;> simp [h1, ih]

theorem length_modify (m : List (TouchID × touch)) (id : TouchID) (g : touch → touch) :
    (modify m id g).length = m.length := by
  simp [modify]

theorem lookup_eq_none_iff (m : List (TouchID × touch)) (id : TouchID) :
    lookup m id = none ↔ id ∉ keys m := by
  induction m with
  | nil => simp [lookup, keys]
  | cons e rest ih =>
    simp only [keys, List.map_cons, List.mem_cons, not_or] at ih ⊢
    by_cases h : e.1 = id
    · simp [lookup, h]
    · simp [lookup, h, ih, Ne.symm h]

theorem lookup_isSome_iff (m : List (TouchID × touch)) (id : TouchID) :
    (∃ t, lookup m id = some t) ↔ id ∈ keys m := by
  rw [← not_iff_not, ← lookup_eq_none_iff]
  cases lookup m id <;> simp

theorem lookup_filter (m : List (TouchID × touch)) (q : TouchID → Bool) (id : TouchID) :
    lookup (m.filter (fun e => q e.1)) id = if q id then lookup m id else none := by
  induction m with
  | nil => simp [lookup]
  | cons e rest ih =>
    by_cases h1 : q e.1 <;> by_cases h2 : e.1 = id
    · subst h2; simp [List.filter_cons, h1, lookup]
    · simp [List.filter_cons, h1, lookup, h2, ih]
    · subst h2; simp [List.filter_cons, h1, ih]
    · simp [List.filter_cons, h1, lookup, h2, ih]

theorem lookup_erase (m : List (TouchID × touch)) (id id' : TouchID) :
    lookup (erase m id) id' = if id' = id then none else lookup m id' := by
  have := lookup_filter m (fun k => decide (k ≠ id)) id'
  simp only [erase]
  rw [this]
  by_cases h : id' = id <;> simp [h]

theorem lookup_append (m n : List (TouchID × touch)) (id : TouchID) :
    lookup (m ++ n) id = (lookup m id).orElse (fun _ => lookup n id) := by
  induction m with
  | nil => simp [lookup]
  | cons e rest ih =>
    by_cases h : e.1 = id <;> simp [lookup, h, ih]

theorem lookup_store (m : List (TouchID × touch)) (id id' : TouchID) (t : touch) :
    lookup (store m id t) id' = if id' = id then some t else lookup m id' := by
  unfold store
  cases hl : lookup m id with
  | some t0 =>
    simp only [lookup_modify]
    by_cases h : id' = id
    · subst h; simp [hl]
    · simp [h]
  | none =>
    simp only [lookup_append]
    by_cases h : id' = id
    · subst h; simp [hl, lookup]
    · have h' : ¬ id = id' := fun e => h e.symm
      cases lookup m id' <;> simp [lookup, h, h']

theorem keys_store (m : List (TouchID × touch)) (id : TouchID) (t : touch) :
    keys (store m id t) = if id ∈ keys m then keys m else keys m ++ [id] := by
  unfold store
  cases hl : lookup m id with
  | some t0 =>
    have : id ∈ keys m := (lookup_isSome_iff m id).1 ⟨t0, hl⟩
    simp [this, keys_modify]
  | none =>
    have : id ∉ keys m := (lookup_eq_none_iff m id).1 hl
    rw [if_neg this]
    simp [keys]

/-! ## Release processing -/

theorem releaseStep_of_not_released (f : Frame) (s : Input) (e : TouchID × touch)
    (h : f.isTouchJustReleased e.1 = false) : releaseStep f s e = s := by
  simp [releaseStep, h]

theorem releaseStep_touches (f : Frame) (s : Input) (e : TouchID × touch) :
    (releaseStep f s e).touches =
      s.touches.filter (fun x => !(f.isTouchJustReleased x.1 && decide (x.1 = e.1))) := by
  cases h : f.isTouchJustReleased e.1
  · rw [releaseStep_of_not_released f s e h]
    symm
    rw [List.filter_eq_self]
    intro x _
    by_cases hx : x.1 = e.1
    · simp [hx, h]
    · simp [hx]
  · unfold releaseStep
    simp only [h, if_true]
    split_ifs <;> simp only [erase] <;> apply List.filter_congr <;> intro x _ <;>
      by_cases hx : x.1 = e.1 <;> simp [hx, h]

theorem releaseStep_Taps (f : Frame) (s : Input) (e : TouchID × touch) :
    (releaseStep f s e).Taps =
      s.Taps ++ (if f.isTouchJustReleased e.1 && isTap e.2
        then [{ X := e.2.currX, Y := e.2.currY }] else []) := by
  cases h : f.isTouchJustReleased e.1
  · rw [releaseStep_of_not_released f s e h]; simp
  · unfold releaseStep
    simp only [h, if_true]
    split_ifs <;> simp_all

theorem releaseStep_Pinch (f : Frame) (s : Input) (e : TouchID × touch) :
    (releaseStep f s e).Pinch =
      if f.isTouchJustReleased e.1 && pinchHas s.Pinch e.1 then none else s.Pinch := by
  cases h : f.isTouchJustReleased e.1
  · rw [releaseStep_of_not_released f s e h]; simp
  · unfold releaseStep
    simp only [h, if_true]
    split_ifs <;> simp_all

theorem releaseStep_Pan (f : Frame) (s : Input) (e : TouchID × touch) :
    (releaseStep f s e).Pan =
      if f.isTouchJustReleased e.1 && panHas s.Pan e.1 then none else s.Pan := by
  cases h : f.isTouchJustReleased e.1
  · rw [releaseStep_of_not_released f s e h]; simp
  · unfold releaseStep
    simp only [h, if_true]
    split_ifs <;> simp_all

theorem foldl_release_touches (f : Frame) (l : List (TouchID × touch)) (s : Input) :
    (l.foldl (releaseStep f) s).touches =
      s.touches.filter (fun x => !(f.isTouchJustReleased x.1 && decide (x.1 ∈ keys l))) := by
  induction l generalizing s with
  | nil => simp [keys]
  | cons e rest ih =>
    rw [List.foldl_cons, ih, releaseStep_touches, List.filter_filter]
    apply List.filter_congr
    intro x _
    simp only [keys, List.map_cons, List.mem_cons]
    cases f.isTouchJustReleased x.1 <;> by_cases h1 : x.1 = e.1 <;>
      by_cases h2 : x.1 ∈ List.map Prod.fst rest <;> simp [h1, h2]

theorem foldl_release_Taps (f : Frame) (l : List (TouchID × touch)) (s : Input) :
    (l.foldl (releaseStep f) s).Taps =
      s.Taps ++ (l.filter (fun e => f.isTouchJustReleased e.1 && isTap e.2)).map tapAt := by
  induction l generalizing s with
  | nil => simp
  | cons e rest ih =>
    rw [List.foldl_cons, ih, releaseStep_Taps]
    by_cases h : (f.isTouchJustReleased e.1 && isTap e.2) = true
    · simp [List.filter_cons, h, tapAt]
    · simp [List.filter_cons, h]

theorem foldl_release_Pinch (f : Frame) (l : List (TouchID × touch)) (s : Input) :
    (l.foldl (releaseStep f) s).Pinch =
      if l.any (fun e => f.isTouchJustReleased e.1 && pinchHas s.Pinch e.1) then none
      else s.Pinch := by
  induction l generalizing s with
  | nil => simp
  | cons e rest ih =>
    rw [List.foldl_cons, ih, releaseStep_Pinch, List.any_cons]
    by_cases h : (f.isTouchJustReleased e.1 && pinchHas s.Pinch e.1) = true
    · rw [if_pos h, h]
      simp [pinchHas]
    · rw [if_neg h, Bool.eq_false_iff.2 h]
      rfl

theorem foldl_release_Pan (f : Frame) (l : List (TouchID × touch)) (s : Input) :
    (l.foldl (releaseStep f) s).Pan =
      if l.any (fun e => f.isTouchJustReleased e.1 && panHas s.Pan e.1) then none
      else s.Pan := by
  induction l generalizing s with
  | nil => simp
  | cons e rest ih =>
    rw [List.foldl_cons, ih, releaseStep_Pan, List.any_cons]
    by_cases h : (f.isTouchJustReleased e.1 && panHas s.Pan e.1) = true
    · rw [if_pos h, h]
      simp [panHas]
    · rw [if_neg h, Bool.eq_false_iff.2 h]
      rfl

theorem releaseLoop_touches (f : Frame) (s : Input) :
    (releaseLoop f s).touches = s.touches.filter (fun x => !f.isTouchJustReleased x.1) := by
  rw [releaseLoop, foldl_release_touches]
  apply List.filter_congr
  intro x hx
  have : x.1 ∈ keys s.touches := List.mem_map_of_mem Prod.fst hx
  simp [this]

theorem releaseLoop_Taps (f : Frame) (s : Input) :
    (releaseLoop f s).Taps =
      s.Taps ++ (s.touches.filter (fun e => f.isTouchJustReleased e.1 && isTap e.2)).map tapAt :=
  foldl_release_Taps f s.touches s

theorem releaseLoop_Pinch (f : Frame) (s : Input) :
    (releaseLoop f s).Pinch =
      if s.touches.any (fun e => f.isTouchJustReleased e.1 && pinchHas s.Pinch e.1) then none
      else s.Pinch :=
  foldl_release_Pinch f s.touches s

theorem releaseLoop_Pan (f : Frame) (s : Input) :
    (releaseLoop f s).Pan =
      if s.touches.any (fun e => f.isTouchJustReleased e.1 && panHas s.Pan e.1) then none
      else s.Pan :=
  foldl_release_Pan f s.touches s

/-! ## New presses and refresh -/

theorem pressStep_eq (f : Frame) (s : Input) (id : TouchID) :
    pressStep f s id = { s with touches := store s.touches id (pressed f id) } := rfl

theorem foldl_press_gestures (f : Frame) (l : List TouchID) (s : Input) :
    (l.foldl (pressStep f) s).Pinch = s.Pinch ∧ (l.foldl (pressStep f) s).Pan = s.Pan ∧
      (l.foldl (pressStep f) s).Taps = s.Taps := by
  induction l generalizing s with
  | nil => simp
  | cons id rest ih =>
    rw [List.foldl_cons]
    obtain ⟨h1, h2, h3⟩ := ih (pressStep f s id)
    rw [h1, h2, h3]
    simp [pressStep_eq]

theorem foldl_press_lookup (f : Frame) (l : List TouchID) (s : Input) (id : TouchID) :
    lookup (l.foldl (pressStep f) s).touches id =
      if id ∈ l then some (pressed f id) else lookup s.touches id := by
  induction l generalizing s with
  | nil => simp
  | cons k rest ih =>
    rw [List.foldl_cons, ih]
    by_cases h1 : id ∈ rest
    · simp [h1]
    · by_cases h2 : id = k
      · subst h2; simp [h1, pressStep_eq, lookup_store]
      · simp [h1, h2, pressStep_eq, lookup_store]

theorem foldl_press_keys (f : Frame) (l : List TouchID) (s : Input) (id : TouchID) :
    id ∈ keys (l.foldl (pressStep f) s).touches ↔ id ∈ keys s.touches ∨ id ∈ l := by
  rw [← lookup_isSome_iff, foldl_press_lookup, ← lookup_isSome_iff]
  by_cases h : id ∈ l <;> simp [h]

theorem keys_store_nodup (m : List (TouchID × touch)) (id : TouchID) (t : touch)
    (h : (keys m).Nodup) : (keys (store m id t)).Nodup := by
  rw [keys_store]
  by_cases hm : id ∈ keys m
  · simpa [hm] using h
  · rw [if_neg hm]
    exact List.Nodup.append h (List.nodup_singleton id) (by simpa using hm)

theorem foldl_press_nodup (f : Frame) (l : List TouchID) (s : Input)
    (h : (keys s.touches).Nodup) : (keys (l.foldl (pressStep f) s).touches).Nodup := by
  induction l generalizing s with
  | nil => simpa using h
  | cons k rest ih =>
    rw [List.foldl_cons]
    apply ih
    rw [pressStep_eq]
    exact keys_store_nodup _ _ _ h

theorem refreshStep_eq (f : Frame) (s : Input) (id : TouchID) :
    refreshStep f s id =
      if id ∈ keys s.touches then
        .ok { s with touches := modify s.touches id (observe f id) }
      else .error .nilDereference := by
  unfold refreshStep
  cases hl : lookup s.touches id with
  | none =>
    have : id ∉ keys s.touches := (lookup_eq_none_iff _ _).1 hl
    simp [this]
  | some t =>
    have : id ∈ keys s.touches := (lookup_isSome_iff _ _).1 ⟨t, hl⟩
    simp only [this, if_true]
    rfl

theorem observe_observe (f : Frame) (id : TouchID) (t : touch) :
    observe f id (observe f id t) = observe f id t := rfl

theorem keys_observeAll (f : Frame) (l : List TouchID) (m : List (TouchID × touch)) :
    keys (observeAll f l m) = keys m := by
  induction m with
  | nil => rfl
  | cons e rest ih =>
    simp only [observeAll, keys, List.map_cons] at ih ⊢
    by_cases h : e.1 ∈ l <;> simp [h, ih]

theorem modify_observeAll (f : Frame) (l : List TouchID) (m : List (TouchID × touch))
    (id : TouchID) :
    observeAll f l (modify m id (observe f id)) = observeAll f (id :: l) m := by
  simp only [observeAll, modify, List.map_map]
  apply List.map_congr_left
  intro e _
  by_cases h1 : e.1 = id <;> by_cases h2 : e.1 ∈ l <;>
    simp [h1, h2, observe_observe]

theorem refreshLoop_eq (f : Frame) (l : List TouchID) (s : Input) :
    refreshLoop f l s =
      if ∀ id ∈ l, id ∈ keys s.touches then
        .ok { s with touches := observeAll f l s.touches }
      else .error .nilDereference := by
  induction l generalizing s with
  | nil =>
    simp [refreshLoop, observeAll]
  | cons k rest ih =>
    rw [refreshLoop, refreshStep_eq]
    by_cases hk : k ∈ keys s.touches
    · simp only [hk, if_true]
      rw [ih]
      simp only [keys_modify, modify_observeAll, List.mem_cons, forall_eq_or_imp, hk, true_and]
    · simp [hk]

/-! ## Gesture detection -/

theorem detectPinch_eval (f : Frame) (s : Input) (id1 id2 : TouchID) (t1 t2 : touch)
    (h0 : f.touchIDs[0]? = some id1) (h1 : f.touchIDs[1]? = some id2)
    (ht1 : lookup s.touches id1 = some t1) (ht2 : lookup s.touches id2 = some t2) :
    detectPinch f s = .ok (if pinchGuard s t1 t2 then
      startPinch s id1 id2 (hypotenuse t1.originX t1.originY t2.originX t2.originY) else s) := by
  simp only [detectPinch, index, h0, h1, ht1, ht2, deref, pinchGuard, startPinch]
  split_ifs <;> rfl

theorem detectPinch_inv (f : Frame) (s s1 : Input) (h : detectPinch f s = .ok s1) :
    ∃ id1 id2 t1 t2, f.touchIDs[0]? = some id1 ∧ f.touchIDs[1]? = some id2 ∧
      lookup s.touches id1 = some t1 ∧ lookup s.touches id2 = some t2 := by
  cases h0 : f.touchIDs[0]? with
  | none => simp [detectPinch, index, h0] at h
  | some id1 =>
    cases h1 : f.touchIDs[1]? with
    | none => simp [detectPinch, index, h0, h1] at h
    | some id2 =>
      cases ht1 : lookup s.touches id1 with
      | none => simp [detectPinch, index, deref, h0, h1, ht1] at h
      | some t1 =>
        cases ht2 : lookup s.touches id2 with
        | none => simp [detectPinch, index, deref, h0, h1, ht1, ht2] at h
        | some t2 => exact ⟨id1, id2, t1, t2, rfl, rfl, ht1, ht2⟩

theorem detectPan_eval (f : Frame) (s : Input) (id : TouchID) (t : touch)
    (h0 : f.touchIDs[0]? = some id) (ht : lookup s.touches id = some t) :
    detectPan f s = .ok (if panGuard s t then startPan s id t else s) := by
  simp only [detectPan, index, h0, ht, deref, panGuard, startPan]
  split_ifs <;> simp_all

theorem detectPan_inv (f : Frame) (s s1 : Input) (h : detectPan f s = .ok s1) :
    ∃ id t, f.touchIDs[0]? = some id ∧ lookup s.touches id = some t := by
  cases h0 : f.touchIDs[0]? with
  | none => simp [detectPan, index, h0] at h
  | some id =>
    cases ht : lookup s.touches id with
    | none => simp [detectPan, index, deref, h0, ht] at h
    | some t => exact ⟨id, t, rfl, ht⟩

/-- Every successful detection leaves the state alone, starts a pinch, or
starts a pan; a gesture starts only when none is active. -/
theorem detect_cases (f : Frame) (s s1 : Input) (h : detect f s = .ok s1) :
    s1 = s ∨
    (∃ id1 id2 t1 t2, s.touches.length = 2 ∧
      f.touchIDs[0]? = some id1 ∧ f.touchIDs[1]? = some id2 ∧
      lookup s.touches id1 = some t1 ∧ lookup s.touches id2 = some t2 ∧
      pinchGuard s t1 t2 = true ∧
      s1 = startPinch s id1 id2 (hypotenuse t1.originX t1.originY t2.originX t2.originY)) ∨
    (∃ id t, s.touches.length = 1 ∧ f.touchIDs[0]? = some id ∧
      lookup s.touches id = some t ∧ panGuard s t = true ∧ s1 = startPan s id t) := by
  unfold detect at h
  by_cases h2 : s.touches.length = 2
  · rw [if_pos h2] at h
    obtain ⟨id1, id2, t1, t2, h0, h1, ht1, ht2⟩ := detectPinch_inv f s s1 h
    rw [detectPinch_eval f s id1 id2 t1 t2 h0 h1 ht1 ht2] at h
    by_cases hg : pinchGuard s t1 t2 = true
    · rw [if_pos hg] at h
      exact Or.inr (Or.inl ⟨id1, id2, t1, t2, h2, h0, h1, ht1, ht2, hg, (Except.ok.inj h).symm⟩)
    · rw [if_neg hg] at h
      exact Or.inl (Except.ok.inj h).symm
  · rw [if_neg h2] at h
    by_cases h1 : s.touches.length = 1
    · rw [if_pos h1] at h
      obtain ⟨id, t, h0, ht⟩ := detectPan_inv f s s1 h
      rw [detectPan_eval f s id t h0 ht] at h
      by_cases hg : panGuard s t = true
      · rw [if_pos hg] at h
        exact Or.inr (Or.inr ⟨id, t, h1, h0, ht, hg, (Except.ok.inj h).symm⟩)
      · rw [if_neg hg] at h
        exact Or.inl (Except.ok.inj h).symm
    · rw [if_neg h1] at h
      exact Or.inl (Except.ok.inj h).symm

/-! ## The state when detection starts -/

theorem afterPress_Pinch (f : Frame) (s : Input) :
    (afterPress f s).Pinch =
      if s.touches.any (fun e => f.isTouchJustReleased e.1 && pinchHas s.Pinch e.1) then none
      else s.Pinch := by
  unfold afterPress pressLoop
  rw [(foldl_press_gestures f _ _).1, releaseLoop_Pinch]

theorem afterPress_Pan (f : Frame) (s : Input) :
    (afterPress f s).Pan =
      if s.touches.any (fun e => f.isTouchJustReleased e.1 && panHas s.Pan e.1) then none
      else s.Pan := by
  unfold afterPress pressLoop
  rw [(foldl_press_gestures f _ _).2.1, releaseLoop_Pan]

theorem afterPress_Taps (f : Frame) (s : Input) :
    (afterPress f s).Taps =
      (s.touches.filter (fun e => f.isTouchJustReleased e.1 && isTap e.2)).map tapAt := by
  unfold afterPress pressLoop
  rw [(foldl_press_gestures f _ _).2.2, releaseLoop_Taps]
  simp

theorem afterPress_lookup (f : Frame) (s : Input) (id : TouchID) :
    lookup (afterPress f s).touches id =
      if id ∈ f.justPressedTouchIDs then some (pressed f id)
      else if f.isTouchJustReleased id then none else lookup s.touches id := by
  unfold afterPress pressLoop
  rw [foldl_press_lookup, releaseLoop_touches]
  have := lookup_filter s.touches (fun k => !f.isTouchJustReleased k) id
  simp only at this
  rw [this]
  cases f.isTouchJustReleased id <;> simp

theorem afterPress_nodup (f : Frame) (s : Input) (h : (keys s.touches).Nodup) :
    (keys (afterPress f s).touches).Nodup := by
  unfold afterPress pressLoop
  apply foldl_press_nodup
  rw [releaseLoop_touches]
  exact List.Nodup.sublist (List.Sublist.map _ (List.filter_sublist _)) h

theorem refreshed_eq (f : Frame) (s : Input) :
    refreshed f s =
      if ∀ id ∈ f.touchIDs, id ∈ keys (afterPress f s).touches then
        .ok { afterPress f s with touches := observeAll f f.touchIDs (afterPress f s).touches }
      else .error .nilDereference := by
  unfold refreshed
  rw [refreshLoop_eq]
  rfl

theorem refreshed_inv (f : Frame) (s m : Input) (h : refreshed f s = .ok m) :
    (∀ id ∈ f.touchIDs, id ∈ keys (afterPress f s).touches) ∧
      m = { afterPress f s with touches := observeAll f f.touchIDs (afterPress f s).touches } := by
  rw [refreshed_eq] at h
  by_cases hk : ∀ id ∈ f.touchIDs, id ∈ keys (afterPress f s).touches
  · rw [if_pos hk] at h
    exact ⟨hk, (Except.ok.inj h).symm⟩
  · rw [if_neg hk] at h
    cases h

theorem Update_inv (f : Frame) (s s1 : Input) (h : Update f s = .ok s1) :
    ∃ m, refreshed f s = .ok m ∧ detect f m = .ok s1 := by
  unfold Update at h
  cases hm : refreshed f s with
  | error e => simp [hm] at h
  | ok m =>
    simp only [hm] at h
    exact ⟨m, rfl, h⟩

theorem run_snoc (s : Input) (fs : List Frame) (f : Frame) :
    run s (fs ++ [f]) =
      match run s fs with
      | .error e => .error e
      | .ok s1 => Update f s1 := by
  induction fs generalizing s with
  | nil =>
    simp only [List.nil_append, run]
    cases Update f s <;> rfl
  | cons g gs ih =>
    simp only [List.cons_append, run]
    cases Update g s with
    | error e => rfl
    | ok s1 => exact ih s1

/-! ## Runs and invariants -/

theorem run_invariant (P : Input → Prop)
    (hstep : ∀ f s s1, P s → Update f s = .ok s1 → P s1) :
    ∀ (fs : List Frame) (s s1 : Input), P s → run s fs = .ok s1 → P s1 := by
  intro fs
  induction fs with
  | nil =>
    intro s s1 hP h
    simp only [run] at h
    cases h
    exact hP
  | cons f fs ih =>
    intro s s1 hP h
    simp only [run] at h
    cases hu : Update f s with
    | error e => simp [hu] at h
    | ok s2 =>
      simp only [hu] at h
      exact ih s2 s1 (hstep f s s2 hP hu) h

theorem refreshed_gestures (f : Frame) (s m : Input) (h : refreshed f s = .ok m) :
    (m.Pinch = none ∨ m.Pinch = s.Pinch) ∧ (m.Pan = none ∨ m.Pan = s.Pan) := by
  obtain ⟨_, hm⟩ := refreshed_inv f s m h
  subst hm
  simp only [afterPress_Pinch, afterPress_Pan]
  constructor <;> split_ifs <;> simp

theorem Update_exclusive (f : Frame) (s s1 : Input)
    (hs : s.Pan = none ∨ s.Pinch = none) (h : Update f s = .ok s1) :
    s1.Pan = none ∨ s1.Pinch = none := by
  obtain ⟨m, hm, hd⟩ := Update_inv f s s1 h
  obtain ⟨hpi, hpa⟩ := refreshed_gestures f s m hm
  have hmx : m.Pan = none ∨ m.Pinch = none := by
    rcases hs with hs | hs
    · left; rcases hpa with h1 | h1
      · exact h1
      · rw [h1, hs]
    · right; rcases hpi with h1 | h1
      · exact h1
      · rw [h1, hs]
  rcases detect_cases f m s1 hd with h1 | ⟨id1, id2, t1, t2, _, _, _, _, _, hg, h1⟩ |
      ⟨id, t, _, _, _, hg, h1⟩
  · rw [h1]; exact hmx
  · left
    simp only [pinchGuard, Bool.and_eq_true, Option.isNone_iff_eq_none] at hg
    rw [h1]
    exact hg.1.2
  · right
    simp only [panGuard, Bool.and_eq_true, Option.isNone_iff_eq_none] at hg
    rw [h1]
    exact hg.1.2

/-- C1: in every state reached from `NewInput` by a sequence of completed
`Update` calls, `Pan` and `Pinch` are not both non-nil. -/
theorem pan_pinch_never_both (fs : List Frame) (s : Input)
    (h : run NewInput fs = .ok s) : ¬ (s.Pan.isSome = true ∧ s.Pinch.isSome = true) := by
  have key : s.Pan = none ∨ s.Pinch = none :=
    run_invariant (fun s => s.Pan = none ∨ s.Pinch = none)
      (fun f s s1 hs hu => Update_exclusive f s s1 hs hu) fs NewInput s (Or.inl rfl) h
  rintro ⟨h1, h2⟩
  rcases key with k | k
  · rw [k] at h1; cases h1
  · rw [k] at h2; cases h2

theorem pan_pinch_never_both_witness :
    run NewInput scenarioC = .ok stateC ∧
      ¬ (stateC.Pan.isSome = true ∧ stateC.Pinch.isSome = true) :=
  ⟨rfl, pan_pinch_never_both scenarioC stateC rfl⟩


/-! ## Meaning of the exact distance arithmetic in the real numbers -/

theorem hypotenuse_radicand (xa ya xb yb : Int) :
    ((hypotenuse xa ya xb yb).radicand : ℝ) =
      ((xa : ℝ) - (xb : ℝ)) ^ 2 + ((ya : ℝ) - (yb : ℝ)) ^ 2 := by
  have h1 : ∀ n : Int, ((n.natAbs : ℕ) : ℝ) * ((n.natAbs : ℕ) : ℝ) = (n : ℝ) ^ 2 := by
    intro n
    rw [Nat.cast_natAbs, Int.cast_abs, abs_mul_abs_self, sq]
  simp only [hypotenuse, Nat.cast_add, Nat.cast_mul]
  rw [h1, h1]
  push_cast
  ring

theorem hypotenuse_symm (xa ya xb yb : Int) :
    hypotenuse xa ya xb yb = hypotenuse xb yb xa ya := by
  have h : ∀ a b : Int, (a - b).natAbs = (b - a).natAbs := by
    intro a b
    rw [← Int.natAbs_neg, neg_sub]
  simp only [hypotenuse, h xa xb, h ya yb]

theorem Hyp.ltNat_iff (h : Hyp) (k : Nat) :
    h.ltNat k = true ↔ Real.sqrt (h.radicand : ℝ) < (k : ℝ) := by
  rw [Real.sqrt_lt (Nat.cast_nonneg _) (Nat.cast_nonneg _)]
  simp only [Hyp.ltNat, decide_eq_true_eq]
  rw [sq]
  exact_mod_cast Iff.rfl

theorem Hyp.gtFrac_iff (h : Hyp) (n d : Nat) (hd : 0 < d) :
    h.gtFrac n d = true ↔ (n : ℝ) / (d : ℝ) < Real.sqrt (h.radicand : ℝ) := by
  have hd' : (0 : ℝ) < (d : ℝ) := by exact_mod_cast hd
  rw [Real.lt_sqrt (div_nonneg (Nat.cast_nonneg _) hd'.le)]
  simp only [Hyp.gtFrac, decide_eq_true_eq]
  rw [div_pow, div_lt_iff₀ (by positivity)]
  rw [sq, sq]
  exact_mod_cast Iff.rfl

theorem real_sub_sqrt_gt (x y k : ℝ) (hx : 0 ≤ x) (hy : 0 ≤ y) (hk : 0 ≤ k) :
    k < Real.sqrt x - Real.sqrt y ↔
      (y + k * k < x ∧ 4 * (k * k) * y < (x - y - k * k) * (x - y - k * k)) := by
  have hA := Real.sqrt_nonneg x
  have hB := Real.sqrt_nonneg y
  have hA2 := Real.mul_self_sqrt hx
  have hB2 := Real.mul_self_sqrt hy
  constructor
  · intro h
    have h1 : 2 * k * Real.sqrt y < x - y - k * k := by nlinarith
    have h0 : 0 ≤ 2 * k * Real.sqrt y := by positivity
    constructor
    · nlinarith
    · nlinarith
  · rintro ⟨h1, h2⟩
    have hD : 0 < x - y - k * k := by linarith
    have h0 : 0 ≤ 2 * k * Real.sqrt y := by positivity
    have h3 : 2 * k * Real.sqrt y < x - y - k * k := by
      by_contra hc
      push_neg at hc
      nlinarith
    nlinarith

theorem Hyp.absSubGt_iff (a b : Hyp) (k : Nat) :
    a.absSubGt b k = true ↔
      (k : ℝ) < |Real.sqrt (a.radicand : ℝ) - Real.sqrt (b.radicand : ℝ)| := by
  have key : ∀ hi lo : Nat, lo ≤ hi →
      ((lo + k * k < hi ∧ 4 * (k * k) * lo < (hi - lo - k * k) * (hi - lo - k * k)) ↔
        (k : ℝ) < Real.sqrt (hi : ℝ) - Real.sqrt (lo : ℝ)) := by
    intro hi lo hle
    rw [real_sub_sqrt_gt _ _ _ (Nat.cast_nonneg _) (Nat.cast_nonneg _) (Nat.cast_nonneg _)]
    constructor
    · rintro ⟨h1, h2⟩
      refine ⟨by exact_mod_cast h1, ?_⟩
      have e : (((hi - lo - k * k : ℕ) : ℝ)) = (hi : ℝ) - (lo : ℝ) - (k : ℝ) * (k : ℝ) := by
        rw [Nat.sub_sub, Nat.cast_sub (le_of_lt h1)]
        push_cast
        ring
      rw [← e]
      exact_mod_cast h2
    · rintro ⟨h1, h2⟩
      have h1' : lo + k * k < hi := by exact_mod_cast h1
      refine ⟨h1', ?_⟩
      have e : (((hi - lo - k * k : ℕ) : ℝ)) = (hi : ℝ) - (lo : ℝ) - (k : ℝ) * (k : ℝ) := by
        rw [Nat.sub_sub, Nat.cast_sub (le_of_lt h1')]
        push_cast
        ring
      rw [← e] at h2
      exact_mod_cast h2
  simp only [Hyp.absSubGt, decide_eq_true_eq]
  rcases le_total a.radicand b.radicand with hab | hab
  · rw [max_eq_right hab, min_eq_left hab, key _ _ hab, abs_sub_comm,
      abs_of_nonneg (sub_nonneg.2 (Real.sqrt_le_sqrt (by exact_mod_cast hab)))]
  · rw [max_eq_left hab, min_eq_right hab, key _ _ hab,
      abs_of_nonneg (sub_nonneg.2 (Real.sqrt_le_sqrt (by exact_mod_cast hab)))]


/-! ## Taps -/

theorem detect_Taps (f : Frame) (m s1 : Input) (h : detect f m = .ok s1) : s1.Taps = m.Taps := by
  rcases detect_cases f m s1 h with h1 | ⟨_, _, _, _, _, _, _, _, _, _, h1⟩ |
      ⟨_, _, _, _, _, _, h1⟩ <;> rw [h1] <;> rfl

theorem Update_Taps (f : Frame) (s s1 : Input) (h : Update f s = .ok s1) :
    s1.Taps = (s.touches.filter (fun e => f.isTouchJustReleased e.1 && isTap e.2)).map tapAt := by
  obtain ⟨m, hm, hd⟩ := Update_inv f s s1 h
  obtain ⟨_, hm'⟩ := refreshed_inv f s m hm
  rw [detect_Taps f m s1 hd, hm']
  exact afterPress_Taps f s

theorem isTap_iff (t : touch) :
    isTap t = true ↔
      (t.wasPinch = false ∧ t.isPan = false ∧
        (t.duration ≤ 75 ∨
          Real.sqrt (((t.originX : ℝ) - (t.currX : ℝ)) ^ 2 +
            ((t.originY : ℝ) - (t.currY : ℝ)) ^ 2) < 5)) := by
  have h := Hyp.ltNat_iff (hypotenuse t.originX t.originY t.currX t.currY) 5
  rw [hypotenuse_radicand] at h
  simp only [isTap, Bool.and_eq_true, Bool.or_eq_true, Bool.not_eq_true', decide_eq_true_eq, h]
  push_cast
  tauto

/-! ## Well-formed maps and persistence of the classification flags -/

theorem lookup_observeAll (f : Frame) (l : List TouchID) (m : List (TouchID × touch))
    (id : TouchID) :
    lookup (observeAll f l m) id =
      (lookup m id).map (fun t => if id ∈ l then observe f id t else t) := by
  induction m with
  | nil => simp [observeAll, lookup]
  | cons e rest ih =>
    simp only [observeAll, List.map_cons] at ih ⊢
    by_cases h1 : e.1 = id
    · subst h1
      by_cases h2 : e.1 ∈ l <;> simp [lookup, h2]
    · by_cases h2 : e.1 ∈ l <;> simp [lookup, h1, h2, ih]

theorem lookup_of_mem (m : List (TouchID × touch)) (h : (keys m).Nodup)
    (e : TouchID × touch) (he : e ∈ m) : lookup m e.1 = some e.2 := by
  induction m with
  | nil => cases he
  | cons x rest ih =>
    simp only [keys, List.map_cons, List.nodup_cons] at h
    rcases List.mem_cons.1 he with h1 | h1
    · subst h1; simp [lookup]
    · have hne : x.1 ≠ e.1 := by
        intro hx
        exact h.1 (hx ▸ List.mem_map_of_mem Prod.fst h1)
      simp only [lookup, hne, if_false]
      exact ih h.2 h1

theorem detect_keys (f : Frame) (m s1 : Input) (h : detect f m = .ok s1) :
    keys s1.touches = keys m.touches := by
  rcases detect_cases f m s1 h with h1 | ⟨_, _, _, _, _, _, _, _, _, _, h1⟩ |
      ⟨_, _, _, _, _, _, h1⟩ <;> rw [h1] <;> simp [startPinch, startPan, keys_modify]

theorem Update_keys (f : Frame) (s s1 : Input) (h : Update f s = .ok s1) :
    keys s1.touches = keys (afterPress f s).touches := by
  obtain ⟨m, hm, hd⟩ := Update_inv f s s1 h
  obtain ⟨_, hm'⟩ := refreshed_inv f s m hm
  rw [detect_keys f m s1 hd, hm']
  exact keys_observeAll _ _ _

theorem Update_nodup (f : Frame) (s s1 : Input) (hs : (keys s.touches).Nodup)
    (h : Update f s = .ok s1) : (keys s1.touches).Nodup := by
  rw [Update_keys f s s1 h]
  exact afterPress_nodup f s hs

theorem runWhile_invariant (ok : Frame → Input → Bool) (P : Input → Prop)
    (hstep : ∀ f s s1, P s → ok f s = true → Update f s = .ok s1 → P s1) :
    ∀ (fs : List Frame) (s s1 : Input), P s → runWhile ok s fs = some s1 → P s1 := by
  intro fs
  induction fs with
  | nil =>
    intro s s1 hP h
    simp only [runWhile, Option.some.injEq] at h
    exact h ▸ hP
  | cons f fs ih =>
    intro s s1 hP h
    simp only [runWhile] at h
    by_cases hok : ok f s = true
    · rw [if_pos hok] at h
      cases hu : Update f s with
      | error e => simp [hu] at h
      | ok s2 =>
        simp only [hu] at h
        exact ih s2 s1 (hstep f s s2 hP hok hu) h
    · rw [if_neg hok] at h
      cases h

theorem noRepress_not_pressed (f : Frame) (s : Input) (id : TouchID)
    (hn : noRepress f s = true) (hk : id ∈ keys s.touches)
    (hr : f.isTouchJustReleased id = false) : id ∉ f.justPressedTouchIDs := by
  intro hmem
  simp only [noRepress, List.all_eq_true] at hn
  have := hn id hmem
  simp [hk, hr] at this

/-- One `Update` that neither releases nor presses again the tracked touch
`id` keeps its record, its origin and the flags that are set. -/
theorem Update_keeps_flags (f : Frame) (s s1 : Input) (id : TouchID) (t : touch)
    (ht : lookup s.touches id = some t) (hp : id ∉ f.justPressedTouchIDs)
    (hr : f.isTouchJustReleased id = false) (h : Update f s = .ok s1) :
    ∃ t1, lookup s1.touches id = some t1 ∧
      (t.wasPinch = true → t1.wasPinch = true) ∧ (t.isPan = true → t1.isPan = true) ∧
      t1.originX = t.originX ∧ t1.originY = t.originY := by
  obtain ⟨m, hm, hd⟩ := Update_inv f s s1 h
  obtain ⟨_, hm'⟩ := refreshed_inv f s m hm
  have hl : lookup m.touches id = some (if id ∈ f.touchIDs then observe f id t else t) := by
    rw [hm']
    simp only [lookup_observeAll, afterPress_lookup, hp, hr, if_false, ht, Option.map_some']
    simp
  have hflags : ∃ t0, lookup m.touches id = some t0 ∧ t0.wasPinch = t.wasPinch ∧
      t0.isPan = t.isPan ∧ t0.originX = t.originX ∧ t0.originY = t.originY := by
    refine ⟨_, hl, ?_⟩
    split_ifs <;> simp [observe]
  obtain ⟨t0, hl0, hw, hi, hx, hy⟩ := hflags
  rcases detect_cases f m s1 hd with h1 | ⟨id1, id2, t1, t2, _, _, _, _, _, _, h1⟩ |
      ⟨i, ti, _, _, _, _, h1⟩
  · rw [h1]
    exact ⟨t0, hl0, fun h => hw ▸ h, fun h => hi ▸ h, hx, hy⟩
  · rw [h1]
    simp only [startPinch, lookup_modify, hl0]
    split_ifs <;> simp [hw, hi, hx, hy]
  · rw [h1]
    simp only [startPan, lookup_modify, hl0]
    split_ifs <;> simp [hw, hi, hx, hy]


theorem isTap_of_flagged (t : touch) (h : t.wasPinch = true ∨ t.isPan = true) :
    isTap t = false := by
  rcases h with h | h <;> simp [isTap, h]

theorem Update_Taps_flagged (f : Frame) (s s1 : Input) (id : TouchID) (t : touch)
    (hwf : (keys s.touches).Nodup) (ht : lookup s.touches id = some t)
    (hfl : t.wasPinch = true ∨ t.isPan = true) (h : Update f s = .ok s1) :
    s1.Taps = ((erase s.touches id).filter
      (fun e => f.isTouchJustReleased e.1 && isTap e.2)).map tapAt := by
  rw [Update_Taps f s s1 h, erase, List.filter_filter]
  congr 1
  apply List.filter_congr
  intro e he
  by_cases hid : e.1 = id
  · have h2 := lookup_of_mem s.touches hwf e he
    rw [hid, ht] at h2
    have h3 : isTap e.2 = false := by
      rw [← Option.some.inj h2]
      exact isTap_of_flagged t hfl
    simp [h3]
  · simp [hid]

theorem flags_persist_run (id : TouchID) (gs : List Frame) :
    ∀ (s s1 : Input) (t : touch), (keys s.touches).Nodup → lookup s.touches id = some t →
      runWhile (fun f s => noRepress f s && !f.isTouchJustReleased id) s gs = some s1 →
      (keys s1.touches).Nodup ∧ ∃ t1, lookup s1.touches id = some t1 ∧
        (t.wasPinch = true → t1.wasPinch = true) ∧ (t.isPan = true → t1.isPan = true) := by
  induction gs with
  | nil =>
    intro s s1 t hwf ht h
    simp only [runWhile, Option.some.injEq] at h
    subst h
    exact ⟨hwf, t, ht, fun x => x, fun x => x⟩
  | cons f fs ih =>
    intro s s1 t hwf ht h
    simp only [runWhile] at h
    by_cases hok : (noRepress f s && !f.isTouchJustReleased id) = true
    · rw [if_pos hok] at h
      simp only [Bool.and_eq_true, Bool.not_eq_true'] at hok
      cases hu : Update f s with
      | error e => simp [hu] at h
      | ok s2 =>
        simp only [hu] at h
        have hk : id ∈ keys s.touches := (lookup_isSome_iff _ _).1 ⟨t, ht⟩
        have hp := noRepress_not_pressed f s id hok.1 hk hok.2
        obtain ⟨t2, ht2, hw, hi, _, _⟩ := Update_keeps_flags f s s2 id t ht hp hok.2 hu
        obtain ⟨hwf1, t1, ht1, hw1, hi1⟩ := ih s2 s1 t2 (Update_nodup f s s2 hwf hu) ht2 h
        exact ⟨hwf1, t1, ht1, fun x => hw1 (hw x), fun x => hi1 (hi x)⟩
    · rw [if_neg hok] at h
      cases h

/-- C3: from a well-formed state in which the touch `id` is tracked, along
frames that report no tracked identifier as newly pressed again and do not
release `id`, the touch stays tracked and a `wasPinch` or `isPan` flag that was
set stays set; and whatever frame comes next (in particular one that releases
the touch), a completed `Update` emits taps only for the other tracked touches,
none for a touch with such a flag, whatever its duration and displacement. -/
theorem flagged_touch_never_taps (id : TouchID) (gs : List Frame) (s s1 : Input) (t : touch)
    (hwf : (keys s.touches).Nodup) (ht : lookup s.touches id = some t)
    (hrun : runWhile (fun f s => noRepress f s && !f.isTouchJustReleased id) s gs = some s1) :
    ∃ t1, lookup s1.touches id = some t1 ∧
      (t.wasPinch = true → t1.wasPinch = true) ∧ (t.isPan = true → t1.isPan = true) ∧
      ∀ (f : Frame) (s2 : Input), (t.wasPinch = true ∨ t.isPan = true) →
        Update f s1 = .ok s2 →
        s2.Taps = ((erase s1.touches id).filter
          (fun e => f.isTouchJustReleased e.1 && isTap e.2)).map
            (fun e => { X := e.2.currX, Y := e.2.currY }) := by
  obtain ⟨hwf1, t1, ht1, hw, hi⟩ := flags_persist_run id gs s s1 t hwf ht hrun
  refine ⟨t1, ht1, hw, hi, ?_⟩
  intro f s2 hfl hu
  have hfl1 : t1.wasPinch = true ∨ t1.isPan = true := hfl.imp hw hi
  exact Update_Taps_flagged f s1 s2 id t1 hwf1 ht1 hfl1 hu


theorem flagged_touch_never_taps_witness :
    (keys stateC.touches).Nodup ∧
      lookup stateC.touches 0 = some ⟨0, 0, 0, 0, 1, true, false⟩ ∧
      runWhile (fun f s => noRepress f s && !f.isTouchJustReleased 0) stateC [frameCmove] =
        some stateCmove ∧
      (∃ t1, lookup stateCmove.touches 0 = some t1 ∧ t1.wasPinch = true) ∧
      Update frameCmoveRelease stateCmove = .ok stateCmoveReleased ∧
      stateCmoveReleased.Taps = [] :=
  match flagged_touch_never_taps 0 [frameCmove] stateC stateCmove ⟨0, 0, 0, 0, 1, true, false⟩
      (by decide) rfl rfl with
  | ⟨t1, h1, h2, _, h4⟩ =>
    ⟨by decide, rfl, rfl, ⟨t1, h1, h2 rfl⟩, rfl,
      h4 frameCmoveRelease stateCmoveReleased (Or.inl rfl) rfl⟩

/-! ## Scenario A -/

/-- C4: evaluation of the code on scenario A.  The first `Update` tracks the
touch, the second one (touch seen at (11,11), distance from the origin above
0.25) starts a pan on it and sets `isPan`, and the `Update` that processes the
release ends the pan and produces no tap, where the specification expects one
tap at (11,11) and no pan; no pinch is ever created. -/
theorem scenarioA_run :
    run NewInput (scenarioA.take 1) = .ok stateA1 ∧
      run NewInput (scenarioA.take 2) = .ok stateA2 ∧
      run NewInput scenarioA = .ok stateA3 ∧
      stateA2.Pan = some ⟨0, 10, 10, 10, 10⟩ ∧
      stateA3.Taps = [] ∧ stateA3.Pan = none ∧
      stateA1.Pinch = none ∧ stateA2.Pinch = none ∧ stateA3.Pinch = none :=
  ⟨rfl, rfl, rfl, rfl, rfl, rfl, rfl, rfl, rfl⟩


/-! ## A gesture refers to tracked touches -/

theorem mem_of_index (l : List TouchID) (i : Nat) (a : TouchID) (h : l[i]? = some a) :
    a ∈ l := by
  rw [List.getElem?_eq_some_iff] at h
  obtain ⟨hi, rfl⟩ := h
  exact List.getElem_mem hi

theorem any_released_of_mem (f : Frame) (m : List (TouchID × touch)) (id : TouchID)
    (q : TouchID → Bool) (hk : id ∈ keys m) (hr : f.isTouchJustReleased id = true)
    (hq : q id = true) : m.any (fun e => f.isTouchJustReleased e.1 && q e.1) = true := by
  rw [List.any_eq_true]
  simp only [keys, List.mem_map] at hk
  obtain ⟨e, he, rfl⟩ := hk
  exact ⟨e, he, by simp [hr, hq]⟩

theorem afterPress_keys_of_kept (f : Frame) (s : Input) (id : TouchID)
    (hk : id ∈ keys s.touches) (hr : f.isTouchJustReleased id = false) :
    id ∈ keys (afterPress f s).touches := by
  rw [← lookup_isSome_iff, afterPress_lookup]
  obtain ⟨t, ht⟩ := (lookup_isSome_iff _ _).2 hk
  by_cases hp : id ∈ f.justPressedTouchIDs
  · exact ⟨_, by rw [if_pos hp]⟩
  · exact ⟨t, by simp [hp, hr, ht]⟩

/-- A pinch that survives release processing has both touches still tracked. -/
theorem afterPress_Pinch_tracked (f : Frame) (s : Input) (p : pinch)
    (hinv : ∀ q, s.Pinch = some q → q.id1 ∈ keys s.touches ∧ q.id2 ∈ keys s.touches)
    (hp : (afterPress f s).Pinch = some p) :
    p.id1 ∈ keys (afterPress f s).touches ∧ p.id2 ∈ keys (afterPress f s).touches := by
  rw [afterPress_Pinch] at hp
  by_cases ha : s.touches.any
      (fun e => f.isTouchJustReleased e.1 && pinchHas s.Pinch e.1) = true
  · rw [if_pos ha] at hp; cases hp
  · rw [if_neg ha] at hp
    obtain ⟨h1, h2⟩ := hinv p hp
    have hr : ∀ id, id ∈ keys s.touches → pinchHas s.Pinch id = true →
        f.isTouchJustReleased id = false := by
      intro id hk hq
      by_contra hc
      simp only [Bool.not_eq_false] at hc
      exact ha (any_released_of_mem f s.touches id (pinchHas s.Pinch) hk hc hq)
    exact ⟨afterPress_keys_of_kept f s _ h1 (hr _ h1 (by simp [pinchHas, hp])),
      afterPress_keys_of_kept f s _ h2 (hr _ h2 (by simp [pinchHas, hp]))⟩

theorem Update_Pinch_tracked (f : Frame) (s s1 : Input)
    (hinv : ∀ q, s.Pinch = some q → q.id1 ∈ keys s.touches ∧ q.id2 ∈ keys s.touches)
    (h : Update f s = .ok s1) :
    ∀ q, s1.Pinch = some q → q.id1 ∈ keys s1.touches ∧ q.id2 ∈ keys s1.touches := by
  intro q hq
  rw [Update_keys f s s1 h]
  obtain ⟨m, hm, hd⟩ := Update_inv f s s1 h
  obtain ⟨_, hm'⟩ := refreshed_inv f s m hm
  have hmk : keys m.touches = keys (afterPress f s).touches := by
    rw [hm']; exact keys_observeAll _ _ _
  have hmp : m.Pinch = (afterPress f s).Pinch := by rw [hm']
  rcases detect_cases f m s1 hd with h1 | ⟨id1, id2, t1, t2, _, _, _, ht1, ht2, _, h1⟩ |
      ⟨i, ti, _, _, _, _, h1⟩
  · rw [h1, hmp] at hq
    exact afterPress_Pinch_tracked f s q hinv hq
  · rw [h1] at hq
    simp only [startPinch, Option.some.injEq] at hq
    rw [← hq, ← hmk]
    exact ⟨(lookup_isSome_iff _ _).1 ⟨t1, ht1⟩, (lookup_isSome_iff _ _).1 ⟨t2, ht2⟩⟩
  · rw [h1] at hq
    have hq' : m.Pinch = some q := hq
    rw [hmp] at hq'
    exact afterPress_Pinch_tracked f s q hinv hq'

theorem run_Pinch_tracked (fs : List Frame) (s : Input) (h : run NewInput fs = .ok s) :
    ∀ q, s.Pinch = some q → q.id1 ∈ keys s.touches ∧ q.id2 ∈ keys s.touches :=
  run_invariant
    (fun s => ∀ q, s.Pinch = some q → q.id1 ∈ keys s.touches ∧ q.id2 ∈ keys s.touches)
    (fun f s s1 hs hu => Update_Pinch_tracked f s s1 hs hu) fs NewInput s
    (fun q hq => by cases hq) h

/-- A gesture started by detection refers to identifiers of `ebiten.TouchIDs()`. -/
theorem detect_new_gesture (f : Frame) (m s1 : Input) (h : detect f m = .ok s1) :
    (∀ q, s1.Pinch = some q → m.Pinch = some q ∨ (q.id1 ∈ f.touchIDs ∧ q.id2 ∈ f.touchIDs)) ∧
      (∀ q, s1.Pan = some q → m.Pan = some q ∨ q.id ∈ f.touchIDs) := by
  rcases detect_cases f m s1 h with h1 | ⟨id1, id2, t1, t2, _, h0, h1', _, _, _, h1⟩ |
      ⟨i, ti, _, h0, _, _, h1⟩
  · rw [h1]; exact ⟨fun q hq => Or.inl hq, fun q hq => Or.inl hq⟩
  · rw [h1]
    refine ⟨fun q hq => Or.inr ?_, fun q hq => Or.inl hq⟩
    simp only [startPinch, Option.some.injEq] at hq
    rw [← hq]
    exact ⟨mem_of_index _ _ _ h0, mem_of_index _ _ _ h1'⟩
  · rw [h1]
    refine ⟨fun q hq => Or.inl hq, fun q hq => Or.inr ?_⟩
    simp only [startPan, Option.some.injEq] at hq
    rw [← hq]
    exact mem_of_index _ _ _ h0

/-- C5: in every state reached from `NewInput`, both identifiers of an active
pinch are keys of the map of tracked touches; and when a frame, whose active
identifiers are not reported released, reports one of the two identifiers
released, release processing sets `Pinch` to nil and any pinch that is active
after that `Update` does not refer to the released identifier. -/
theorem pinch_needs_both_touches (fs : List Frame) (s : Input) (p : pinch)
    (h : run NewInput fs = .ok s) (hp : s.Pinch = some p) :
    p.id1 ∈ keys s.touches ∧ p.id2 ∈ keys s.touches ∧
      ∀ (f : Frame) (s1 : Input) (id : TouchID), (id = p.id1 ∨ id = p.id2) →
        f.isTouchJustReleased id = true →
        (∀ a ∈ f.touchIDs, f.isTouchJustReleased a = false) →
        Update f s = .ok s1 →
        (afterPress f s).Pinch = none ∧
          ∀ q, s1.Pinch = some q → q.id1 ≠ id ∧ q.id2 ≠ id := by
  obtain ⟨k1, k2⟩ := run_Pinch_tracked fs s h p hp
  refine ⟨k1, k2, ?_⟩
  intro f s1 id hid hr hact hu
  have hk : id ∈ keys s.touches := by
    rcases hid with e | e <;> rw [e] <;> assumption
  have hq : pinchHas s.Pinch id = true := by
    rcases hid with e | e <;> simp [pinchHas, hp, e]
  have hnone : (afterPress f s).Pinch = none := by
    rw [afterPress_Pinch, if_pos (any_released_of_mem f s.touches id _ hk hr hq)]
  refine ⟨hnone, ?_⟩
  intro q hq1
  obtain ⟨m, hm, hd⟩ := Update_inv f s s1 hu
  obtain ⟨_, hm'⟩ := refreshed_inv f s m hm
  have hmp : m.Pinch = none := by rw [hm']; exact hnone
  rcases (detect_new_gesture f m s1 hd).1 q hq1 with h1 | ⟨h1, h2⟩
  · rw [hmp] at h1; cases h1
  · constructor
    · intro e
      have := hact _ h1
      rw [e, hr] at this
      cases this
    · intro e
      have := hact _ h2
      rw [e, hr] at this
      cases this


theorem pinch_needs_both_touches_witness :
    run NewInput scenarioC = .ok stateC ∧ stateC.Pinch = some ⟨0, 1, ⟨100⟩, ⟨100⟩⟩ ∧
      (0 : TouchID) ∈ keys stateC.touches ∧ (1 : TouchID) ∈ keys stateC.touches ∧
      Update frameCrelease stateC = .ok stateCreleased ∧
      (afterPress frameCrelease stateC).Pinch = none ∧
      ∀ q, stateCreleased.Pinch = some q → q.id1 ≠ 0 ∧ q.id2 ≠ 0 :=
  have key := pinch_needs_both_touches scenarioC stateC ⟨0, 1, ⟨100⟩, ⟨100⟩⟩ rfl rfl
  have rel := key.2.2 frameCrelease stateCreleased 0 (Or.inl rfl) rfl (by decide) rfl
  ⟨rfl, rfl, key.1, key.2.1, rfl, rel.1, rel.2⟩


/-- A pan that survives release processing has its touch still tracked. -/
theorem afterPress_Pan_tracked (f : Frame) (s : Input) (p : pan)
    (hinv : ∀ q, s.Pan = some q → q.id ∈ keys s.touches)
    (hp : (afterPress f s).Pan = some p) :
    p.id ∈ keys (afterPress f s).touches := by
  rw [afterPress_Pan] at hp
  by_cases ha : s.touches.any
      (fun e => f.isTouchJustReleased e.1 && panHas s.Pan e.1) = true
  · rw [if_pos ha] at hp; cases hp
  · rw [if_neg ha] at hp
    have h1 := hinv p hp
    have hr : f.isTouchJustReleased p.id = false := by
      by_contra hc
      simp only [Bool.not_eq_false] at hc
      exact ha (any_released_of_mem f s.touches p.id (panHas s.Pan) h1 hc
        (by simp [panHas, hp]))
    exact afterPress_keys_of_kept f s _ h1 hr

theorem Update_Pan_tracked (f : Frame) (s s1 : Input)
    (hinv : ∀ q, s.Pan = some q → q.id ∈ keys s.touches)
    (h : Update f s = .ok s1) :
    ∀ q, s1.Pan = some q → q.id ∈ keys s1.touches := by
  intro q hq
  rw [Update_keys f s s1 h]
  obtain ⟨m, hm, hd⟩ := Update_inv f s s1 h
  obtain ⟨_, hm'⟩ := refreshed_inv f s m hm
  have hmk : keys m.touches = keys (afterPress f s).touches := by
    rw [hm']; exact keys_observeAll _ _ _
  have hmp : m.Pan = (afterPress f s).Pan := by rw [hm']
  rcases detect_cases f m s1 hd with h1 | ⟨id1, id2, t1, t2, _, _, _, _, _, _, h1⟩ |
      ⟨i, ti, _, _, hti, _, h1⟩
  · rw [h1, hmp] at hq
    exact afterPress_Pan_tracked f s q hinv hq
  · rw [h1] at hq
    have hq' : m.Pan = some q := hq
    rw [hmp] at hq'
    exact afterPress_Pan_tracked f s q hinv hq'
  · rw [h1] at hq
    simp only [startPan, Option.some.injEq] at hq
    rw [← hq, ← hmk]
    exact (lookup_isSome_iff _ _).1 ⟨ti, hti⟩

theorem run_Pan_tracked (fs : List Frame) (s : Input) (h : run NewInput fs = .ok s) :
    ∀ q, s.Pan = some q → q.id ∈ keys s.touches :=
  run_invariant (fun s => ∀ q, s.Pan = some q → q.id ∈ keys s.touches)
    (fun f s s1 hs hu => Update_Pan_tracked f s s1 hs hu) fs NewInput s
    (fun q hq => by cases hq) h

/-- C6, as stated, fails: `stateHandover` is reached from `NewInput` with a
pan on touch 0, `frameHandover` reports touch 0 released (and no active
identifier released), and after that `Update` the field `Pan` is not nil: a
pan on touch 1 has started in the same call. -/
theorem pan_release_not_nil :
    run NewInput scenarioHandover = .ok stateHandover ∧
      stateHandover.Pan = some ⟨0, 0, 0, 0, 0⟩ ∧
      frameHandover.isTouchJustReleased 0 = true ∧
      (∀ a ∈ frameHandover.touchIDs, frameHandover.isTouchJustReleased a = false) ∧
      Update frameHandover stateHandover = .ok stateHandedOver ∧
      stateHandedOver.Pan ≠ none :=
  ⟨rfl, rfl, rfl, by decide, rfl, by decide⟩

/-- C6, amended: in every state reached from `NewInput`, the identifier of an
active pan is a key of the map of tracked touches; and when a frame, whose
active identifiers are not reported released, reports that identifier
released, release processing sets `Pan` to nil and any pan that is active
after that `Update` refers to another identifier. -/
theorem pan_needs_its_touch (fs : List Frame) (s : Input) (p : pan)
    (h : run NewInput fs = .ok s) (hp : s.Pan = some p) :
    p.id ∈ keys s.touches ∧
      ∀ (f : Frame) (s1 : Input), f.isTouchJustReleased p.id = true →
        (∀ a ∈ f.touchIDs, f.isTouchJustReleased a = false) →
        Update f s = .ok s1 →
        (afterPress f s).Pan = none ∧ ∀ q, s1.Pan = some q → q.id ≠ p.id := by
  have k := run_Pan_tracked fs s h p hp
  refine ⟨k, ?_⟩
  intro f s1 hr hact hu
  have hnone : (afterPress f s).Pan = none := by
    rw [afterPress_Pan, if_pos (any_released_of_mem f s.touches p.id _ k hr
      (by simp [panHas, hp]))]
  refine ⟨hnone, ?_⟩
  intro q hq1
  obtain ⟨m, hm, hd⟩ := Update_inv f s s1 hu
  obtain ⟨_, hm'⟩ := refreshed_inv f s m hm
  have hmp : m.Pan = none := by rw [hm']; exact hnone
  rcases (detect_new_gesture f m s1 hd).2 q hq1 with h1 | h1
  · rw [hmp] at h1; cases h1
  · intro e
    have := hact _ h1
    rw [e, hr] at this
    cases this

theorem pan_needs_its_touch_witness :
    run NewInput scenarioHandover = .ok stateHandover ∧
      stateHandover.Pan = some ⟨0, 0, 0, 0, 0⟩ ∧
      (0 : TouchID) ∈ keys stateHandover.touches ∧
      Update frameHandover stateHandover = .ok stateHandedOver ∧
      (afterPress frameHandover stateHandover).Pan = none ∧
      ∀ q, stateHandedOver.Pan = some q → q.id ≠ 0 :=
  have key := pan_needs_its_touch scenarioHandover stateHandover ⟨0, 0, 0, 0, 0⟩ rfl rfl
  have rel := key.2 frameHandover stateHandedOver rfl (by decide) rfl
  ⟨rfl, rfl, key.1, rfl, rel.1, rel.2⟩


/-! ## Host-consistent frames -/

theorem hostConsistent_iff (f : Frame) (s : Input) :
    hostConsistent f s = true ↔
      f.touchIDs.Nodup ∧ (∀ id ∈ f.touchIDs, f.isTouchJustReleased id = false) ∧
        ∀ id, id ∈ f.touchIDs ↔
          ((id ∈ keys s.touches ∧ f.isTouchJustReleased id = false) ∨
            id ∈ f.justPressedTouchIDs) := by
  simp only [hostConsistent, Bool.and_eq_true, decide_eq_true_eq, List.all_eq_true,
    Bool.or_eq_true, Bool.not_eq_true']
  constructor
  · rintro ⟨⟨⟨⟨h1, h2⟩, h3⟩, h4⟩, h5⟩
    refine ⟨h1, h2, fun id => ⟨fun h => h3 id h, ?_⟩⟩
    rintro (⟨hk, hr⟩ | hp)
    · rcases h4 id hk with h | h
      · rw [hr] at h; cases h
      · exact h
    · exact h5 id hp
  · rintro ⟨h1, h2, h3⟩
    refine ⟨⟨⟨⟨h1, h2⟩, fun id h => (h3 id).1 h⟩, ?_⟩, fun id h => (h3 id).2 (Or.inr h)⟩
    intro id hk
    cases hr : f.isTouchJustReleased id
    · exact Or.inr ((h3 id).2 (Or.inl ⟨hk, hr⟩))
    · exact Or.inl rfl

theorem afterPress_mem_keys (f : Frame) (s : Input) (id : TouchID) :
    id ∈ keys (afterPress f s).touches ↔
      ((id ∈ keys s.touches ∧ f.isTouchJustReleased id = false) ∨
        id ∈ f.justPressedTouchIDs) := by
  rw [← lookup_isSome_iff, afterPress_lookup, ← lookup_isSome_iff]
  by_cases hp : id ∈ f.justPressedTouchIDs
  · simp [hp]
  · cases hr : f.isTouchJustReleased id <;> simp [hp]

theorem hostConsistent_keys (f : Frame) (s : Input) (hc : hostConsistent f s = true)
    (id : TouchID) : id ∈ keys (afterPress f s).touches ↔ id ∈ f.touchIDs := by
  rw [afterPress_mem_keys]
  exact (((hostConsistent_iff f s).1 hc).2.2 id).symm

theorem hostConsistent_refreshed (f : Frame) (s : Input) (hc : hostConsistent f s = true) :
    refreshed f s =
      .ok { afterPress f s with touches := observeAll f f.touchIDs (afterPress f s).touches } := by
  rw [refreshed_eq, if_pos]
  intro id hid
  exact (hostConsistent_keys f s hc id).2 hid

/-- With one tracked touch after a host-consistent frame, that touch is the
single active identifier. -/
theorem one_touch_shape (f : Frame) (s m : Input) (hwf : (keys s.touches).Nodup)
    (hc : hostConsistent f s = true) (hm : refreshed f s = .ok m)
    (hl : m.touches.length = 1) :
    ∃ a ta, m.touches = [(a, ta)] ∧ f.touchIDs = [a] := by
  have hm' := (refreshed_inv f s m hm).2
  have hk : keys m.touches = keys (afterPress f s).touches := by
    rw [hm']; exact keys_observeAll _ _ _
  have hnd : (keys m.touches).Nodup := hk ▸ afterPress_nodup f s hwf
  have hperm : (keys m.touches).Perm f.touchIDs :=
    (List.perm_ext_iff_of_nodup hnd ((hostConsistent_iff f s).1 hc).1).2
      (fun id => hk ▸ hostConsistent_keys f s hc id)
  obtain ⟨e, he⟩ := List.length_eq_one.1 hl
  refine ⟨e.1, e.2, he, ?_⟩
  rw [he] at hperm
  simpa [keys] using hperm.symm

/-- With two tracked touches after a host-consistent frame, these two are the
active identifiers, in one order or the other. -/
theorem two_touch_shape (f : Frame) (s m : Input) (hwf : (keys s.touches).Nodup)
    (hc : hostConsistent f s = true) (hm : refreshed f s = .ok m)
    (hl : m.touches.length = 2) :
    ∃ a ta b tb, m.touches = [(a, ta), (b, tb)] ∧ a ≠ b ∧
      (f.touchIDs = [a, b] ∨ f.touchIDs = [b, a]) := by
  have hm' := (refreshed_inv f s m hm).2
  have hk : keys m.touches = keys (afterPress f s).touches := by
    rw [hm']; exact keys_observeAll _ _ _
  have hnd : (keys m.touches).Nodup := hk ▸ afterPress_nodup f s hwf
  have hperm : (keys m.touches).Perm f.touchIDs :=
    (List.perm_ext_iff_of_nodup hnd ((hostConsistent_iff f s).1 hc).1).2
      (fun id => hk ▸ hostConsistent_keys f s hc id)
  obtain ⟨e1, e2, he⟩ := List.length_eq_two.1 hl
  rw [he] at hperm hnd
  simp only [keys, List.map_cons, List.map_nil, List.nodup_cons, List.mem_singleton,
    List.not_mem_nil, not_false_eq_true, List.nodup_nil, and_true] at hnd hperm
  refine ⟨e1.1, e1.2, e2.1, e2.2, he, hnd, ?_⟩
  have hlen : f.touchIDs.length = 2 := by rw [← hperm.length_eq]; rfl
  obtain ⟨i, j, hij⟩ := List.length_eq_two.1 hlen
  rw [hij] at hperm ⊢
  have hi : i = e1.1 ∨ i = e2.1 := by
    have := hperm.mem_iff.2 (List.mem_cons_self i [j])
    simpa using this
  have hj : j = e1.1 ∨ j = e2.1 := by
    have := hperm.mem_iff.2 (List.mem_cons_of_mem i (List.mem_singleton_self j))
    simpa using this
  have hne : i ≠ j := by
    have := hperm.nodup_iff.1 (by simp [hnd])
    simpa using this
  rcases hi with hi | hi <;> rcases hj with hj | hj
  · exact absurd (hi.trans hj.symm) hne
  · left; rw [hi, hj]
  · right; rw [hi, hj]
  · exact absurd (hi.trans hj.symm) hne


theorem pinchGuard_symm (m : Input) (t1 t2 : touch) :
    pinchGuard m t1 t2 = pinchGuard m t2 t1 := by
  simp only [pinchGuard]
  rw [hypotenuse_symm t1.originX t1.originY, hypotenuse_symm t1.currX t1.currY]

/-- What detection does after a host-consistent frame, by the number of
tracked touches; it does not fault. -/
theorem detect_hostConsistent (f : Frame) (s m : Input) (hwf : (keys s.touches).Nodup)
    (hc : hostConsistent f s = true) (hm : refreshed f s = .ok m) :
    (∃ a ta b tb, m.touches = [(a, ta), (b, tb)] ∧ a ≠ b ∧
      ∃ id1 id2, ((id1 = a ∧ id2 = b) ∨ (id1 = b ∧ id2 = a)) ∧
        detect f m = .ok (if pinchGuard m ta tb then
          startPinch m id1 id2 (hypotenuse ta.originX ta.originY tb.originX tb.originY)
          else m)) ∨
    (∃ a ta, m.touches = [(a, ta)] ∧
      detect f m = .ok (if panGuard m ta then startPan m a ta else m)) ∨
    (m.touches.length ≠ 2 ∧ m.touches.length ≠ 1 ∧ detect f m = .ok m) := by
  by_cases h2 : m.touches.length = 2
  · left
    obtain ⟨a, ta, b, tb, hshape, hne, hids⟩ := two_touch_shape f s m hwf hc hm h2
    have la : lookup m.touches a = some ta := by simp [hshape, lookup]
    have lb : lookup m.touches b = some tb := by simp [hshape, lookup, hne]
    refine ⟨a, ta, b, tb, hshape, hne, ?_⟩
    rcases hids with hids | hids
    · refine ⟨a, b, Or.inl ⟨rfl, rfl⟩, ?_⟩
      rw [detect, if_pos h2]
      exact detectPinch_eval f m a b ta tb (by simp [hids]) (by simp [hids]) la lb
    · refine ⟨b, a, Or.inr ⟨rfl, rfl⟩, ?_⟩
      rw [detect, if_pos h2,
        detectPinch_eval f m b a tb ta (by simp [hids]) (by simp [hids]) lb la,
        pinchGuard_symm m tb ta, hypotenuse_symm tb.originX tb.originY]
  · by_cases h1 : m.touches.length = 1
    · right; left
      obtain ⟨a, ta, hshape, hids⟩ := one_touch_shape f s m hwf hc hm h1
      refine ⟨a, ta, hshape, ?_⟩
      rw [detect, if_neg h2, if_pos h1]
      exact detectPan_eval f m a ta (by simp [hids]) (by simp [hshape, lookup])
    · right; right
      exact ⟨h2, h1, by rw [detect, if_neg h2, if_neg h1]⟩

theorem startPinch_two (m : Input) (a b id1 id2 : TouchID) (ta tb : touch) (d : Hyp)
    (hshape : m.touches = [(a, ta), (b, tb)]) (hne : a ≠ b)
    (hids : (id1 = a ∧ id2 = b) ∨ (id1 = b ∧ id2 = a)) :
    (startPinch m id1 id2 d).touches =
      [(a, { ta with wasPinch := true }), (b, { tb with wasPinch := true })] := by
  have hne' : ¬ b = a := fun e => hne e.symm
  rcases hids with ⟨rfl, rfl⟩ | ⟨rfl, rfl⟩ <;>
    simp [startPinch, hshape, modify, hne, hne']

theorem pinchGuard_iff (m : Input) (t1 t2 : touch) :
    pinchGuard m t1 t2 = true ↔
      (m.Pinch = none ∧ m.Pan = none ∧
        (3 : ℝ) <
          |Real.sqrt ((hypotenuse t1.originX t1.originY t2.originX t2.originY).radicand : ℝ) -
            Real.sqrt ((hypotenuse t1.currX t1.currY t2.currX t2.currY).radicand : ℝ)|) := by
  have h := Hyp.absSubGt_iff (hypotenuse t1.originX t1.originY t2.originX t2.originY)
    (hypotenuse t1.currX t1.currY t2.currX t2.currY) 3
  simp only [Nat.cast_ofNat] at h
  simp only [pinchGuard, Bool.and_eq_true, Option.isNone_iff_eq_none, h]
  tauto


/-! ## Start of a pinch -/

theorem Update_eq_detect (f : Frame) (s m : Input) (hm : refreshed f s = .ok m) :
    Update f s = detect f m := by
  simp only [Update, hm]

theorem wasPinch_startPan (m : Input) (a : TouchID) (t : touch) :
    (startPan m a t).touches.map (fun e => (e.1, e.2.wasPinch)) =
      m.touches.map (fun e => (e.1, e.2.wasPinch)) := by
  simp only [startPan, modify, List.map_map]
  apply List.map_congr_left
  intro e _
  by_cases h : e.1 = a <;> simp [h]

/-- Detection after a host-consistent frame, with `m` the state after release
processing, new presses and refresh: a pinch starts exactly when `m` has no
pinch and no pan, exactly two touches are tracked and the distance between
their origins and the distance between their current positions differ by more
than 3; otherwise `Pinch` is left as it was and no `wasPinch` flag of `m`
changes. -/
theorem pinch_start_detect (f : Frame) (s : Input) (hwf : (keys s.touches).Nodup)
    (hc : hostConsistent f s = true) :
    ∃ (m s1 : Input) (starts : Bool), refreshed f s = .ok m ∧ Update f s = .ok s1 ∧
      (starts = true ↔
        (m.Pinch = none ∧ m.Pan = none ∧ ∃ a ta b tb, m.touches = [(a, ta), (b, tb)] ∧
          (3 : ℝ) <
            |Real.sqrt ((hypotenuse ta.originX ta.originY tb.originX tb.originY).radicand : ℝ) -
              Real.sqrt ((hypotenuse ta.currX ta.currY tb.currX tb.currY).radicand : ℝ)|)) ∧
      (starts = true →
        ∃ a ta b tb q, m.touches = [(a, ta), (b, tb)] ∧ m.Pinch = none ∧ s1.Pinch = some q ∧
          ((q.id1 = a ∧ q.id2 = b) ∨ (q.id1 = b ∧ q.id2 = a)) ∧
          q.originH = hypotenuse ta.originX ta.originY tb.originX tb.originY ∧
          q.prevH = hypotenuse ta.originX ta.originY tb.originX tb.originY ∧
          s1.touches = [(a, { ta with wasPinch := true }), (b, { tb with wasPinch := true })] ∧
          s1.Pan = none) ∧
      (starts = false →
        s1.Pinch = m.Pinch ∧
          s1.touches.map (fun e => (e.1, e.2.wasPinch)) =
            m.touches.map (fun e => (e.1, e.2.wasPinch))) := by
  obtain ⟨m, hm⟩ : ∃ m, refreshed f s = .ok m := ⟨_, hostConsistent_refreshed f s hc⟩
  rcases detect_hostConsistent f s m hwf hc hm with
    ⟨a, ta, b, tb, hshape, hne, id1, id2, hids, hd⟩ | ⟨a, ta, hshape, hd⟩ | ⟨h2, _, hd⟩
  · refine ⟨m, _, pinchGuard m ta tb, hm, (Update_eq_detect f s m hm).trans hd, ?_, ?_, ?_⟩
    · rw [pinchGuard_iff]
      constructor
      · rintro ⟨h1, h2, h3⟩
        exact ⟨h1, h2, a, ta, b, tb, hshape, h3⟩
      · rintro ⟨h1, h2, a', ta', b', tb', hshape', h3⟩
        rw [hshape] at hshape'
        simp only [List.cons.injEq, Prod.mk.injEq, and_true] at hshape'
        obtain ⟨⟨_, rfl⟩, ⟨_, rfl⟩⟩ := hshape'
        exact ⟨h1, h2, h3⟩
    · intro hg
      rw [if_pos hg]
      have hg' := (pinchGuard_iff m ta tb).1 hg
      refine ⟨a, ta, b, tb, _, hshape, hg'.1, rfl, ?_, rfl, rfl,
        startPinch_two m a b id1 id2 ta tb _ hshape hne hids, hg'.2.1⟩
      exact hids
    · intro hg
      simp only [hg, Bool.false_eq_true, if_false]
      exact ⟨trivial, trivial⟩
  · refine ⟨m, _, false, hm, (Update_eq_detect f s m hm).trans hd, ?_, ?_, ?_⟩
    · constructor
      · intro h; cases h
      · rintro ⟨_, _, a', ta', b', tb', hshape', _⟩
        rw [hshape] at hshape'
        simp at hshape'
    · intro h; cases h
    · intro _
      split_ifs
      · exact ⟨rfl, wasPinch_startPan m a ta⟩
      · exact ⟨rfl, rfl⟩
  · refine ⟨m, _, false, hm, (Update_eq_detect f s m hm).trans hd, ?_, ?_, ?_⟩
    · constructor
      · intro h; cases h
      · rintro ⟨_, _, a', ta', b', tb', hshape', _⟩
        rw [hshape'] at h2
        simp at h2
    · intro h; cases h
    · intro _
      exact ⟨rfl, rfl⟩

/-! ## Start of a pan -/

theorem panGuard_iff (m : Input) (t : touch) :
    panGuard m t = true ↔
      (m.Pinch = none ∧ m.Pan = none ∧ t.wasPinch = false ∧
        (0.25 : ℝ) <
          Real.sqrt ((hypotenuse t.originX t.originY t.currX t.currY).radicand : ℝ)) := by
  have h := Hyp.gtFrac_iff (hypotenuse t.originX t.originY t.currX t.currY) 1 4 (by decide)
  have e : ((1 : ℕ) : ℝ) / ((4 : ℕ) : ℝ) = 0.25 := by norm_num
  rw [e] at h
  simp only [panGuard, Hyp.abs, Bool.and_eq_true, Option.isNone_iff_eq_none,
    Bool.not_eq_true', h]
  tauto

/-- C8: after a host-consistent frame applied to a well-formed state, with `m`
the state after release processing, new presses and refresh, `Update` starts a
pan exactly when `m` has no pinch and no pan, exactly one touch is tracked, its
`wasPinch` is false and the distance from its origin to its current position is
above 0.25.  The new pan refers to that touch, its origin and its previous
position are the origin of the touch, and the record gets `isPan`.  Otherwise
`Pan` is left as it was. -/
theorem pan_start_rule (f : Frame) (s : Input) (hwf : (keys s.touches).Nodup)
    (hc : hostConsistent f s = true) :
    ∃ (m s1 : Input) (starts : Bool), refreshed f s = .ok m ∧ Update f s = .ok s1 ∧
      (starts = true ↔
        (m.Pinch = none ∧ m.Pan = none ∧ ∃ a ta, m.touches = [(a, ta)] ∧
          ta.wasPinch = false ∧
          (0.25 : ℝ) <
            Real.sqrt ((hypotenuse ta.originX ta.originY ta.currX ta.currY).radicand : ℝ))) ∧
      (starts = true →
        ∃ a ta q, m.touches = [(a, ta)] ∧ m.Pan = none ∧ s1.Pan = some q ∧ q.id = a ∧
          q.originX = ta.originX ∧ q.originY = ta.originY ∧
          q.prevX = ta.originX ∧ q.prevY = ta.originY ∧
          s1.touches = [(a, { ta with isPan := true })] ∧ s1.Pinch = none) ∧
      (starts = false → s1.Pan = m.Pan) := by
  obtain ⟨m, hm⟩ : ∃ m, refreshed f s = .ok m := ⟨_, hostConsistent_refreshed f s hc⟩
  rcases detect_hostConsistent f s m hwf hc hm with
    ⟨a, ta, b, tb, hshape, hne, id1, id2, hids, hd⟩ | ⟨a, ta, hshape, hd⟩ | ⟨_, h1, hd⟩
  · refine ⟨m, _, false, hm, (Update_eq_detect f s m hm).trans hd, ?_, ?_, ?_⟩
    · constructor
      · intro h; cases h
      · rintro ⟨_, _, a', ta', hshape', _⟩
        rw [hshape] at hshape'
        simp at hshape'
    · intro h; cases h
    · intro _
      split_ifs <;> rfl
  · refine ⟨m, _, panGuard m ta, hm, (Update_eq_detect f s m hm).trans hd, ?_, ?_, ?_⟩
    · rw [panGuard_iff]
      constructor
      · rintro ⟨h1, h2, h3, h4⟩
        exact ⟨h1, h2, a, ta, hshape, h3, h4⟩
      · rintro ⟨h1, h2, a', ta', hshape', h3, h4⟩
        rw [hshape] at hshape'
        simp only [List.cons.injEq, Prod.mk.injEq, and_true] at hshape'
        obtain ⟨_, rfl⟩ := hshape'
        exact ⟨h1, h2, h3, h4⟩
    · intro hg
      rw [if_pos hg]
      have hg' := (panGuard_iff m ta).1 hg
      refine ⟨a, ta, _, hshape, hg'.2.1, rfl, rfl, rfl, rfl, rfl, rfl, ?_, hg'.1⟩
      simp [startPan, hshape, modify]
    · intro hg
      simp only [hg, Bool.false_eq_true, if_false]
  · refine ⟨m, _, false, hm, (Update_eq_detect f s m hm).trans hd, ?_, ?_, ?_⟩
    · constructor
      · intro h; cases h
      · rintro ⟨_, _, a', ta', hshape', _⟩
        rw [hshape'] at h1
        simp at h1
    · intro h; cases h
    · intro _
      rfl

theorem pan_start_rule_witness :
    (keys statePressed.touches).Nodup ∧ hostConsistent frameDrag statePressed = true ∧
      Update frameDrag statePressed = .ok stateDragged ∧
      ∃ (m s1 : Input) (starts : Bool), refreshed frameDrag statePressed = .ok m ∧
        Update frameDrag statePressed = .ok s1 ∧
        (starts = true ↔
          (m.Pinch = none ∧ m.Pan = none ∧ ∃ a ta, m.touches = [(a, ta)] ∧
            ta.wasPinch = false ∧
            (0.25 : ℝ) <
              Real.sqrt ((hypotenuse ta.originX ta.originY ta.currX ta.currY).radicand : ℝ))) ∧
        (starts = true →
          ∃ a ta q, m.touches = [(a, ta)] ∧ m.Pan = none ∧ s1.Pan = some q ∧ q.id = a ∧
            q.originX = ta.originX ∧ q.originY = ta.originY ∧
            q.prevX = ta.originX ∧ q.prevY = ta.originY ∧
            s1.touches = [(a, { ta with isPan := true })] ∧ s1.Pinch = none) ∧
        (starts = false → s1.Pan = m.Pan) :=
  ⟨by decide, rfl, rfl, pan_start_rule frameDrag statePressed (by decide) rfl⟩


/-! ## A touch of a pinch never pans -/

theorem refreshed_lookup (f : Frame) (s m : Input) (hm : refreshed f s = .ok m)
    (id : TouchID) :
    lookup m.touches id =
      (if id ∈ f.justPressedTouchIDs then some (pressed f id)
        else if f.isTouchJustReleased id then none else lookup s.touches id).map
        (fun t => if id ∈ f.touchIDs then observe f id t else t) := by
  rw [(refreshed_inv f s m hm).2]
  simp only [lookup_observeAll, afterPress_lookup]

theorem refreshed_Pan (f : Frame) (s m : Input) (hm : refreshed f s = .ok m) (q : pan)
    (hq : m.Pan = some q) :
    s.Pan = some q ∧ (q.id ∈ keys s.touches → f.isTouchJustReleased q.id = false) := by
  rw [(refreshed_inv f s m hm).2] at hq
  have hq' : (afterPress f s).Pan = some q := hq
  rw [afterPress_Pan] at hq'
  by_cases ha : s.touches.any
      (fun e => f.isTouchJustReleased e.1 && panHas s.Pan e.1) = true
  · rw [if_pos ha] at hq'; cases hq'
  · rw [if_neg ha] at hq'
    refine ⟨hq', fun hk => ?_⟩
    by_contra hc
    simp only [Bool.not_eq_false] at hc
    exact ha (any_released_of_mem f s.touches q.id (panHas s.Pan) hk hc
      (by simp [panHas, hq']))

theorem panGuard_pressed (f : Frame) (m : Input) (id : TouchID) :
    panGuard m (observe f id (pressed f id)) = false := by
  simp [panGuard, observe, pressed, hypotenuse, Hyp.abs, Hyp.gtFrac]

/-- The touch of an active pan is tracked and has never been part of a pinch:
preserved by every completed `Update`. -/
theorem Update_Pan_unpinched (f : Frame) (s s1 : Input)
    (hinv : ∀ q, s.Pan = some q → ∃ t, lookup s.touches q.id = some t ∧ t.wasPinch = false)
    (h : Update f s = .ok s1) :
    ∀ q, s1.Pan = some q → ∃ t, lookup s1.touches q.id = some t ∧ t.wasPinch = false := by
  obtain ⟨m, hm, hd⟩ := Update_inv f s s1 h
  have hK : ∀ q, m.Pan = some q → ∃ t, lookup m.touches q.id = some t ∧ t.wasPinch = false := by
    intro q hq
    obtain ⟨hs, hrel⟩ := refreshed_Pan f s m hm q hq
    obtain ⟨t, ht, hw⟩ := hinv q hs
    have hr := hrel ((lookup_isSome_iff _ _).1 ⟨t, ht⟩)
    rw [refreshed_lookup f s m hm]
    by_cases hp : q.id ∈ f.justPressedTouchIDs
    · simp only [hp, if_true, Option.map_some']
      exact ⟨_, rfl, by split_ifs <;> rfl⟩
    · simp only [hp, if_false, hr, ht, Option.map_some', Bool.false_eq_true]
      exact ⟨_, rfl, by split_ifs <;> simp [observe, hw]⟩
  intro q hq
  rcases detect_cases f m s1 hd with h1 | ⟨id1, id2, t1, t2, _, _, _, _, _, hg, h1⟩ |
      ⟨i, ti, _, _, hti, hg, h1⟩
  · rw [h1] at hq ⊢
    exact hK q hq
  · rw [h1] at hq
    have hq' : m.Pan = some q := hq
    simp only [pinchGuard, Bool.and_eq_true, Option.isNone_iff_eq_none] at hg
    rw [hg.1.2] at hq'
    cases hq'
  · rw [h1] at hq ⊢
    simp only [startPan, Option.some.injEq] at hq
    subst hq
    simp only [startPan, lookup_modify, if_true, hti, Option.map_some']
    simp only [panGuard, Bool.and_eq_true, Bool.not_eq_true'] at hg
    exact ⟨_, rfl, hg.1.1.1⟩

/-- One `Update`, whatever the frame, leaves no pan on a tracked touch whose
`wasPinch` flag is set. -/
theorem Update_no_pan_on_pinched (f : Frame) (s s1 : Input) (id : TouchID) (t : touch)
    (hinv : ∀ q, s.Pan = some q → ∃ t, lookup s.touches q.id = some t ∧ t.wasPinch = false)
    (ht : lookup s.touches id = some t) (hw : t.wasPinch = true)
    (h : Update f s = .ok s1) : ∀ q, s1.Pan = some q → q.id ≠ id := by
  obtain ⟨m, hm, hd⟩ := Update_inv f s s1 h
  have hold : ∀ q, m.Pan = some q → q.id ≠ id := by
    intro q hq e
    obtain ⟨t', ht', hw'⟩ := hinv q (refreshed_Pan f s m hm q hq).1
    rw [e, ht] at ht'
    rw [← Option.some.inj ht', hw] at hw'
    cases hw'
  intro q hq
  rcases detect_cases f m s1 hd with h1 | ⟨id1, id2, t1, t2, _, _, _, _, _, hg, h1⟩ |
      ⟨i, ti, _, h0, hti, hg, h1⟩
  · rw [h1] at hq
    exact hold q hq
  · rw [h1] at hq
    exact hold q hq
  · rw [h1] at hq
    simp only [startPan, Option.some.injEq] at hq
    subst hq
    intro e
    simp only at e
    subst e
    have hi : i ∈ f.touchIDs := mem_of_index _ _ _ h0
    rw [refreshed_lookup f s m hm] at hti
    by_cases hp : i ∈ f.justPressedTouchIDs
    · simp only [hp, if_true, Option.map_some', hi, Option.some.injEq] at hti
      rw [← hti, panGuard_pressed] at hg
      cases hg
    · cases hr : f.isTouchJustReleased i
      · simp only [hp, if_false, hr, ht, Option.map_some', hi, if_true, Option.some.injEq,
          Bool.false_eq_true] at hti
        simp only [panGuard, Bool.and_eq_true, Bool.not_eq_true'] at hg
        rw [← hti] at hg
        simp [observe, hw] at hg
      · simp [hp, hr] at hti


theorem runWhile_wf_unpinched (ok : Frame → Input → Bool) (fs : List Frame) (s s1 : Input)
    (hwf : (keys s.touches).Nodup)
    (hinv : ∀ q, s.Pan = some q → ∃ t, lookup s.touches q.id = some t ∧ t.wasPinch = false)
    (h : runWhile ok s fs = some s1) :
    (keys s1.touches).Nodup ∧
      ∀ q, s1.Pan = some q → ∃ t, lookup s1.touches q.id = some t ∧ t.wasPinch = false :=
  runWhile_invariant ok
    (fun s => (keys s.touches).Nodup ∧
      ∀ q, s.Pan = some q → ∃ t, lookup s.touches q.id = some t ∧ t.wasPinch = false)
    (fun f s s1 hs _ hu => ⟨Update_nodup f s s1 hs.1 hu, Update_Pan_unpinched f s s1 hs.2 hu⟩)
    fs s s1 ⟨hwf, hinv⟩ h

/-- C9: along a run from `NewInput` in which no tracked identifier is reported
newly pressed again, once the record of a tracked touch has `wasPinch` set, no
later state, for as long as the touch is not released, has a pan on that touch;
and the next `Update`, whatever its frame (in particular the one that releases
the touch), leaves no pan on it and emits no tap for it. -/
theorem pinched_touch_never_pans (fs gs : List Frame) (s s1 : Input) (id : TouchID)
    (t : touch) (h0 : runWhile noRepress NewInput fs = some s)
    (ht : lookup s.touches id = some t) (hw : t.wasPinch = true)
    (h1 : runWhile (fun f s => noRepress f s && !f.isTouchJustReleased id) s gs = some s1) :
    (∀ q, s1.Pan = some q → q.id ≠ id) ∧
      ∀ (f : Frame) (s2 : Input), Update f s1 = .ok s2 →
        (∀ q, s2.Pan = some q → q.id ≠ id) ∧
          s2.Taps = ((erase s1.touches id).filter
            (fun e => f.isTouchJustReleased e.1 && isTap e.2)).map
              (fun e => { X := e.2.currX, Y := e.2.currY }) := by
  obtain ⟨hwf, hK⟩ := runWhile_wf_unpinched noRepress fs NewInput s (by simp [NewInput, keys])
    (fun q hq => by cases hq) h0
  obtain ⟨hwf1, hK1⟩ := runWhile_wf_unpinched _ gs s s1 hwf hK h1
  obtain ⟨_, t1, ht1, hw1, _⟩ := flags_persist_run id gs s s1 t hwf ht h1
  have hw1' : t1.wasPinch = true := hw1 hw
  refine ⟨?_, ?_⟩
  · intro q hq e
    obtain ⟨t', ht', hw'⟩ := hK1 q hq
    rw [e, ht1] at ht'
    rw [← Option.some.inj ht', hw1'] at hw'
    cases hw'
  · intro f s2 hu
    exact ⟨Update_no_pan_on_pinched f s1 s2 id t1 hK1 ht1 hw1' hu,
      Update_Taps_flagged f s1 s2 id t1 hwf1 ht1 (Or.inl hw1') hu⟩

theorem pinched_touch_never_pans_witness :
    runWhile noRepress NewInput scenarioC = some stateC ∧
      lookup stateC.touches 1 = some ⟨10, 0, 20, 0, 1, true, false⟩ ∧
      runWhile (fun f s => noRepress f s && !f.isTouchJustReleased 1) stateC [frameCrelease] =
        some stateCreleased ∧
      (∀ q, stateCreleased.Pan = some q → q.id ≠ 1) ∧
      Update frameCfar stateCreleased = .ok stateCfar ∧
      (∀ q, stateCfar.Pan = some q → q.id ≠ 1) ∧
      stateCfar.Taps = ((erase stateCreleased.touches 1).filter
        (fun e => frameCfar.isTouchJustReleased e.1 && isTap e.2)).map
          (fun e => { X := e.2.currX, Y := e.2.currY }) :=
  have key := pinched_touch_never_pans scenarioC [frameCrelease] stateC stateCreleased 1
    ⟨10, 0, 20, 0, 1, true, false⟩ rfl rfl rfl rfl
  have nxt := key.2 frameCfar stateCfar rfl
  ⟨rfl, rfl, rfl, key.1, rfl, nxt.1, nxt.2⟩


/-! ## Gesture queries -/

theorem HypDiff.isZero_iff (d : HypDiff) :
    d.isZero = true ↔
      Real.sqrt (d.minuend.radicand : ℝ) - Real.sqrt (d.subtrahend.radicand : ℝ) = 0 := by
  rw [sub_eq_zero, Real.sqrt_inj (Nat.cast_nonneg _) (Nat.cast_nonneg _)]
  simp only [HypDiff.isZero, decide_eq_true_eq, Nat.cast_inj]

theorem HypDiff.isPos_iff (d : HypDiff) :
    d.isPos = true ↔
      0 < Real.sqrt (d.minuend.radicand : ℝ) - Real.sqrt (d.subtrahend.radicand : ℝ) := by
  rw [sub_pos, Real.sqrt_lt_sqrt_iff (Nat.cast_nonneg _)]
  simp only [HypDiff.isPos, decide_eq_true_eq, Nat.cast_lt]

theorem HypDiff.isNeg_iff (d : HypDiff) :
    d.isNeg = true ↔
      Real.sqrt (d.minuend.radicand : ℝ) - Real.sqrt (d.subtrahend.radicand : ℝ) < 0 := by
  rw [sub_neg, Real.sqrt_lt_sqrt_iff (Nat.cast_nonneg _)]
  simp only [HypDiff.isNeg, decide_eq_true_eq, Nat.cast_lt]

theorem sqrt_nat_sq (n : Nat) : Real.sqrt ((n * n : ℕ) : ℝ) = (n : ℝ) := by
  rw [Nat.cast_mul, Real.sqrt_mul_self (Nat.cast_nonneg n)]

/-- C11, as stated, fails: for the pinch of scenario C the touches have moved
apart (previous distance 10, current distance 20) and `Incremental` returns
-10, which is not positive. -/
theorem pinch_apart_not_positive :
    stateC.Pinch = some pinchC ∧
      Real.sqrt (pinchC.prevH.radicand : ℝ) < Real.sqrt ((pinchC.currentH frameC2).radicand : ℝ) ∧
      ¬ (0 < Real.sqrt ((pinchC.Incremental frameC2).1.minuend.radicand : ℝ) -
        Real.sqrt ((pinchC.Incremental frameC2).1.subtrahend.radicand : ℝ)) := by
  refine ⟨rfl, ?_, ?_⟩
  · rw [Real.sqrt_lt_sqrt_iff (Nat.cast_nonneg _)]
    exact_mod_cast (by decide : pinchC.prevH.radicand < (pinchC.currentH frameC2).radicand)
  · rw [← HypDiff.isPos_iff]
    decide

/-- C14: scenario C.  The first `Update` tracks both touches, the second one
(touches seen at (0,0) and (20,0)) creates a pinch of touches 0 and 1 with
`originH = prevH = 10`, sets `wasPinch` on both records and creates no pan; at
these positions `Incremental` returns -10 and `Total` returns -10. -/
theorem scenarioC_run :
    run NewInput (scenarioC.take 1) = .ok stateC1 ∧
      run NewInput scenarioC = .ok stateC ∧
      stateC.Pinch = some pinchC ∧ stateC.Pan = none ∧
      (∀ e ∈ stateC.touches, e.2.wasPinch = true) ∧ keys stateC.touches = [0, 1] ∧
      Real.sqrt (pinchC.originH.radicand : ℝ) = 10 ∧
      Real.sqrt (pinchC.prevH.radicand : ℝ) = 10 ∧
      Real.sqrt ((pinchC.Incremental frameC2).1.minuend.radicand : ℝ) -
        Real.sqrt ((pinchC.Incremental frameC2).1.subtrahend.radicand : ℝ) = -10 ∧
      Real.sqrt ((pinchC.Total frameC2).minuend.radicand : ℝ) -
        Real.sqrt ((pinchC.Total frameC2).subtrahend.radicand : ℝ) = -10 := by
  have h10 : Real.sqrt (((100 : ℕ)) : ℝ) = 10 := by
    have := sqrt_nat_sq 10
    norm_num at this ⊢
    exact this
  have h20 : Real.sqrt (((400 : ℕ)) : ℝ) = 20 := by
    have := sqrt_nat_sq 20
    norm_num at this ⊢
    exact this
  have a1 : (pinchC.Incremental frameC2).1.minuend.radicand = 100 := rfl
  have a2 : (pinchC.Incremental frameC2).1.subtrahend.radicand = 400 := rfl
  have b1 : (pinchC.Total frameC2).minuend.radicand = 100 := rfl
  have b2 : (pinchC.Total frameC2).subtrahend.radicand = 400 := rfl
  have c1 : pinchC.originH.radicand = 100 := rfl
  have c2 : pinchC.prevH.radicand = 100 := rfl
  refine ⟨rfl, rfl, rfl, rfl, by decide, rfl, ?_, ?_, ?_, ?_⟩
  · rw [c1, h10]
  · rw [c2, h10]
  · rw [a1, a2, h10, h20]; norm_num
  · rw [b1, b2, h10, h20]; norm_num

theorem Incrementals_fields (fs : List Frame) :
    ∀ p : pan, (p.Incrementals fs).2.id = p.id ∧ (p.Incrementals fs).2.originX = p.originX ∧
      (p.Incrementals fs).2.originY = p.originY := by
  induction fs with
  | nil => intro p; exact ⟨rfl, rfl, rfl⟩
  | cons f fs ih =>
    intro p
    simp only [pan.Incrementals]
    exact ih (p.Incremental f).2

theorem Incrementals_sum (fs : List Frame) :
    ∀ p : pan, ((p.Incrementals fs).1.map Prod.fst).sum = (p.Incrementals fs).2.prevX - p.prevX ∧
      ((p.Incrementals fs).1.map Prod.snd).sum = (p.Incrementals fs).2.prevY - p.prevY := by
  induction fs with
  | nil => intro p; simp [pan.Incrementals]
  | cons f fs ih =>
    intro p
    obtain ⟨h1, h2⟩ := ih (p.Incremental f).2
    simp only [pan.Incrementals, List.map_cons, List.sum_cons, h1, h2]
    simp only [pan.Incremental]
    constructor <;> ring

theorem Incrementals_last (fs : List Frame) (g : Frame) :
    ∀ p : pan, (p.Incrementals (fs ++ [g])).2.prevX = (g.touchPosition p.id).1 ∧
      (p.Incrementals (fs ++ [g])).2.prevY = (g.touchPosition p.id).2 := by
  induction fs with
  | nil => intro p; exact ⟨rfl, rfl⟩
  | cons f fs ih =>
    intro p
    simp only [List.cons_append, pan.Incrementals]
    exact ih (p.Incremental f).2

/-- A pan that an `Update` has put into `Pan`, and that was not there before,
has its previous position at its origin. -/
theorem Update_new_pan (f : Frame) (s s1 : Input) (p : pan) (hu : Update f s = .ok s1)
    (hp : s1.Pan = some p) (hnew : s.Pan ≠ some p) :
    p.prevX = p.originX ∧ p.prevY = p.originY := by
  obtain ⟨m, hm, hd⟩ := Update_inv f s s1 hu
  have hold : m.Pan ≠ some p := fun h => hnew (refreshed_Pan f s m hm p h).1
  rcases detect_cases f m s1 hd with h1 | ⟨id1, id2, t1, t2, _, _, _, _, _, _, h1⟩ |
      ⟨i, ti, _, _, _, _, h1⟩
  · rw [h1] at hp; exact absurd hp hold
  · rw [h1] at hp; exact absurd hp hold
  · rw [h1] at hp
    simp only [startPan, Option.some.injEq] at hp
    rw [← hp]
    exact ⟨rfl, rfl⟩

/-! ## Scenario B -/

/-- C13: evaluation of the code on scenario B when the first call of
`Incremental` is made after the third `Update`.  The second `Update` creates a
pan with origin (0,0) and previous position (0,0); after the third `Update`
(touch at (0,5)) the call returns (0,5), where the specification expects
(0,4). -/
theorem scenarioB_first_query :
    run NewInput (scenarioB.take 2) = .ok stateDragged ∧ stateDragged.Pan = some panB ∧
      run NewInput scenarioB = .ok stateB3 ∧ stateB3.Pan = some panB ∧
      (panB.Incremental frameB3).1 = (0, 5) ∧ (panB.Incremental frameB3).1 ≠ (0, 4) :=
  ⟨rfl, rfl, rfl, rfl, rfl, by decide⟩

/-- Scenario B with a call of `Incremental` after every `Update`, as the demo
host makes: the call after the second `Update` returns (0,1), the call after
the third `Update` (touch at (0,5)) returns (0,4), and `Total` returns (0,5). -/
theorem scenarioB_run :
    run NewInput (scenarioB.take 2) = .ok stateDragged ∧ stateDragged.Pan = some panB ∧
      panB.originX = 0 ∧ panB.originY = 0 ∧
      stateDragged.panIncremental frameDrag = some ((0, 1), stateB2queried) ∧
      Update frameB3 stateB2queried = .ok stateB3queried ∧
      (stateB3queried.panIncremental frameB3).map Prod.fst = some (0, 4) ∧
      stateB3queried.Pan.map (pan.Total frameB3) = some (0, 5) :=
  ⟨rfl, rfl, rfl, rfl, rfl, rfl, rfl, rfl⟩


/-! ## Faults -/

/-- C16, as stated, fails: `Update` faults with a nil dereference on a frame
with an active identifier that is not tracked, and with an index out of range
when one touch is tracked and the frame has no active identifier. -/
theorem Update_faults :
    Update frameStray NewInput = .error .nilDereference ∧
      Update frameIdle statePressed = .error .indexOutOfRange :=
  ⟨rfl, rfl⟩

theorem Update_hostConsistent (f : Frame) (s : Input) (hwf : (keys s.touches).Nodup)
    (hc : hostConsistent f s = true) :
    ∃ s1, Update f s = .ok s1 ∧ (keys s1.touches).Nodup ∧
      ∀ id, id ∈ keys s1.touches ↔ id ∈ f.touchIDs := by
  obtain ⟨m, hm⟩ : ∃ m, refreshed f s = .ok m := ⟨_, hostConsistent_refreshed f s hc⟩
  have hd : ∃ s1, detect f m = .ok s1 := by
    rcases detect_hostConsistent f s m hwf hc hm with
      ⟨_, _, _, _, _, _, _, _, _, hd⟩ | ⟨_, _, _, hd⟩ | ⟨_, _, hd⟩ <;> exact ⟨_, hd⟩
  obtain ⟨s1, hd⟩ := hd
  have hu : Update f s = .ok s1 := (Update_eq_detect f s m hm).trans hd
  refine ⟨s1, hu, Update_nodup f s s1 hwf hu, fun id => ?_⟩
  rw [Update_keys f s s1 hu]
  exact hostConsistent_keys f s hc id

/-- C16, amended: for every tracker state (a map with distinct keys) and every
frame that is host-consistent with it, `Update` completes without a fault and
returns no error. -/
theorem Update_total_on_consistent (f : Frame) (s : Input) (hwf : (keys s.touches).Nodup)
    (hc : hostConsistent f s = true) : ∃ s1, Update f s = .ok s1 := by
  obtain ⟨s1, hu, _⟩ := Update_hostConsistent f s hwf hc
  exact ⟨s1, hu⟩

theorem Update_total_on_consistent_witness :
    (keys stateC1.touches).Nodup ∧ hostConsistent frameC2 stateC1 = true ∧
      ∃ s1, Update frameC2 stateC1 = .ok s1 :=
  ⟨by decide, rfl, Update_total_on_consistent frameC2 stateC1 (by decide) rfl⟩

/-! ## Pressing a tracked identifier again -/

/-- C17, as stated, fails: touch 0 is tracked in `stateDragged` with origin
(0,0) and `isPan` set, `frameRepress` reports it newly pressed (and not
released) at (7,7), and after `Update` its record has origin (7,7) and `isPan`
false. -/
theorem repress_replaces_record :
    lookup stateDragged.touches 0 = some ⟨0, 0, 0, 1, 1, false, true⟩ ∧
      (0 : TouchID) ∈ frameRepress.justPressedTouchIDs ∧
      frameRepress.isTouchJustReleased 0 = false ∧
      Update frameRepress stateDragged = .ok stateRepressed ∧
      lookup stateRepressed.touches 0 = some ⟨7, 7, 7, 7, 1, false, false⟩ :=
  ⟨rfl, by decide, rfl, rfl, rfl⟩

/-- C17, amended: for every identifier reported newly pressed, tracked or not,
the press loop stores a record with origin and current position at the reported
position, duration 0 and both flags false, which replaces an existing record;
after a completed `Update` the record of that identifier has its origin and
current position at the reported position.  The record of an identifier that
is not reported newly pressed and not released is left alone by the press
loop. -/
theorem press_stores_fresh_record (f : Frame) (s : Input) (id : TouchID)
    (hp : id ∈ f.justPressedTouchIDs) :
    lookup (afterPress f s).touches id =
        some { originX := (f.touchPosition id).1, originY := (f.touchPosition id).2,
               currX := (f.touchPosition id).1, currY := (f.touchPosition id).2,
               duration := 0, wasPinch := false, isPan := false } ∧
      (∀ s1, Update f s = .ok s1 → ∃ t, lookup s1.touches id = some t ∧
        t.originX = (f.touchPosition id).1 ∧ t.originY = (f.touchPosition id).2 ∧
        t.currX = (f.touchPosition id).1 ∧ t.currY = (f.touchPosition id).2) ∧
      (∀ k, k ∉ f.justPressedTouchIDs → f.isTouchJustReleased k = false →
        lookup (afterPress f s).touches k = lookup s.touches k) := by
  refine ⟨?_, ?_, ?_⟩
  · rw [afterPress_lookup, if_pos hp]; rfl
  · intro s1 hu
    obtain ⟨m, hm, hd⟩ := Update_inv f s s1 hu
    have hl := refreshed_lookup f s m hm id
    rw [if_pos hp, Option.map_some'] at hl
    have hm0 : ∃ t, lookup m.touches id = some t ∧
        t.originX = (f.touchPosition id).1 ∧ t.originY = (f.touchPosition id).2 ∧
        t.currX = (f.touchPosition id).1 ∧ t.currY = (f.touchPosition id).2 := by
      refine ⟨_, hl, ?_⟩
      split_ifs <;> simp [observe, pressed]
    obtain ⟨t, ht, h1, h2, h3, h4⟩ := hm0
    rcases detect_cases f m s1 hd with e | ⟨id1, id2, t1, t2, _, _, _, _, _, _, e⟩ |
        ⟨i, ti, _, _, _, _, e⟩
    · rw [e]; exact ⟨t, ht, h1, h2, h3, h4⟩
    · rw [e]
      simp only [startPinch, lookup_modify, ht]
      split_ifs <;> simp [h1, h2, h3, h4]
    · rw [e]
      simp only [startPan, lookup_modify, ht]
      split_ifs <;> simp [h1, h2, h3, h4]
  · intro k hk hr
    rw [afterPress_lookup, if_neg hk, hr]
    rfl

theorem press_stores_fresh_record_witness :
    (0 : TouchID) ∈ frameRepress.justPressedTouchIDs ∧
      lookup stateDragged.touches 0 = some ⟨0, 0, 0, 1, 1, false, true⟩ ∧
      lookup (afterPress frameRepress stateDragged).touches 0 =
        some { originX := (frameRepress.touchPosition 0).1,
               originY := (frameRepress.touchPosition 0).2,
               currX := (frameRepress.touchPosition 0).1,
               currY := (frameRepress.touchPosition 0).2,
               duration := 0, wasPinch := false, isPan := false } :=
  ⟨by decide, rfl,
    (press_stores_fresh_record frameRepress stateDragged 0 (by decide)).1⟩


/-! ## Runs of host-consistent frames -/

theorem consistentRun_initial (fs gs : List Frame) :
    ∀ s, consistentRun s (fs ++ gs) = true → consistentRun s fs = true := by
  induction fs with
  | nil => intro s _; rfl
  | cons f fs ih =>
    intro s h
    simp only [List.cons_append, consistentRun, Bool.and_eq_true] at h ⊢
    refine ⟨h.1, ?_⟩
    cases hu : Update f s with
    | error e => rfl
    | ok s1 =>
      have h2 := h.2
      simp only [hu] at h2
      exact ih s1 h2

theorem run_consistent (fs : List Frame) :
    ∀ s, (keys s.touches).Nodup → consistentRun s fs = true →
      ∃ s1, run s fs = .ok s1 ∧ (keys s1.touches).Nodup ∧
        ∀ f, fs.getLast? = some f → ∀ id, id ∈ keys s1.touches ↔ id ∈ f.touchIDs := by
  induction fs with
  | nil =>
    intro s hwf _
    exact ⟨s, rfl, hwf, fun f hf => by simp at hf⟩
  | cons f fs ih =>
    intro s hwf h
    simp only [consistentRun, Bool.and_eq_true] at h
    obtain ⟨s2, hu, hwf2, hk2⟩ := Update_hostConsistent f s hwf h.1
    have h2 := h.2
    simp only [hu] at h2
    obtain ⟨s1, hr, hwf1, hk1⟩ := ih s2 hwf2 h2
    refine ⟨s1, by simp only [run, hu]; exact hr, hwf1, ?_⟩
    intro g hg
    cases fs with
    | nil =>
      simp only [List.getLast?_singleton, Option.some.injEq] at hg
      simp only [run] at hr
      cases hr
      rw [← hg]
      exact hk2
    | cons g' gs =>
      rw [List.getLast?_cons_cons] at hg
      exact hk1 g hg

/-- C18: when every frame of a sequence applied from `NewInput` is
host-consistent with the state it meets, then after every prefix `fs` of the
sequence all calls of `Update` have completed without a fault and returned nil,
the map has distinct keys, and its keys are the active identifiers of the last
frame of `fs`. -/
theorem consistent_frames_never_fault (fs gs : List Frame)
    (h : consistentRun NewInput (fs ++ gs) = true) :
    ∃ s, run NewInput fs = .ok s ∧ (keys s.touches).Nodup ∧
      ∀ f, fs.getLast? = some f → ∀ id, id ∈ keys s.touches ↔ id ∈ f.touchIDs :=
  run_consistent fs NewInput (by simp [NewInput, keys]) (consistentRun_initial fs gs NewInput h)

theorem consistent_frames_never_fault_witness :
    consistentRun NewInput (scenarioC ++ [frameCrelease]) = true ∧
      run NewInput scenarioC = .ok stateC ∧
      ∃ s, run NewInput scenarioC = .ok s ∧ (keys s.touches).Nodup ∧
        ∀ f, scenarioC.getLast? = some f → ∀ id, id ∈ keys s.touches ↔ id ∈ f.touchIDs :=
  ⟨rfl, rfl, consistent_frames_never_fault scenarioC [frameCrelease] rfl⟩


/-! ## Classification invariant -/

theorem refreshed_Pinch (f : Frame) (s m : Input) (hm : refreshed f s = .ok m) (p : pinch)
    (hp : m.Pinch = some p) :
    s.Pinch = some p ∧ (p.id1 ∈ keys s.touches → f.isTouchJustReleased p.id1 = false) ∧
      (p.id2 ∈ keys s.touches → f.isTouchJustReleased p.id2 = false) := by
  rw [(refreshed_inv f s m hm).2] at hp
  have hp' : (afterPress f s).Pinch = some p := hp
  rw [afterPress_Pinch] at hp'
  by_cases ha : s.touches.any
      (fun e => f.isTouchJustReleased e.1 && pinchHas s.Pinch e.1) = true
  · rw [if_pos ha] at hp'; cases hp'
  · rw [if_neg ha] at hp'
    refine ⟨hp', fun hk => ?_, fun hk => ?_⟩
    · by_contra hc
      simp only [Bool.not_eq_false] at hc
      exact ha (any_released_of_mem f s.touches p.id1 (pinchHas s.Pinch) hk hc
        (by simp [pinchHas, hp']))
    · by_contra hc
      simp only [Bool.not_eq_false] at hc
      exact ha (any_released_of_mem f s.touches p.id2 (pinchHas s.Pinch) hk hc
        (by simp [pinchHas, hp']))

theorem refreshed_Pan_kept (f : Frame) (s m : Input) (hm : refreshed f s = .ok m) (q : pan)
    (hq : s.Pan = some q) (hr : f.isTouchJustReleased q.id = false) : m.Pan = some q := by
  rw [(refreshed_inv f s m hm).2]
  show (afterPress f s).Pan = some q
  rw [afterPress_Pan, if_neg, hq]
  rw [List.any_eq_true]
  rintro ⟨e, _, he⟩
  simp only [hq, panHas, Bool.and_eq_true, decide_eq_true_eq] at he
  rw [he.2, hr] at he
  exact absurd he.1 (by decide)

/-- Record of a kept touch after the refresh: flags as before. -/
theorem refreshed_kept (f : Frame) (s m : Input) (hm : refreshed f s = .ok m)
    (hn : noRepress f s = true) (id : TouchID) (t : touch)
    (ht : lookup s.touches id = some t) (hr : f.isTouchJustReleased id = false) :
    ∃ t1, lookup m.touches id = some t1 ∧ t1.wasPinch = t.wasPinch ∧ t1.isPan = t.isPan := by
  have hp := noRepress_not_pressed f s id hn ((lookup_isSome_iff _ _).1 ⟨t, ht⟩) hr
  rw [refreshed_lookup f s m hm, if_neg hp, hr]
  simp only [Bool.false_eq_true, if_false, ht, Option.map_some']
  exact ⟨_, rfl, by split_ifs <;> rfl, by split_ifs <;> rfl⟩

/-- Origin of a record after the refresh: pressed this frame, or kept. -/
theorem refreshed_record (f : Frame) (s m : Input) (hm : refreshed f s = .ok m)
    (id : TouchID) (t : touch) (ht : lookup m.touches id = some t) :
    (t.wasPinch = false ∧ t.isPan = false) ∨
      (f.isTouchJustReleased id = false ∧
        ∃ t0, lookup s.touches id = some t0 ∧ t.wasPinch = t0.wasPinch ∧ t.isPan = t0.isPan) := by
  rw [refreshed_lookup f s m hm] at ht
  by_cases hp : id ∈ f.justPressedTouchIDs
  · left
    rw [if_pos hp, Option.map_some', Option.some.injEq] at ht
    rw [← ht]
    split_ifs <;> simp [observe, pressed]
  · right
    rw [if_neg hp] at ht
    cases hr : f.isTouchJustReleased id
    · refine ⟨rfl, ?_⟩
      simp only [hr, Bool.false_eq_true, if_false] at ht
      cases h0 : lookup s.touches id with
      | none => simp [h0] at ht
      | some t0 =>
        simp only [h0, Option.map_some', Option.some.injEq] at ht
        refine ⟨t0, rfl, ?_⟩
        rw [← ht]
        split_ifs <;> simp [observe]
    · simp [hr] at ht

theorem classified_refreshed (f : Frame) (s m : Input) (hs : classified s)
    (hn : noRepress f s = true) (hm : refreshed f s = .ok m) : classified m := by
  obtain ⟨hwf, hex, hpi, hpa, hip⟩ := hs
  have hmk : keys m.touches = keys (afterPress f s).touches := by
    rw [(refreshed_inv f s m hm).2]; exact keys_observeAll _ _ _
  obtain ⟨g1, g2⟩ := refreshed_gestures f s m hm
  refine ⟨hmk ▸ afterPress_nodup f s hwf, ?_, ?_, ?_, ?_⟩
  · rcases hex with h | h
    · left; rcases g2 with k | k
      · exact k
      · rw [k, h]
    · right; rcases g1 with k | k
      · exact k
      · rw [k, h]
  · intro p hp
    obtain ⟨hsp, r1, r2⟩ := refreshed_Pinch f s m hm p hp
    obtain ⟨⟨t1, l1, w1⟩, ⟨t2, l2, w2⟩⟩ := hpi p hsp
    obtain ⟨u1, k1, e1, _⟩ := refreshed_kept f s m hm hn p.id1 t1 l1
      (r1 ((lookup_isSome_iff _ _).1 ⟨t1, l1⟩))
    obtain ⟨u2, k2, e2, _⟩ := refreshed_kept f s m hm hn p.id2 t2 l2
      (r2 ((lookup_isSome_iff _ _).1 ⟨t2, l2⟩))
    exact ⟨⟨u1, k1, e1.trans w1⟩, ⟨u2, k2, e2.trans w2⟩⟩
  · intro q hq
    obtain ⟨hsq, r⟩ := refreshed_Pan f s m hm q hq
    obtain ⟨t, l, i1, w1⟩ := hpa q hsq
    obtain ⟨u, k, e1, e2⟩ := refreshed_kept f s m hm hn q.id t l
      (r ((lookup_isSome_iff _ _).1 ⟨t, l⟩))
    exact ⟨u, k, e2.trans i1, e1.trans w1⟩
  · intro id t ht hi
    rcases refreshed_record f s m hm id t ht with ⟨_, h2⟩ | ⟨hr, t0, l0, _, e2⟩
    · rw [h2] at hi; cases hi
    · obtain ⟨q, hq, hid⟩ := hip id t0 l0 (e2 ▸ hi)
      exact ⟨q, refreshed_Pan_kept f s m hm q hq (hid ▸ hr), hid⟩


theorem lookup_startPinch (m : Input) (id1 id2 : TouchID) (d : Hyp) (id : TouchID) :
    lookup (startPinch m id1 id2 d).touches id =
      (lookup m.touches id).map (fun t =>
        if id = id1 ∨ id = id2 then { t with wasPinch := true } else t) := by
  simp only [startPinch, lookup_modify]
  by_cases e1 : id = id1
  · subst e1
    by_cases e2 : id = id2
    · subst e2; cases lookup m.touches id <;> simp
    · cases lookup m.touches id <;> simp [e2]
  · by_cases e2 : id = id2
    · subst e2; cases lookup m.touches id <;> simp [e1]
    · cases lookup m.touches id <;> simp [e1, e2]

theorem lookup_startPan (m : Input) (i : TouchID) (ti : touch) (id : TouchID) :
    lookup (startPan m i ti).touches id =
      (lookup m.touches id).map (fun t => if id = i then { t with isPan := true } else t) := by
  simp only [startPan, lookup_modify]
  by_cases e1 : id = i <;> cases lookup m.touches id <;> simp [e1]

theorem classified_detect (f : Frame) (m s1 : Input) (hm : classified m)
    (hd : detect f m = .ok s1) : classified s1 := by
  obtain ⟨hwf, hex, hpi, hpa, hip⟩ := hm
  rcases detect_cases f m s1 hd with h1 | ⟨id1, id2, t1, t2, _, _, _, l1, l2, hg, h1⟩ |
      ⟨i, ti, _, _, li, hg, h1⟩
  · rw [h1]; exact ⟨hwf, hex, hpi, hpa, hip⟩
  · simp only [pinchGuard, Bool.and_eq_true, Option.isNone_iff_eq_none] at hg
    have hpan : s1.Pan = none := by rw [h1]; exact hg.1.2
    have hlk : ∀ id, lookup s1.touches id =
        (lookup m.touches id).map (fun t =>
          if id = id1 ∨ id = id2 then { t with wasPinch := true } else t) := by
      intro id
      rw [h1]
      exact lookup_startPinch m id1 id2 _ id
    refine ⟨?_, Or.inl hpan, ?_, ?_, ?_⟩
    · rw [h1]; simpa [startPinch, keys_modify] using hwf
    · intro p hp
      rw [h1] at hp
      simp only [startPinch, Option.some.injEq] at hp
      subst hp
      simp only [hlk, l1, l2, Option.map_some']
      constructor
      · exact ⟨_, rfl, by simp⟩
      · exact ⟨_, rfl, by simp⟩
    · intro q hq
      rw [hpan] at hq; cases hq
    · intro id t ht hi
      rw [hlk] at ht
      cases h0 : lookup m.touches id with
      | none => simp [h0] at ht
      | some t0 =>
        simp only [h0, Option.map_some', Option.some.injEq] at ht
        have hi0 : t0.isPan = true := by
          rw [← ht] at hi
          split_ifs at hi <;> exact hi
        obtain ⟨q, hq, _⟩ := hip id t0 h0 hi0
        rw [hg.1.2] at hq; cases hq
  · simp only [panGuard, Bool.and_eq_true, Bool.not_eq_true', Option.isNone_iff_eq_none] at hg
    have hpinch : s1.Pinch = none := by rw [h1]; exact hg.1.2
    have hlk : ∀ id, lookup s1.touches id =
        (lookup m.touches id).map (fun t => if id = i then { t with isPan := true } else t) := by
      intro id
      rw [h1]
      exact lookup_startPan m i ti id
    have hq1 : s1.Pan = some ⟨i, ti.originX, ti.originY, ti.originX, ti.originY⟩ := by
      rw [h1]; rfl
    refine ⟨?_, Or.inr hpinch, ?_, ?_, ?_⟩
    · rw [h1]; simpa [startPan, keys_modify] using hwf
    · intro p hp
      rw [hpinch] at hp; cases hp
    · intro q hq
      rw [hq1, Option.some.injEq] at hq
      subst hq
      simp only [hlk, li, Option.map_some', if_true]
      exact ⟨_, rfl, rfl, hg.1.1.1⟩
    · intro id t ht hi
      by_cases e : id = i
      · exact ⟨_, hq1, e.symm⟩
      · rw [hlk] at ht
        cases h0 : lookup m.touches id with
        | none => simp [h0] at ht
        | some t0 =>
          simp only [h0, Option.map_some', Option.some.injEq, e, if_false] at ht
          obtain ⟨q, hq, _⟩ := hip id t0 h0 (ht ▸ hi)
          rw [hg.1.1.2] at hq; cases hq

theorem classified_Update (f : Frame) (s s1 : Input) (hs : classified s)
    (hn : noRepress f s = true) (hu : Update f s = .ok s1) : classified s1 := by
  obtain ⟨m, hm, hd⟩ := Update_inv f s s1 hu
  exact classified_detect f m s1 (classified_refreshed f s m hs hn hm) hd

theorem classified_NewInput : classified NewInput := by
  refine ⟨by simp [NewInput, keys], Or.inl rfl, ?_, ?_, ?_⟩
  · intro p hp; cases hp
  · intro q hq; cases hq
  · intro id t ht; simp [NewInput, lookup] at ht

theorem classified_run (fs : List Frame) (s : Input)
    (h : runWhile (fun f s => hostConsistent f s && noRepress f s) NewInput fs = some s) :
    classified s :=
  runWhile_invariant _ classified
    (fun f s s1 hs hok hu => by
      simp only [Bool.and_eq_true] at hok
      exact classified_Update f s s1 hs hok.2 hu)
    fs NewInput s classified_NewInput h


/-! ## The release loop and the wording of the specification -/

theorem specReleaseStep_eq (f : Frame) (s : Input) (e : TouchID × touch)
    (h1 : pinchHas s.Pinch e.1 = true → isTap e.2 = false ∧ panHas s.Pan e.1 = false)
    (h2 : panHas s.Pan e.1 = true → isTap e.2 = false) :
    specReleaseStep f s e = releaseStep f s e := by
  unfold specReleaseStep releaseStep
  cases hr : f.isTouchJustReleased e.1
  · simp
  · cases hpi : pinchHas s.Pinch e.1
    · cases hpa : panHas s.Pan e.1
      · simp [hpa]
      · simp [hpa, h2 hpa]
    · obtain ⟨a, b⟩ := h1 hpi
      simp [a, b]

theorem specRelease_foldl_eq (f : Frame) (l : List (TouchID × touch)) :
    ∀ s : Input,
      (∀ e ∈ l, (pinchHas s.Pinch e.1 = true → isTap e.2 = false ∧ panHas s.Pan e.1 = false) ∧
        (panHas s.Pan e.1 = true → isTap e.2 = false)) →
      l.foldl (specReleaseStep f) s = l.foldl (releaseStep f) s := by
  induction l with
  | nil => intro s _; rfl
  | cons e rest ih =>
    intro s h
    have he := h e (List.mem_cons_self e rest)
    rw [List.foldl_cons, List.foldl_cons, specReleaseStep_eq f s e he.1 he.2]
    apply ih
    intro x hx
    obtain ⟨x1, x2⟩ := h x (List.mem_cons_of_mem e hx)
    have hP : (releaseStep f s e).Pinch = none ∨ (releaseStep f s e).Pinch = s.Pinch := by
      rw [releaseStep_Pinch]; split_ifs <;> simp
    have hQ : (releaseStep f s e).Pan = none ∨ (releaseStep f s e).Pan = s.Pan := by
      rw [releaseStep_Pan]; split_ifs <;> simp
    constructor
    · intro hx1
      rcases hP with k | k
      · rw [k] at hx1; simp [pinchHas] at hx1
      · rw [k] at hx1
        refine ⟨(x1 hx1).1, ?_⟩
        rcases hQ with k2 | k2
        · rw [k2]; rfl
        · rw [k2]; exact (x1 hx1).2
    · intro hx2
      rcases hQ with k | k
      · rw [k] at hx2; simp [panHas] at hx2
      · rw [k] at hx2; exact x2 hx2

theorem classified_release_eq (f : Frame) (s : Input) (hs : classified s) :
    specReleaseLoop f { s with Taps := [] } = releaseLoop f { s with Taps := [] } := by
  obtain ⟨hwf, hex, hpi, hpa, _⟩ := hs
  unfold specReleaseLoop releaseLoop
  apply specRelease_foldl_eq
  intro e he
  have hl := lookup_of_mem s.touches hwf e he
  constructor
  · intro h
    cases hP : s.Pinch with
    | none => rw [hP] at h; simp [pinchHas] at h
    | some p =>
      have hQ : s.Pan = none := by
        rcases hex with k | k
        · exact k
        · rw [k] at hP; cases hP
      rw [hP] at h
      simp only [pinchHas, Bool.or_eq_true, decide_eq_true_eq] at h
      obtain ⟨⟨t1, l1, w1⟩, ⟨t2, l2, w2⟩⟩ := hpi p hP
      refine ⟨?_, by rw [hQ]; rfl⟩
      apply isTap_of_flagged
      left
      rcases h with k | k
      · rw [k, l1] at hl; rw [← Option.some.inj hl]; exact w1
      · rw [k, l2] at hl; rw [← Option.some.inj hl]; exact w2
  · intro h
    cases hQ : s.Pan with
    | none => rw [hQ] at h; simp [panHas] at h
    | some q =>
      rw [hQ] at h
      simp only [panHas, decide_eq_true_eq] at h
      obtain ⟨t, l, i1, _⟩ := hpa q hQ
      apply isTap_of_flagged
      right
      rw [h, l] at hl; rw [← Option.some.inj hl]; exact i1

/-- C19, as stated, fails: the frames of scenario C followed by `frameCrepress`
are host-consistent, the state they reach has an active pinch whose touch 0 has
`wasPinch` false, and when touch 0 is then released the release loop of the
code emits a tap where the wording of the specification emits none. -/
theorem repress_breaks_classification :
    consistentRun NewInput (scenarioC ++ [frameCrepress]) = true ∧
      run NewInput (scenarioC ++ [frameCrepress]) = .ok stateCrepressed ∧
      stateCrepressed.Pinch = some pinchC ∧ pinchC.id1 = 0 ∧
      lookup stateCrepressed.touches 0 = some ⟨0, 0, 0, 0, 0, false, false⟩ ∧
      hostConsistent frameCrelease stateCrepressed = true ∧
      (releaseLoop frameCrelease { stateCrepressed with Taps := [] }).Taps = [⟨0, 0⟩] ∧
      (specReleaseLoop frameCrelease { stateCrepressed with Taps := [] }).Taps = [] :=
  ⟨rfl, rfl, rfl, rfl, rfl, rfl, rfl, rfl⟩

/-- C19, amended: in every state reached from `NewInput` through host-consistent
frames that report no tracked identifier as newly pressed again, both touches
of an active pinch are tracked with `wasPinch` set, the touch of an active pan
is tracked with `isPan` set, no tracked touch has both flags set, and for every
frame the release loop of the code yields the same state, hence the same taps,
as release processing in the wording of the specification. -/
theorem classification_invariant (fs : List Frame) (s : Input)
    (h : runWhile (fun f s => hostConsistent f s && noRepress f s) NewInput fs = some s) :
    (∀ p, s.Pinch = some p →
      (∃ t, lookup s.touches p.id1 = some t ∧ t.wasPinch = true) ∧
        (∃ t, lookup s.touches p.id2 = some t ∧ t.wasPinch = true)) ∧
    (∀ q, s.Pan = some q → ∃ t, lookup s.touches q.id = some t ∧ t.isPan = true) ∧
    (∀ e ∈ s.touches, ¬ (e.2.wasPinch = true ∧ e.2.isPan = true)) ∧
    (∀ f, specReleaseLoop f { s with Taps := [] } = releaseLoop f { s with Taps := [] }) := by
  have hc := classified_run fs s h
  have hc' := hc
  obtain ⟨hwf, _, hpi, hpa, hip⟩ := hc'
  refine ⟨hpi, ?_, ?_, fun f => classified_release_eq f s hc⟩
  · intro q hq
    obtain ⟨t, l, i1, _⟩ := hpa q hq
    exact ⟨t, l, i1⟩
  · rintro e he ⟨hw, hi⟩
    have hl := lookup_of_mem s.touches hwf e he
    obtain ⟨q, hq, hid⟩ := hip e.1 e.2 hl hi
    obtain ⟨t, l, _, w⟩ := hpa q hq
    rw [hid, hl] at l
    rw [← Option.some.inj l, hw] at w
    cases w

theorem classification_invariant_witness :
    runWhile (fun f s => hostConsistent f s && noRepress f s) NewInput scenarioC =
        some stateC ∧
      (∀ p, stateC.Pinch = some p →
        (∃ t, lookup stateC.touches p.id1 = some t ∧ t.wasPinch = true) ∧
          (∃ t, lookup stateC.touches p.id2 = some t ∧ t.wasPinch = true)) ∧
      (releaseLoop frameCrelease { stateC with Taps := [] }).Taps = [] ∧
      specReleaseLoop frameCrelease { stateC with Taps := [] } =
        releaseLoop frameCrelease { stateC with Taps := [] } :=
  have key := classification_invariant scenarioC stateC rfl
  ⟨rfl, key.1, rfl, key.2.2.2 frameCrelease⟩


/-! ## Integer coordinates: a lone touch that taps has not moved -/

theorem gtFrac_quarter_iff (ox oy cx cy : Int) :
    (hypotenuse ox oy cx cy).abs.gtFrac 1 4 = true ↔ (cx ≠ ox ∨ cy ≠ oy) := by
  simp only [Hyp.gtFrac, Hyp.abs, hypotenuse, decide_eq_true_eq]
  have hx : (ox - cx).natAbs = 0 ↔ cx = ox := by
    rw [Int.natAbs_eq_zero, sub_eq_zero]; exact eq_comm
  have hy : (oy - cy).natAbs = 0 ↔ cy = oy := by
    rw [Int.natAbs_eq_zero, sub_eq_zero]; exact eq_comm
  rw [← not_iff_not]
  push_neg
  rw [← hx, ← hy]
  constructor
  · intro h
    have h0 : (ox - cx).natAbs * (ox - cx).natAbs + (oy - cy).natAbs * (oy - cy).natAbs = 0 := by
      omega
    have h1 := Nat.eq_zero_of_add_eq_zero_right h0
    have h2 := Nat.eq_zero_of_add_eq_zero_left h0
    exact ⟨by simpa using h1, by simpa using h2⟩
  · rintro ⟨h1, h2⟩
    rw [h1, h2]
    decide

theorem pan_test_iff_moved (ox oy cx cy : Int) :
    (0.25 : ℝ) < Real.sqrt ((hypotenuse ox oy cx cy).radicand : ℝ) ↔ (cx ≠ ox ∨ cy ≠ oy) := by
  rw [← gtFrac_quarter_iff]
  have h := Hyp.gtFrac_iff (hypotenuse ox oy cx cy) 1 4 (by decide)
  have e : ((1 : ℕ) : ℝ) / ((4 : ℕ) : ℝ) = 0.25 := by norm_num
  rw [e] at h
  exact h.symm


theorem lookup_singleton (id i : TouchID) (t ti : touch)
    (h : lookup [(id, t)] i = some ti) : i = id ∧ ti = t := by
  by_cases e : id = i
  · subst e
    simp [lookup] at h
    exact ⟨rfl, h.symm⟩
  · simp [lookup, e] at h

/-- Detection with a single tracked touch, when it completes. -/
theorem detect_single (f : Frame) (m s1 : Input) (id : TouchID) (t : touch)
    (hshape : m.touches = [(id, t)]) (hd : detect f m = .ok s1) :
    id ∈ f.touchIDs ∧ s1 = if panGuard m t then startPan m id t else m := by
  have h1 : m.touches.length = 1 := by rw [hshape]; rfl
  have h2 : ¬ m.touches.length = 2 := by rw [hshape]; simp
  rw [detect, if_neg h2, if_pos h1] at hd
  obtain ⟨i, ti, h0, hl⟩ := detectPan_inv f m s1 hd
  rw [detectPan_eval f m i ti h0 hl] at hd
  rw [hshape] at hl
  obtain ⟨e1, e2⟩ := lookup_singleton id i t ti hl
  subst e1 e2
  exact ⟨mem_of_index _ _ _ h0, (Except.ok.inj hd).symm⟩

theorem loneTouch_step (f : Frame) (s s1 : Input) (id : TouchID) (ox oy : Int)
    (hJ : loneTouch id ox oy s) (hp : f.justPressedTouchIDs = [])
    (hr : f.isTouchJustReleased id = false) (hu : Update f s = .ok s1) :
    loneTouch id ox oy s1 := by
  obtain ⟨t, hshape, hox, hoy, hcase⟩ := hJ
  obtain ⟨m, hm, hd⟩ := Update_inv f s s1 hu
  have hap : afterPress f s = { s with Taps := [] } := by
    simp only [afterPress, pressLoop, hp, List.foldl_nil, releaseLoop, hshape, List.foldl_cons]
    exact releaseStep_of_not_released f _ (id, t) hr
  have hm' := (refreshed_inv f s m hm).2
  rw [hap] at hm'
  have hmt : m.touches = [(id, if id ∈ f.touchIDs then observe f id t else t)] := by
    rw [hm']
    simp [observeAll, hshape]
    split_ifs <;> rfl
  have hmPan : m.Pan = s.Pan := by rw [hm']
  have hmPinch : m.Pinch = s.Pinch := by rw [hm']
  obtain ⟨hmem, hs1⟩ := detect_single f m s1 id _ hmt hd
  rw [if_pos hmem] at hmt hs1
  by_cases hg : panGuard m (observe f id t) = true
  · rw [if_pos hg] at hs1
    refine ⟨{ observe f id t with isPan := true }, ?_, hox, hoy, Or.inl rfl⟩
    rw [hs1]
    simp [startPan, hmt, modify]
  · rw [if_neg hg] at hs1
    refine ⟨observe f id t, by rw [hs1, hmt], hox, hoy, ?_⟩
    rcases hcase with hi | ⟨_, _, hw, hpan, hpinch⟩
    · exact Or.inl hi
    · right
      have hgt : (hypotenuse (observe f id t).originX (observe f id t).originY
          (observe f id t).currX (observe f id t).currY).abs.gtFrac 1 4 = false := by
        have hw' : (observe f id t).wasPinch = false := hw
        simp only [panGuard, hw', hmPan, hpan, hmPinch, hpinch, Bool.not_false,
          Option.isNone_none, Bool.and_self, Bool.true_and, Bool.not_eq_true] at hg
        exact hg
      have hmoved := (gtFrac_quarter_iff _ _ _ _).not.1 (by rw [hgt]; decide)
      push_neg at hmoved
      rw [hs1]
      exact ⟨hmoved.1.trans hox, hmoved.2.trans hoy, hw, hmPan.trans hpan, hmPinch.trans hpinch⟩

theorem loneTouch_press (f0 : Frame) (sE s0 : Input) (id : TouchID)
    (hE : sE.touches = [] ∧ sE.Pan = none ∧ sE.Pinch = none)
    (hp : f0.justPressedTouchIDs = [id]) (hu : Update f0 sE = .ok s0) :
    loneTouch id (f0.touchPosition id).1 (f0.touchPosition id).2 s0 := by
  obtain ⟨m, hm, hd⟩ := Update_inv f0 sE s0 hu
  have hap : afterPress f0 sE =
      { sE with Taps := [], touches := [(id, pressed f0 id)] } := by
    simp only [afterPress, pressLoop, hp, List.foldl_cons, List.foldl_nil, releaseLoop, hE.1,
      pressStep_eq]
    simp [store, lookup]
  have hm' := (refreshed_inv f0 sE m hm).2
  rw [hap] at hm'
  have hmt : m.touches =
      [(id, if id ∈ f0.touchIDs then observe f0 id (pressed f0 id) else pressed f0 id)] := by
    rw [hm']
    simp [observeAll]
    split_ifs <;> rfl
  have hmPan : m.Pan = none := by rw [hm']; exact hE.2.1
  have hmPinch : m.Pinch = none := by rw [hm']; exact hE.2.2
  obtain ⟨hmem, hs1⟩ := detect_single f0 m s0 id _ hmt hd
  rw [if_pos hmem] at hmt hs1
  rw [panGuard_pressed, if_neg (by decide)] at hs1
  refine ⟨observe f0 id (pressed f0 id), by rw [hs1, hmt], rfl, rfl, Or.inr ?_⟩
  rw [hs1]
  exact ⟨rfl, rfl, rfl, hmPan, hmPinch⟩


theorem loneTouch_run (id : TouchID) (ox oy : Int) (fs : List Frame) (s0 s : Input)
    (h0 : loneTouch id ox oy s0)
    (h : runWhile (fun f _ => f.justPressedTouchIDs.isEmpty && !f.isTouchJustReleased id)
      s0 fs = some s) : loneTouch id ox oy s :=
  runWhile_invariant _ (loneTouch id ox oy)
    (fun f s s1 hs hok hu => by
      simp only [Bool.and_eq_true, List.isEmpty_iff, Bool.not_eq_true'] at hok
      exact loneTouch_step f s s1 id ox oy hs hok.1 hok.2 hu)
    fs s0 s h0 h

/-- C20: on integer coordinates the pan-start test, distance from origin to
current position above 0.25, holds exactly when the current position differs
from the origin in a coordinate.  Hence, when a touch is pressed while nothing
is tracked and no gesture is active, and stays the only tracked touch (no
further press, no release of it) up to a state `s`, every tap that the next
`Update` emits, in particular the one that processes its release, is located at
the position where the touch was pressed, its origin. -/
theorem lone_touch_taps_at_origin (sE s0 s s1 : Input) (f0 f : Frame) (fs : List Frame)
    (id : TouchID) (hE : sE.touches = [] ∧ sE.Pan = none ∧ sE.Pinch = none)
    (hpress : f0.justPressedTouchIDs = [id]) (h0 : Update f0 sE = .ok s0)
    (hlife : runWhile (fun f _ => f.justPressedTouchIDs.isEmpty && !f.isTouchJustReleased id)
      s0 fs = some s)
    (hu : Update f s = .ok s1) :
    (∀ ox oy cx cy : Int,
      (0.25 : ℝ) < Real.sqrt ((hypotenuse ox oy cx cy).radicand : ℝ) ↔ (cx ≠ ox ∨ cy ≠ oy)) ∧
    (∃ t, s.touches = [(id, t)] ∧ t.originX = (f0.touchPosition id).1 ∧
      t.originY = (f0.touchPosition id).2) ∧
    ∀ tp ∈ s1.Taps, tp = ⟨(f0.touchPosition id).1, (f0.touchPosition id).2⟩ := by
  have hJ := loneTouch_run id _ _ fs s0 s (loneTouch_press f0 sE s0 id hE hpress h0) hlife
  obtain ⟨t, hshape, hox, hoy, hcase⟩ := hJ
  refine ⟨pan_test_iff_moved, ⟨t, hshape, hox, hoy⟩, ?_⟩
  intro tp htp
  rw [Update_Taps f s s1 hu, hshape] at htp
  by_cases hc : (f.isTouchJustReleased id && isTap t) = true
  · simp only [List.filter_cons, hc, if_true, List.filter_nil, List.map_cons, List.map_nil,
      List.mem_singleton] at htp
    simp only [Bool.and_eq_true] at hc
    rcases hcase with hi | ⟨hx, hy, _⟩
    · have := isTap_of_flagged t (Or.inr hi)
      rw [this] at hc
      exact absurd hc.2 (by decide)
    · rw [htp]
      simp [tapAt, hx, hy]
  · simp [List.filter_cons, hc] at htp

theorem lone_touch_taps_at_origin_witness :
    Update framePress0 NewInput = .ok statePressed ∧
      runWhile (fun f _ => f.justPressedTouchIDs.isEmpty && !f.isTouchJustReleased 0)
        statePressed [frameHold] = some stateHeld ∧
      Update frameRelease0 stateHeld = .ok stateTapped ∧
      stateTapped.Taps = [⟨0, 0⟩] ∧
      ∀ tp ∈ stateTapped.Taps,
        tp = ⟨(framePress0.touchPosition 0).1, (framePress0.touchPosition 0).2⟩ :=
  ⟨rfl, rfl, rfl, rfl,
    (lone_touch_taps_at_origin NewInput statePressed stateHeld stateTapped framePress0
      frameRelease0 [frameHold] 0 ⟨rfl, rfl, rfl⟩ rfl rfl rfl rfl).2.2⟩


/-! ## Coordinates in screen range -/

theorem inScreen_iff (x y : Int) :
    inScreen x y = true ↔ (-8192 ≤ x ∧ x ≤ 8192 ∧ -8192 ≤ y ∧ y ≤ 8192) := by
  simp only [inScreen, coordBound, Bool.and_eq_true, decide_eq_true_eq]
  tauto

theorem wrap64_sub (a b : Int) (ha : -8192 ≤ a ∧ a ≤ 8192) (hb : -8192 ≤ b ∧ b ≤ 8192) :
    wrap64 (a - b) = a - b := by
  unfold wrap64
  omega

theorem natAbs_sub_le (a b : Int) (ha : -8192 ≤ a ∧ a ≤ 8192) (hb : -8192 ≤ b ∧ b ≤ 8192) :
    (a - b).natAbs ≤ 16384 := by
  omega

theorem hypotenuse_inScreen (xa ya xb yb : Int) (ha : inScreen xa ya = true)
    (hb : inScreen xb yb = true) : (hypotenuse xa ya xb yb).inScreen = true := by
  rw [inScreen_iff] at ha hb
  have hx := natAbs_sub_le xa xb ⟨ha.1, ha.2.1⟩ ⟨hb.1, hb.2.1⟩
  have hy := natAbs_sub_le ya yb ⟨ha.2.2.1, ha.2.2.2⟩ ⟨hb.2.2.1, hb.2.2.2⟩
  have h1 := Nat.mul_le_mul hx hx
  have h2 := Nat.mul_le_mul hy hy
  simp only [Hyp.inScreen, hypotenuse, distBound, decide_eq_true_eq]
  omega

theorem distBound_exact : distBound < 2 ^ 53 := by decide

theorem mem_of_lookup (m : List (TouchID × touch)) (id : TouchID) (t : touch)
    (h : lookup m id = some t) : (id, t) ∈ m := by
  induction m with
  | nil => simp [lookup] at h
  | cons e rest ih =>
    by_cases he : e.1 = id
    · simp only [lookup, he, if_true, Option.some.injEq] at h
      rw [← he, ← h]
      exact List.mem_cons_self _ _
    · simp only [lookup, he, if_false] at h
      exact List.mem_cons_of_mem _ (ih h)


/-! ## Taps, for records in screen range -/

/-- C2: for a tracker whose records are in screen range, after a completed
`Update` the list `Taps` holds, in visiting order, one tap at the last recorded
current position for each tracked touch that is reported released and passes
the tap test, and nothing else (in particular nothing of the old `Taps`).  For
every tracked record the tap test holds exactly when `wasPinch` and `isPan` are
both false and the duration is at most 75 or the distance from the origin to
the current position is below 5; the coordinate differences taken for it do not
wrap and the sum of their squares is exact.  `Taps` is empty when no tracked
touch is released. -/
theorem taps_after_Update (f : Frame) (s s1 : Input) (hb : s.inScreen = true)
    (h : Update f s = .ok s1) :
    s1.Taps = (s.touches.filter (fun e => f.isTouchJustReleased e.1 && isTap e.2)).map
        (fun e => { X := e.2.currX, Y := e.2.currY }) ∧
      (∀ e ∈ s.touches,
        (isTap e.2 = true ↔
          (e.2.wasPinch = false ∧ e.2.isPan = false ∧
            (e.2.duration ≤ 75 ∨
              Real.sqrt (((e.2.originX : ℝ) - (e.2.currX : ℝ)) ^ 2 +
                ((e.2.originY : ℝ) - (e.2.currY : ℝ)) ^ 2) < 5))) ∧
        wrap64 (e.2.originX - e.2.currX) = e.2.originX - e.2.currX ∧
        wrap64 (e.2.originY - e.2.currY) = e.2.originY - e.2.currY ∧
        (hypotenuse e.2.originX e.2.originY e.2.currX e.2.currY).radicand < 2 ^ 53) ∧
      ((∀ e ∈ s.touches, f.isTouchJustReleased e.1 = false) → s1.Taps = []) := by
  have h1 := Update_Taps f s s1 h
  refine ⟨h1, ?_, ?_⟩
  · intro e he
    have hs : e.2.inScreen = true := by
      simp only [Input.inScreen, List.all_eq_true] at hb
      exact hb e he
    simp only [touch.inScreen, Bool.and_eq_true] at hs
    have ho := (inScreen_iff _ _).1 hs.1
    have hc := (inScreen_iff _ _).1 hs.2
    refine ⟨isTap_iff e.2, wrap64_sub _ _ ⟨ho.1, ho.2.1⟩ ⟨hc.1, hc.2.1⟩,
      wrap64_sub _ _ ⟨ho.2.2.1, ho.2.2.2⟩ ⟨hc.2.2.1, hc.2.2.2⟩, ?_⟩
    have hr := hypotenuse_inScreen _ _ _ _ hs.1 hs.2
    simp only [Hyp.inScreen, decide_eq_true_eq] at hr
    exact lt_of_le_of_lt hr distBound_exact
  · intro hn
    rw [h1, List.map_eq_nil_iff, List.filter_eq_nil_iff]
    intro e he
    simp [hn e he]

theorem taps_after_Update_witness :
    stateOneStill.inScreen = true ∧
      Update (Frame.ofLists [0] [] []) stateOneStill =
        .ok { touches := [], Pinch := none, Pan := none, Taps := [⟨10, 10⟩] } ∧
      ({ touches := [], Pinch := none, Pan := none, Taps := [⟨10, 10⟩] } : Input).Taps =
        [⟨10, 10⟩] :=
  ⟨rfl, rfl, (taps_after_Update (Frame.ofLists [0] [] []) stateOneStill
      { touches := [], Pinch := none, Pan := none, Taps := [⟨10, 10⟩] } rfl rfl).1⟩


/-! ## Start of a pinch, for coordinates in screen range -/

theorem refreshed_inScreen (f : Frame) (s m : Input) (hwf : (keys s.touches).Nodup)
    (hbs : s.inScreen = true)
    (hbf : f.inScreen (f.touchIDs ++ f.justPressedTouchIDs) = true)
    (hm : refreshed f s = .ok m) : m.inScreen = true := by
  have hmk : keys m.touches = keys (afterPress f s).touches := by
    rw [(refreshed_inv f s m hm).2]; exact keys_observeAll _ _ _
  have hnd : (keys m.touches).Nodup := hmk ▸ afterPress_nodup f s hwf
  simp only [Input.inScreen, List.all_eq_true] at hbs ⊢
  simp only [Frame.inScreen, List.all_eq_true, List.mem_append] at hbf
  intro e he
  have hl := lookup_of_mem m.touches hnd e he
  rw [refreshed_lookup f s m hm] at hl
  by_cases hp : e.1 ∈ f.justPressedTouchIDs
  · rw [if_pos hp, Option.map_some', Option.some.injEq] at hl
    have hpos := hbf e.1 (Or.inr hp)
    rw [← hl]
    split_ifs <;> simp [touch.inScreen, observe, pressed, hpos]
  · rw [if_neg hp] at hl
    cases hr : f.isTouchJustReleased e.1
    · simp only [hr, Bool.false_eq_true, if_false] at hl
      cases h0 : lookup s.touches e.1 with
      | none => simp [h0] at hl
      | some t0 =>
        simp only [h0, Option.map_some', Option.some.injEq] at hl
        have ht0 := hbs (e.1, t0) (mem_of_lookup s.touches e.1 t0 h0)
        simp only [touch.inScreen, Bool.and_eq_true] at ht0
        rw [← hl]
        by_cases ha : e.1 ∈ f.touchIDs
        · have hpos := hbf e.1 (Or.inl ha)
          simp [ha, touch.inScreen, observe, ht0.1, hpos]
        · simp [ha, touch.inScreen, ht0.1, ht0.2]
    · simp [hr] at hl

theorem detect_keeps_wasPinch (f : Frame) (m s1 : Input) (hd : detect f m = .ok s1)
    (hp : s1.Pinch = m.Pinch) (id : TouchID) (t0 : touch)
    (h0 : lookup m.touches id = some t0) :
    ∃ t1, lookup s1.touches id = some t1 ∧ t1.wasPinch = t0.wasPinch := by
  rcases detect_cases f m s1 hd with h1 | ⟨id1, id2, t1, t2, _, _, _, _, _, hg, h1⟩ |
      ⟨i, ti, _, _, _, _, h1⟩
  · rw [h1]; exact ⟨t0, h0, rfl⟩
  · simp only [pinchGuard, Bool.and_eq_true, Option.isNone_iff_eq_none] at hg
    rw [h1, hg.1.1] at hp
    cases hp
  · rw [h1, lookup_startPan, h0, Option.map_some']
    exact ⟨_, rfl, by split_ifs <;> rfl⟩

/-- C7, as stated, fails: `frameCrepress` is host-consistent with the
well-formed state `stateC`, in which a pinch is active, so `Update` starts no
pinch; yet the `wasPinch` flag of the tracked touch 0, which is not released,
changes from true to false. -/
theorem repress_clears_wasPinch :
    (keys stateC.touches).Nodup ∧ hostConsistent frameCrepress stateC = true ∧
      stateC.inScreen = true ∧
      refreshed frameCrepress stateC = .ok stateCrepressed ∧
      Update frameCrepress stateC = .ok stateCrepressed ∧
      stateC.Pinch = some pinchC ∧ stateCrepressed.Pinch = some pinchC ∧
      frameCrepress.isTouchJustReleased 0 = false ∧
      (lookup stateC.touches 0).map (fun t => t.wasPinch) = some true ∧
      (lookup stateCrepressed.touches 0).map (fun t => t.wasPinch) = some false :=
  ⟨by decide, rfl, rfl, rfl, rfl, rfl, rfl, rfl, rfl, rfl⟩

/-- C7, amended: for a well-formed state and a host-consistent frame that
reports no tracked identifier as newly pressed again, all coordinates in screen
range, with `m` the state after release processing, new presses and refresh
(its records are in screen range too): `Update` starts a pinch exactly when `m`
has no pinch and no pan, exactly two touches are tracked and the distance
between their origins and the distance between their current positions differ
by more than 3.  The new pinch refers to these two touches, its `originH` and
`prevH` are both the distance between the origins, both records get `wasPinch`
and no pan exists.  Otherwise `Pinch` is left as it was, no `wasPinch` flag of
`m` changes, and every touch that was tracked before the call and is not
released keeps the `wasPinch` flag it had before the call. -/
theorem pinch_start_rule (f : Frame) (s : Input) (hwf : (keys s.touches).Nodup)
    (hc : hostConsistent f s = true) (hn : noRepress f s = true)
    (hbs : s.inScreen = true)
    (hbf : f.inScreen (f.touchIDs ++ f.justPressedTouchIDs) = true) :
    ∃ (m s1 : Input) (starts : Bool), refreshed f s = .ok m ∧ Update f s = .ok s1 ∧
      m.inScreen = true ∧
      (starts = true ↔
        (m.Pinch = none ∧ m.Pan = none ∧ ∃ a ta b tb, m.touches = [(a, ta), (b, tb)] ∧
          (3 : ℝ) <
            |Real.sqrt ((hypotenuse ta.originX ta.originY tb.originX tb.originY).radicand : ℝ) -
              Real.sqrt ((hypotenuse ta.currX ta.currY tb.currX tb.currY).radicand : ℝ)|)) ∧
      (starts = true →
        ∃ a ta b tb q, m.touches = [(a, ta), (b, tb)] ∧ m.Pinch = none ∧ s1.Pinch = some q ∧
          ((q.id1 = a ∧ q.id2 = b) ∨ (q.id1 = b ∧ q.id2 = a)) ∧
          q.originH = hypotenuse ta.originX ta.originY tb.originX tb.originY ∧
          q.prevH = hypotenuse ta.originX ta.originY tb.originX tb.originY ∧
          ((q.originH.radicand : ℕ) : ℝ) =
            ((ta.originX : ℝ) - (tb.originX : ℝ)) ^ 2 +
              ((ta.originY : ℝ) - (tb.originY : ℝ)) ^ 2 ∧
          s1.touches = [(a, { ta with wasPinch := true }), (b, { tb with wasPinch := true })] ∧
          s1.Pan = none) ∧
      (starts = false →
        s1.Pinch = m.Pinch ∧
          s1.touches.map (fun e => (e.1, e.2.wasPinch)) =
            m.touches.map (fun e => (e.1, e.2.wasPinch)) ∧
          ∀ id t, lookup s.touches id = some t → f.isTouchJustReleased id = false →
            ∃ t1, lookup s1.touches id = some t1 ∧ t1.wasPinch = t.wasPinch) := by
  obtain ⟨m, s1, starts, hm, hu, hiff, hst, hns⟩ := pinch_start_detect f s hwf hc
  refine ⟨m, s1, starts, hm, hu, refreshed_inScreen f s m hwf hbs hbf hm, hiff, ?_, ?_⟩
  · intro h
    obtain ⟨a, ta, b, tb, q, h1, h2, h3, h4, h5, h6, h7, h8⟩ := hst h
    refine ⟨a, ta, b, tb, q, h1, h2, h3, h4, h5, h6, ?_, h7, h8⟩
    rw [h5, hypotenuse_radicand]
  · intro h
    obtain ⟨k1, k2⟩ := hns h
    refine ⟨k1, k2, ?_⟩
    intro id t ht hr
    obtain ⟨t0, l0, w0, _⟩ := refreshed_kept f s m hm hn id t ht hr
    have hd : detect f m = .ok s1 := (Update_eq_detect f s m hm) ▸ hu
    obtain ⟨t1, l1, w1⟩ := detect_keeps_wasPinch f m s1 hd k1 id t0 l0
    exact ⟨t1, l1, w1.trans w0⟩

theorem pinch_start_rule_witness :
    (keys stateC1.touches).Nodup ∧ hostConsistent frameC2 stateC1 = true ∧
      noRepress frameC2 stateC1 = true ∧ stateC1.inScreen = true ∧
      frameC2.inScreen (frameC2.touchIDs ++ frameC2.justPressedTouchIDs) = true ∧
      Update frameC2 stateC1 = .ok stateC ∧
      ∃ (m s1 : Input) (starts : Bool), refreshed frameC2 stateC1 = .ok m ∧
        Update frameC2 stateC1 = .ok s1 ∧ m.inScreen = true ∧
        (starts = true ↔
          (m.Pinch = none ∧ m.Pan = none ∧ ∃ a ta b tb, m.touches = [(a, ta), (b, tb)] ∧
            (3 : ℝ) <
              |Real.sqrt ((hypotenuse ta.originX ta.originY tb.originX tb.originY).radicand : ℝ) -
                Real.sqrt ((hypotenuse ta.currX ta.currY tb.currX tb.currY).radicand : ℝ)|)) ∧
        (starts = true →
          ∃ a ta b tb q, m.touches = [(a, ta), (b, tb)] ∧ m.Pinch = none ∧ s1.Pinch = some q ∧
            ((q.id1 = a ∧ q.id2 = b) ∨ (q.id1 = b ∧ q.id2 = a)) ∧
            q.originH = hypotenuse ta.originX ta.originY tb.originX tb.originY ∧
            q.prevH = hypotenuse ta.originX ta.originY tb.originX tb.originY ∧
            ((q.originH.radicand : ℕ) : ℝ) =
              ((ta.originX : ℝ) - (tb.originX : ℝ)) ^ 2 +
                ((ta.originY : ℝ) - (tb.originY : ℝ)) ^ 2 ∧
            s1.touches = [(a, { ta with wasPinch := true }), (b, { tb with wasPinch := true })] ∧
            s1.Pan = none) ∧
        (starts = false →
          s1.Pinch = m.Pinch ∧
            s1.touches.map (fun e => (e.1, e.2.wasPinch)) =
              m.touches.map (fun e => (e.1, e.2.wasPinch)) ∧
            ∀ id t, lookup stateC1.touches id = some t →
              frameC2.isTouchJustReleased id = false →
              ∃ t1, lookup s1.touches id = some t1 ∧ t1.wasPinch = t.wasPinch) :=
  ⟨by decide, rfl, rfl, rfl, rfl, rfl,
    pinch_start_rule frameC2 stateC1 (by decide) rfl rfl rfl rfl⟩


/-! ## Pinch queries, for positions in screen range -/

theorem currentH_radicand (f : Frame) (p : pinch) :
    (((p.currentH f).radicand : ℕ) : ℝ) =
      (((f.touchPosition p.id1).1 : ℝ) - ((f.touchPosition p.id2).1 : ℝ)) ^ 2 +
        (((f.touchPosition p.id1).2 : ℝ) - ((f.touchPosition p.id2).2 : ℝ)) ^ 2 := by
  simp only [pinch.currentH]
  exact hypotenuse_radicand _ _ _ _

theorem pinch_positions (f : Frame) (p : pinch) (hpos : f.inScreen [p.id1, p.id2] = true) :
    inScreen (f.touchPosition p.id1).1 (f.touchPosition p.id1).2 = true ∧
      inScreen (f.touchPosition p.id2).1 (f.touchPosition p.id2).2 = true := by
  simp only [Frame.inScreen, List.all_cons, List.all_nil, Bool.and_true, Bool.and_eq_true] at hpos
  exact hpos

theorem currentH_inScreen (f : Frame) (p : pinch) (hpos : f.inScreen [p.id1, p.id2] = true) :
    (p.currentH f).inScreen = true := by
  obtain ⟨h1, h2⟩ := pinch_positions f p hpos
  exact hypotenuse_inScreen _ _ _ _ h1 h2

theorem pinch_no_wrap (f : Frame) (p : pinch) (hpos : f.inScreen [p.id1, p.id2] = true) :
    wrap64 ((f.touchPosition p.id1).1 - (f.touchPosition p.id2).1) =
        (f.touchPosition p.id1).1 - (f.touchPosition p.id2).1 ∧
      wrap64 ((f.touchPosition p.id1).2 - (f.touchPosition p.id2).2) =
        (f.touchPosition p.id1).2 - (f.touchPosition p.id2).2 := by
  obtain ⟨h1, h2⟩ := pinch_positions f p hpos
  rw [inScreen_iff] at h1 h2
  exact ⟨wrap64_sub _ _ ⟨h1.1, h1.2.1⟩ ⟨h2.1, h2.2.1⟩,
    wrap64_sub _ _ ⟨h1.2.2.1, h1.2.2.2⟩ ⟨h2.2.2.1, h2.2.2.2⟩⟩

/-- C10: for a pinch and positions of its two touches in screen range, with `c`
the distance between the two positions, `Incremental` returns the difference
`prevH - c` (its first term is `prevH`, its second term is the square root of
the sum of the squared coordinate differences, which are taken without wrap)
and leaves the pinch with `prevH = c`, identifiers and `originH` unchanged; a
second call on the same frame returns zero. -/
theorem pinch_Incremental_twice (f : Frame) (p : pinch)
    (hpos : f.inScreen [p.id1, p.id2] = true) :
    (p.Incremental f).1.minuend = p.prevH ∧
      (((p.Incremental f).1.subtrahend.radicand : ℕ) : ℝ) =
        (((f.touchPosition p.id1).1 : ℝ) - ((f.touchPosition p.id2).1 : ℝ)) ^ 2 +
          (((f.touchPosition p.id1).2 : ℝ) - ((f.touchPosition p.id2).2 : ℝ)) ^ 2 ∧
      Real.sqrt ((p.Incremental f).1.minuend.radicand : ℝ) -
          Real.sqrt ((p.Incremental f).1.subtrahend.radicand : ℝ) =
        Real.sqrt (p.prevH.radicand : ℝ) -
          Real.sqrt ((((f.touchPosition p.id1).1 : ℝ) - ((f.touchPosition p.id2).1 : ℝ)) ^ 2 +
            (((f.touchPosition p.id1).2 : ℝ) - ((f.touchPosition p.id2).2 : ℝ)) ^ 2) ∧
      (p.Incremental f).2.id1 = p.id1 ∧ (p.Incremental f).2.id2 = p.id2 ∧
      (p.Incremental f).2.originH = p.originH ∧
      (p.Incremental f).2.prevH = (p.Incremental f).1.subtrahend ∧
      (p.Incremental f).2.prevH.inScreen = true ∧
      wrap64 ((f.touchPosition p.id1).1 - (f.touchPosition p.id2).1) =
        (f.touchPosition p.id1).1 - (f.touchPosition p.id2).1 ∧
      wrap64 ((f.touchPosition p.id1).2 - (f.touchPosition p.id2).2) =
        (f.touchPosition p.id1).2 - (f.touchPosition p.id2).2 ∧
      ((p.Incremental f).2.Incremental f).1.isZero = true ∧
      Real.sqrt (((p.Incremental f).2.Incremental f).1.minuend.radicand : ℝ) -
        Real.sqrt (((p.Incremental f).2.Incremental f).1.subtrahend.radicand : ℝ) = 0 := by
  have e1 : (p.Incremental f).1.minuend = p.prevH := rfl
  have e2 : (p.Incremental f).1.subtrahend = p.currentH f := rfl
  have e3 : (p.Incremental f).2.prevH = p.currentH f := rfl
  have hz : ((p.Incremental f).2.Incremental f).1.isZero = true := by
    simp [pinch.Incremental, pinch.currentH, HypDiff.isZero, HypDiff.neg, Hyp.sub]
  obtain ⟨w1, w2⟩ := pinch_no_wrap f p hpos
  refine ⟨e1, ?_, ?_, rfl, rfl, rfl, e3.trans e2.symm, ?_, w1, w2, hz,
    (HypDiff.isZero_iff _).1 hz⟩
  · rw [e2]; exact currentH_radicand f p
  · rw [e1, e2, currentH_radicand f p]
  · rw [e3]; exact currentH_inScreen f p hpos

theorem pinch_Incremental_twice_witness :
    frameC2.inScreen [pinchC.id1, pinchC.id2] = true ∧
      (pinchC.Incremental frameC2).1.minuend = pinchC.prevH ∧
      (pinchC.Incremental frameC2).1.subtrahend.radicand = 400 ∧
      ((pinchC.Incremental frameC2).2.Incremental frameC2).1.isZero = true :=
  have key := pinch_Incremental_twice frameC2 pinchC rfl
  ⟨rfl, key.1, rfl, key.2.2.2.2.2.2.2.2.2.2.1⟩

/-- C11, amended: for a pinch whose `prevH` is a distance in screen range and
positions of its two touches in screen range, when the distance between the
two positions is greater than `prevH` (the touches moved apart) `Incremental`
returns a negative value, and when it is smaller (they moved together) a
positive value; both terms of the returned difference are distances in screen
range. -/
theorem pinch_Incremental_sign (f : Frame) (p : pinch)
    (hpos : f.inScreen [p.id1, p.id2] = true) (hprev : p.prevH.inScreen = true) :
    (Real.sqrt (p.prevH.radicand : ℝ) <
        Real.sqrt ((((f.touchPosition p.id1).1 : ℝ) - ((f.touchPosition p.id2).1 : ℝ)) ^ 2 +
          (((f.touchPosition p.id1).2 : ℝ) - ((f.touchPosition p.id2).2 : ℝ)) ^ 2) →
      Real.sqrt ((p.Incremental f).1.minuend.radicand : ℝ) -
        Real.sqrt ((p.Incremental f).1.subtrahend.radicand : ℝ) < 0) ∧
    (Real.sqrt ((((f.touchPosition p.id1).1 : ℝ) - ((f.touchPosition p.id2).1 : ℝ)) ^ 2 +
          (((f.touchPosition p.id1).2 : ℝ) - ((f.touchPosition p.id2).2 : ℝ)) ^ 2) <
        Real.sqrt (p.prevH.radicand : ℝ) →
      0 < Real.sqrt ((p.Incremental f).1.minuend.radicand : ℝ) -
        Real.sqrt ((p.Incremental f).1.subtrahend.radicand : ℝ)) ∧
    (p.Incremental f).1.minuend.inScreen = true ∧
    (p.Incremental f).1.subtrahend.inScreen = true := by
  have e1 : (p.Incremental f).1.minuend = p.prevH := rfl
  have e2 : (p.Incremental f).1.subtrahend = p.currentH f := rfl
  rw [e1, e2, ← currentH_radicand f p]
  exact ⟨fun h => sub_neg.2 h, fun h => sub_pos.2 h, hprev, currentH_inScreen f p hpos⟩

theorem pinch_Incremental_sign_witness :
    frameC2.inScreen [pinchC.id1, pinchC.id2] = true ∧ pinchC.prevH.inScreen = true ∧
      pinchC.prevH.radicand < (pinchC.currentH frameC2).radicand ∧
      Real.sqrt ((pinchC.Incremental frameC2).1.minuend.radicand : ℝ) -
        Real.sqrt ((pinchC.Incremental frameC2).1.subtrahend.radicand : ℝ) < 0 :=
  have h : Real.sqrt (pinchC.prevH.radicand : ℝ) <
      Real.sqrt ((((frameC2.touchPosition pinchC.id1).1 : ℝ) -
          ((frameC2.touchPosition pinchC.id2).1 : ℝ)) ^ 2 +
        (((frameC2.touchPosition pinchC.id1).2 : ℝ) -
          ((frameC2.touchPosition pinchC.id2).2 : ℝ)) ^ 2) := by
    rw [← currentH_radicand frameC2 pinchC, Real.sqrt_lt_sqrt_iff (Nat.cast_nonneg _)]
    exact_mod_cast (by decide : pinchC.prevH.radicand < (pinchC.currentH frameC2).radicand)
  ⟨rfl, rfl, by decide, (pinch_Incremental_sign frameC2 pinchC rfl rfl).1 h⟩


/-- C15: for positions and a pan origin in screen range, `Total` of a pinch
returns the difference `originH - c`, where `c` is the square root of the sum
of the squared coordinate differences of the two positions, `Total` of a pan
returns the current position minus the origin of the pan (differences taken
without wrap), both leave the gesture as it was, and an `Incremental` that
follows (on the same or on a later frame `g`) returns what it would have
returned without the call of `Total`. -/
theorem Total_reads_only (f g : Frame) (p : pinch) (q : pan)
    (hpos : f.inScreen [p.id1, p.id2] = true)
    (hqpos : inScreen (f.touchPosition q.id).1 (f.touchPosition q.id).2 = true)
    (hq : inScreen q.originX q.originY = true) :
    (p.TotalCall f).1.minuend = p.originH ∧
      (((p.TotalCall f).1.subtrahend.radicand : ℕ) : ℝ) =
        (((f.touchPosition p.id1).1 : ℝ) - ((f.touchPosition p.id2).1 : ℝ)) ^ 2 +
          (((f.touchPosition p.id1).2 : ℝ) - ((f.touchPosition p.id2).2 : ℝ)) ^ 2 ∧
      Real.sqrt ((p.TotalCall f).1.minuend.radicand : ℝ) -
          Real.sqrt ((p.TotalCall f).1.subtrahend.radicand : ℝ) =
        Real.sqrt (p.originH.radicand : ℝ) -
          Real.sqrt ((((f.touchPosition p.id1).1 : ℝ) - ((f.touchPosition p.id2).1 : ℝ)) ^ 2 +
            (((f.touchPosition p.id1).2 : ℝ) - ((f.touchPosition p.id2).2 : ℝ)) ^ 2) ∧
      (p.TotalCall f).1.subtrahend.inScreen = true ∧
      (p.TotalCall f).2 = p ∧
      (p.TotalCall f).2.Incremental g = p.Incremental g ∧
      (q.TotalCall f).1 =
        ((f.touchPosition q.id).1 - q.originX, (f.touchPosition q.id).2 - q.originY) ∧
      wrap64 ((f.touchPosition q.id).1 - q.originX) = (f.touchPosition q.id).1 - q.originX ∧
      wrap64 ((f.touchPosition q.id).2 - q.originY) = (f.touchPosition q.id).2 - q.originY ∧
      (q.TotalCall f).2 = q ∧
      (q.TotalCall f).2.Incremental g = q.Incremental g := by
  have e1 : (p.TotalCall f).1.minuend = p.originH := rfl
  have e2 : (p.TotalCall f).1.subtrahend = p.currentH f := rfl
  rw [inScreen_iff] at hqpos hq
  refine ⟨e1, ?_, ?_, ?_, rfl, rfl, rfl,
    wrap64_sub _ _ ⟨hqpos.1, hqpos.2.1⟩ ⟨hq.1, hq.2.1⟩,
    wrap64_sub _ _ ⟨hqpos.2.2.1, hqpos.2.2.2⟩ ⟨hq.2.2.1, hq.2.2.2⟩, rfl, rfl⟩
  · rw [e2]; exact currentH_radicand f p
  · rw [e1, e2, currentH_radicand f p]
  · rw [e2]; exact currentH_inScreen f p hpos

theorem Total_reads_only_witness :
    frameC2.inScreen [pinchC.id1, pinchC.id2] = true ∧
      inScreen (frameC2.touchPosition panB.id).1 (frameC2.touchPosition panB.id).2 = true ∧
      inScreen panB.originX panB.originY = true ∧
      (pinchC.TotalCall frameC2).1.minuend = pinchC.originH ∧
      (pinchC.TotalCall frameC2).1.subtrahend.radicand = 400 ∧
      (pinchC.TotalCall frameC2).2 = pinchC ∧
      (panB.TotalCall frameC2).2 = panB :=
  have key := Total_reads_only frameC2 frameB3 pinchC panB rfl rfl rfl
  ⟨rfl, rfl, rfl, key.1, rfl, key.2.2.2.2.1, key.2.2.2.2.2.2.2.2.2.1⟩

/-! ## Pan queries, for positions in screen range -/

theorem Incrementals_bounded (fs : List Frame) :
    ∀ p : pan, inScreen p.prevX p.prevY = true →
      (∀ h ∈ fs, inScreen (h.touchPosition p.id).1 (h.touchPosition p.id).2 = true) →
      ∀ d ∈ (p.Incrementals fs).1,
        (-16384 ≤ d.1 ∧ d.1 ≤ 16384) ∧ (-16384 ≤ d.2 ∧ d.2 ≤ 16384) := by
  induction fs with
  | nil => intro p _ _ d hd; simp [pan.Incrementals] at hd
  | cons f fs ih =>
    intro p hp hfs d hd
    have hf := hfs f (List.mem_cons_self f fs)
    simp only [pan.Incrementals, List.mem_cons] at hd
    rcases hd with hd | hd
    · rw [hd]
      rw [inScreen_iff] at hp hf
      simp only [pan.Incremental]
      omega
    · refine ih (p.Incremental f).2 hf ?_ d hd
      intro h hh
      exact hfs h (List.mem_cons_of_mem f hh)

/-- C12: for a pan started by an `Update`, with its origin in screen range, and
any calls of `Incremental` made on it since, one per frame of `fs` and then one
on the frame `g`, all on positions in screen range: `Total` evaluated on `g` is
the componentwise sum, in call order, of the values these calls returned; every
returned component is a difference taken without wrap, of magnitude at most
16384. -/
theorem pan_Total_is_sum (f : Frame) (s s1 : Input) (p : pan) (hu : Update f s = .ok s1)
    (hp : s1.Pan = some p) (hnew : s.Pan ≠ some p) (fs : List Frame) (g : Frame)
    (ho : inScreen p.originX p.originY = true)
    (hfs : ∀ h ∈ fs ++ [g], inScreen (h.touchPosition p.id).1 (h.touchPosition p.id).2 = true) :
    (p.Incrementals (fs ++ [g])).2.Total g =
        (((p.Incrementals (fs ++ [g])).1.map Prod.fst).sum,
          ((p.Incrementals (fs ++ [g])).1.map Prod.snd).sum) ∧
      (∀ d ∈ (p.Incrementals (fs ++ [g])).1,
        wrap64 d.1 = d.1 ∧ wrap64 d.2 = d.2 ∧
          (-16384 ≤ d.1 ∧ d.1 ≤ 16384) ∧ (-16384 ≤ d.2 ∧ d.2 ≤ 16384)) ∧
      (-16384 ≤ ((p.Incrementals (fs ++ [g])).2.Total g).1 ∧
        ((p.Incrementals (fs ++ [g])).2.Total g).1 ≤ 16384) ∧
      (-16384 ≤ ((p.Incrementals (fs ++ [g])).2.Total g).2 ∧
        ((p.Incrementals (fs ++ [g])).2.Total g).2 ≤ 16384) := by
  obtain ⟨hx, hy⟩ := Update_new_pan f s s1 p hu hp hnew
  obtain ⟨h1, h2⟩ := Incrementals_sum (fs ++ [g]) p
  obtain ⟨l1, l2⟩ := Incrementals_last fs g p
  obtain ⟨e1, e2, e3⟩ := Incrementals_fields (fs ++ [g]) p
  have hprev : inScreen p.prevX p.prevY = true := by rw [hx, hy]; exact ho
  have hg := hfs g (by simp)
  have hT : (p.Incrementals (fs ++ [g])).2.Total g =
      ((g.touchPosition p.id).1 - p.originX, (g.touchPosition p.id).2 - p.originY) := by
    simp only [pan.Total, e1, e2, e3]
  refine ⟨?_, ?_, ?_, ?_⟩
  · rw [h1, h2, l1, l2, hx, hy]
    exact hT
  · intro d hd
    obtain ⟨b1, b2⟩ := Incrementals_bounded (fs ++ [g]) p hprev hfs d hd
    refine ⟨?_, ?_, b1, b2⟩
    · unfold wrap64; omega
    · unfold wrap64; omega
  · rw [hT]
    rw [inScreen_iff] at ho hg
    simp only
    omega
  · rw [hT]
    rw [inScreen_iff] at ho hg
    simp only
    omega

theorem pan_Total_is_sum_witness :
    Update frameDrag statePressed = .ok stateDragged ∧ stateDragged.Pan = some panB ∧
      statePressed.Pan ≠ some panB ∧ inScreen panB.originX panB.originY = true ∧
      (panB.Incrementals ([frameDrag] ++ [frameB3])).1 = [(0, 1), (0, 4)] ∧
      (panB.Incrementals ([frameDrag] ++ [frameB3])).2.Total frameB3 =
        (((panB.Incrementals ([frameDrag] ++ [frameB3])).1.map Prod.fst).sum,
          ((panB.Incrementals ([frameDrag] ++ [frameB3])).1.map Prod.snd).sum) :=
  ⟨rfl, rfl, by decide, rfl, rfl,
    (pan_Total_is_sum frameDrag statePressed stateDragged panB rfl rfl (by decide)
      [frameDrag] frameB3 rfl (by decide)).1⟩

end TouchNav
